import Mathlib

/-!
# PL/R value conversion (pg_conversion.c)

A shallow embedding of the conversion layer between PostgreSQL values and R
values, followed by theorems about it.

Conventions of the embedding.

* An R object (`SEXP`) is a typed payload together with its attribute pairlist.
  The missing marker of a character element is `NA_STRING` (here `none`); the
  missing marker of an integer or logical element is the C value `INT_MIN`; the
  missing marker of a double is the NaN whose low word is 1954.
* A C `double` is kept as its 64 bit pattern.  The C library routines `atoi` and
  `atof` and the R formatting routines are taken as parameters (`CRuntime`).
* A `Datum` is a value of an arbitrary type `D`; only the type's output and
  input functions look inside it.
* `elog(ERROR, ...)` is a non-local exit: functions that may reach one return an
  `Except PlrError`.  A read or write outside an object, whose behaviour C leaves
  undefined, is reported as `PlrError.memoryFault`.
* Extents are C `int`s that PostgreSQL and R both keep non-negative; they are
  natural numbers here.
* Physical layout (element size, alignment, by-value passing) and the R
  protection stack have no counterpart: the data pointer of an array is the
  position of the next element.
* The state of a result conversion carries a record of the conversion routines
  entered, so that statements about which path is taken can be written down.
* Where the code reads an integer vector through an accessor of generic vectors
  (`(int) VECTOR_ELT(dfcol, i)` on the codes of a factor), the read is
  pointer-wide: the build is taken to be LP64 and little-endian, a pointer
  covering two `int`s of which the cast keeps the first.
-/

namespace PLR

/-! ## R objects -/

/-- A CHARSXP: `none` is `NA_STRING`, `some s` an ordinary string. -/
abbrev CHARSXP := Option String

/-- The missing character element. -/
def NA_STRING : CHARSXP := none

/-- A C double, kept as its IEEE 754 bit pattern. -/
structure Double where
  bits : Nat
deriving DecidableEq, Repr

/-- R_NaInt is INT_MIN. -/
def NA_INTEGER : Int := -2147483648

/-- NA_LOGICAL is INT_MIN as well. -/
def NA_LOGICAL : Int := -2147483648

/-- R_IsNA: a NaN (exponent bits all set) whose low word is 1954. -/
def R_IsNA (x : Double) : Bool :=
  (x.bits / 2 ^ 52) % 2 ^ 11 == 2047 && x.bits % 2 ^ 32 == 1954

/-- The value of an attribute: an integer vector or a character vector. -/
inductive AttrVal where
  | ints (xs : List Int)
  | strs (xs : List CHARSXP)
deriving DecidableEq, Repr

/-- An attribute pairlist: tag and value, in list order. -/
abbrev Pairlist := List (String × AttrVal)

/-- R objects: R_NilValue, the atomic vectors, generic vectors (VECSXP) and
pairlists (LISTSXP). -/
inductive SEXP where
  | nil
  | lgl (xs : List Int) (attrib : Pairlist)
  | int (xs : List Int) (attrib : Pairlist)
  | real (xs : List Double) (attrib : Pairlist)
  | str (xs : List CHARSXP) (attrib : Pairlist)
  | vec (xs : List SEXP) (attrib : Pairlist)
  | lst (xs : List SEXP) (attrib : Pairlist)

/-- The type tags of `SEXP`. -/
inductive SEXPTYPE where
  | NILSXP | LGLSXP | INTSXP | REALSXP | STRSXP | VECSXP | LISTSXP
deriving DecidableEq, Repr

def TYPEOF : SEXP → SEXPTYPE
  | .nil => .NILSXP
  | .lgl _ _ => .LGLSXP
  | .int _ _ => .INTSXP
  | .real _ _ => .REALSXP
  | .str _ _ => .STRSXP
  | .vec _ _ => .VECSXP
  | .lst _ _ => .LISTSXP

def ATTRIB : SEXP → Pairlist
  | .nil => []
  | .lgl _ a => a
  | .int _ a => a
  | .real _ a => a
  | .str _ a => a
  | .vec _ a => a
  | .lst _ a => a

/-- R `length()`. -/
def length : SEXP → Nat
  | .nil => 0
  | .lgl xs _ => xs.length
  | .int xs _ => xs.length
  | .real xs _ => xs.length
  | .str xs _ => xs.length
  | .vec xs _ => xs.length
  | .lst xs _ => xs.length

def R_DimSymbol : String := "dim"
def R_NamesSymbol : String := "names"
def R_RowNamesSymbol : String := "row.names"
def R_ClassSymbol : String := "class"
def R_LevelsSymbol : String := "levels"

/-- Looks a tag up in a pairlist; `none` is R_NilValue. -/
def lookupAttr (tag : String) : Pairlist → Option AttrVal
  | [] => none
  | (t, v) :: rest => if t = tag then some v else lookupAttr tag rest

def getAttrib (s : SEXP) (tag : String) : Option AttrVal :=
  lookupAttr tag (ATTRIB s)

/-- Replaces the value of `tag` or appends it at the end of the pairlist. -/
def installAttr (tag : String) (v : AttrVal) : Pairlist → Pairlist
  | [] => [(tag, v)]
  | (t, w) :: rest => if t = tag then (t, v) :: rest else (t, w) :: installAttr tag v rest

def setAttrib (s : SEXP) (tag : String) (v : AttrVal) : SEXP :=
  match s with
  | .nil => .nil
  | .lgl xs a => .lgl xs (installAttr tag v a)
  | .int xs a => .int xs (installAttr tag v a)
  | .real xs a => .real xs (installAttr tag v a)
  | .str xs a => .str xs (installAttr tag v a)
  | .vec xs a => .vec xs (installAttr tag v a)
  | .lst xs a => .lst xs (installAttr tag v a)

/-- Length of an attribute value; R_NilValue has length 0. -/
def attrLength : Option AttrVal → Nat
  | none => 0
  | some (.ints xs) => xs.length
  | some (.strs xs) => xs.length

/-- R `inherits`: the class attribute names `cls`. -/
def inherits (s : SEXP) (cls : String) : Bool :=
  match getAttrib s R_ClassSymbol with
  | some (.strs ks) => ks.contains (some cls)
  | _ => false

/-- R `isFrame`: the class attribute names data.frame. -/
def isFrame (s : SEXP) : Bool := inherits s "data.frame"

/-- R `isVector`: atomic vectors and generic vectors. -/
def isVector : SEXP → Bool
  | .lgl _ _ => true
  | .int _ _ => true
  | .real _ _ => true
  | .str _ _ => true
  | .vec _ _ => true
  | _ => false

/-- R `isMatrix`: a vector whose dim attribute is an integer vector of length 2. -/
def isMatrix (s : SEXP) : Bool :=
  isVector s &&
    (match getAttrib s R_DimSymbol with
     | some (.ints ds) => ds.length == 2
     | _ => false)

/-- R `isFactor`: an integer vector of class factor. -/
def isFactor (s : SEXP) : Bool :=
  TYPEOF s == .INTSXP && inherits s "factor"

/-- R `isNull`. -/
def isNull (s : SEXP) : Bool := TYPEOF s == .NILSXP

/-- R `nrows` of a vector: the first extent, or the length without a dim. -/
def nrows (s : SEXP) : Nat :=
  match getAttrib s R_DimSymbol with
  | some (.ints (d :: _)) => d.toNat
  | _ => length s

/-- R `ncols` of a vector: the second extent, or 1. -/
def ncols (s : SEXP) : Nat :=
  match getAttrib s R_DimSymbol with
  | some (.ints (_ :: d :: _)) => d.toNat
  | _ => 1

/-- The C library and R formatting routines the conversion relies on. -/
structure CRuntime where
  /-- C `atoi`. -/
  atoi : String → Int
  /-- C `atof`. -/
  atof : String → Double
  /-- R `EncodeReal` of a double that is not NA. -/
  EncodeReal : Double → String
  /-- R deparse of a list element that is not a length-one character vector. -/
  deparse : SEXP → String

def StringFromLogical (x : Int) : CHARSXP :=
  if x = NA_LOGICAL then NA_STRING else some (if x ≠ 0 then "TRUE" else "FALSE")

def StringFromInteger (x : Int) : CHARSXP :=
  if x = NA_INTEGER then NA_STRING else some (toString x)

def StringFromReal (L : CRuntime) (x : Double) : CHARSXP :=
  if R_IsNA x then NA_STRING else some (L.EncodeReal x)

/-- One element of `coerceVectorList` to character. -/
def StringFromElt (L : CRuntime) : SEXP → CHARSXP
  | .str [c] _ => c
  | s => some (L.deparse s)

/-- The character elements of `AS_CHARACTER(s)`. -/
def asCharacterElts (L : CRuntime) : SEXP → List CHARSXP
  | .nil => []
  | .lgl xs _ => xs.map StringFromLogical
  | .int xs _ => xs.map StringFromInteger
  | .real xs _ => xs.map (StringFromReal L)
  | .str xs _ => xs
  | .vec xs _ => xs.map (StringFromElt L)
  | .lst xs _ => xs.map (StringFromElt L)

/-- `AS_CHARACTER`: coercion to a character vector; attributes are kept. -/
def AS_CHARACTER (L : CRuntime) (s : SEXP) : SEXP :=
  .str (asCharacterElts L s) (ATTRIB s)

/-- `AS_CHARACTER` of an attribute value. -/
def attrAsCharacter : AttrVal → List CHARSXP
  | .ints xs => xs.map StringFromInteger
  | .strs xs => xs

/-- `CHAR`: the C string of a CHARSXP; that of `NA_STRING` is the text NA. -/
def CHAR : CHARSXP → String
  | none => "NA"
  | some s => s

/-! ## PostgreSQL values -/

/-- A type identifier. -/
abbrev Oid := Nat

def BOOLOID : Oid := 16
def NAMEOID : Oid := 19
def INT8OID : Oid := 20
def INT2OID : Oid := 21
def INT4OID : Oid := 23
def FLOAT4OID : Oid := 700
def FLOAT8OID : Oid := 701
def CASHOID : Oid := 790
def NUMERICOID : Oid := 1700

/-- The reported failures of the conversion layer, and `memoryFault` for an
access outside an object. -/
inductive PlrError where
  /-- plr: 4 (or more) dimension arrays are not yet supported as function arguments -/
  | argDimsNotSupported
  /-- plr: Materialize mode required, but it is not allowed in this context -/
  | materializeNotAllowed
  /-- plr: Query-specified return tuple and function returned data.frame are not compatible -/
  | incompatibleTuple
  /-- plr: bad internal representation of data.frame -/
  | badFrameRepresentation
  /-- plr: cannot return array with NULL elements -/
  | nullArrayElement
  /-- plr: returning arrays of greater than 3 dimensions is currently not supported -/
  | retDimsNotSupported
  /-- An error raised by a type input function, with its message. -/
  | inputFunction (msg : String)
  /-- The C code reads or writes outside an object. -/
  | memoryFault
deriving DecidableEq, Repr

/-- A type output function: the text of a datum, or no text (a NULL C string). -/
abbrev OutFunc (D : Type) := D → Option String

/-- A type input function, called with the text and the element type; it either
raises an error with a message or returns the datum. -/
abbrev InFunc (D : Type) := String → Oid → Except String D

/-- Calling an input function: its error becomes the call's failure. -/
def callInFunc {D : Type} (f : InFunc D) (value : String) (typelem : Oid) : Except PlrError D :=
  match f value typelem with
  | .ok d => .ok d
  | .error msg => .error (.inputFunction msg)

/-- An array value: element type, extents, lower bounds and the element
payloads in storage order. -/
structure ArrayType (D : Type) where
  elemtype : Oid
  dims : List Nat
  lbound : List Int
  data : List D

def ARR_NDIM {D : Type} (v : ArrayType D) : Nat := v.dims.length

/-- ArrayGetNItems: 0 without dimensions, else the product of the extents. -/
def ArrayGetNItems (ndim : Nat) (dims : List Nat) : Nat :=
  if ndim = 0 then 0 else dims.prod

/-- construct_md_array over a buffer of datums; a slot never written
(`none`) is an uninitialised read. -/
def construct_md_array {D : Type} (dvalues : List (Option D)) (dims : List Nat)
    (lbs : List Int) (elemtype : Oid) : Except PlrError (ArrayType D) :=
  match dvalues.mapM id with
  | some ds => .ok ⟨elemtype, dims, lbs, ds⟩
  | none => .error .memoryFault

/-! ## PostgreSQL to R -/

/-- Source: `get_r_vector`.  A fresh vector of the kind chosen by the type
identifier; fresh numeric slots hold zero, fresh character slots the empty
string. -/
def get_r_vector (typtype : Oid) (numels : Nat) : SEXP :=
  if typtype = INT2OID ∨ typtype = INT4OID then
    .int (List.replicate numels 0) []
  else if typtype = INT8OID ∨ typtype = FLOAT4OID ∨ typtype = FLOAT8OID
      ∨ typtype = CASHOID ∨ typtype = NUMERICOID then
    .real (List.replicate numels ⟨0⟩) []
  else if typtype = BOOLOID then
    .lgl (List.replicate numels 0) []
  else
    .str (List.replicate numels (some "")) []

/-- `NEW_CHARACTER(n)`. -/
def NEW_CHARACTER (n : Nat) : SEXP := .str (List.replicate n (some "")) []

/-- `SET_STRING_ELT(x, i, v)`: defined on a character vector and an index
inside it. -/
def SET_STRING_ELT (x : SEXP) (i : Nat) (v : CHARSXP) : Except PlrError SEXP :=
  match x with
  | .str xs a => if i < xs.length then .ok (.str (xs.set i v) a) else .error .memoryFault
  | _ => .error .memoryFault

/-- `STRING_ELT(x, i)`. -/
def STRING_ELT (x : SEXP) (i : Nat) : Except PlrError CHARSXP :=
  match x with
  | .str xs _ => match xs.get? i with
    | some c => .ok c
    | none => .error .memoryFault
  | _ => .error .memoryFault

/-- `VECTOR_ELT(x, i)` of a generic vector. -/
def VECTOR_ELT (x : SEXP) (i : Nat) : Except PlrError SEXP :=
  match x with
  | .vec xs _ => match xs.get? i with
    | some c => .ok c
    | none => .error .memoryFault
  | _ => .error .memoryFault

/-- Source: `pg_get_one_r`.  Stores the R form of one text value at `elnum`. -/
def pg_get_one_r (L : CRuntime) (value : String) (typtype : Oid) (obj : SEXP) (elnum : Nat) :
    Except PlrError SEXP :=
  if typtype = INT2OID ∨ typtype = INT4OID then
    match obj with
    | .int xs a =>
      if elnum < xs.length then .ok (.int (xs.set elnum (L.atoi value)) a) else .error .memoryFault
    | _ => .error .memoryFault
  else if typtype = INT8OID ∨ typtype = FLOAT4OID ∨ typtype = FLOAT8OID
      ∨ typtype = CASHOID ∨ typtype = NUMERICOID then
    match obj with
    | .real xs a =>
      if elnum < xs.length then .ok (.real (xs.set elnum (L.atof value)) a) else .error .memoryFault
    | _ => .error .memoryFault
  else if typtype = BOOLOID then
    match obj with
    | .lgl xs a =>
      if elnum < xs.length then
        .ok (.lgl (xs.set elnum (if value.data.head? = some 't' then 1 else 0)) a)
      else .error .memoryFault
    | _ => .error .memoryFault
  else
    SET_STRING_ELT obj elnum (some value)

/-- Source: `pg_scalar_get_r`.  A scalar becomes a vector of length one; a
scalar without text becomes the missing character element. -/
def pg_scalar_get_r {D : Type} (L : CRuntime) (dvalue : D) (arg_typid : Oid)
    (arg_out_func : OutFunc D) : Except PlrError SEXP :=
  match arg_out_func dvalue with
  | some value => pg_get_one_r L value arg_typid (get_r_vector arg_typid 1) 0
  | none => SET_STRING_ELT (NEW_CHARACTER 1) 0 NA_STRING

/-- The vector offset written for logical index (i, j, k). -/
def arrayIdx (nr nc : Nat) (i j k : Nat) : Nat := (k * nr * nc) + (j * nr) + i

/-- Body of the innermost loop of `pg_array_get_r`: reads the element under the
data pointer, advances the pointer and stores the element at its offset. -/
def pg_array_get_r_step {D : Type} (L : CRuntime) (v : ArrayType D) (out_func : OutFunc D)
    (nr nc : Nat) (i j k : Nat) (st : Nat × SEXP) : Except PlrError (Nat × SEXP) :=
  let idx := arrayIdx nr nc i j k
  match v.data.get? st.1 with
  | none => .error .memoryFault
  | some itemvalue =>
    match out_func itemvalue with
    | some value =>
      (pg_get_one_r L value v.elemtype st.2 idx).map (fun r => (st.1 + 1, r))
    | none =>
      (SET_STRING_ELT st.2 idx NA_STRING).map (fun r => (st.1 + 1, r))

/-- Three nested counting loops with early exit, in the order i, j, k. -/
def loop3 {σ : Type} (nr nc nz : Nat) (body : Nat → Nat → Nat → σ → Except PlrError σ)
    (init : σ) : Except PlrError σ :=
  (List.range nr).foldlM (fun s i =>
    (List.range nc).foldlM (fun s j =>
      (List.range nz).foldlM (fun s k => body i j k s) s) s) init

/-- Source: `pg_array_get_r`.  An array becomes a vector, with a dim attribute
when it has more than one dimension. -/
def pg_array_get_r {D : Type} (L : CRuntime) (v : ArrayType D) (out_func : OutFunc D) :
    Except PlrError SEXP :=
  let ndim := ARR_NDIM v
  let element_type := v.elemtype
  let dim := v.dims
  let nitems := ArrayGetNItems ndim dim
  if nitems = 0 then
    SET_STRING_ELT (NEW_CHARACTER 1) 0 NA_STRING
  else
    let extents : Except PlrError (Nat × Nat × Nat) :=
      match dim with
      | [_] => .ok (nitems, 1, 1)
      | [d0, d1] => .ok (d0, d1, 1)
      | [d0, d1, d2] => .ok (d0, d1, d2)
      | _ => .error .argDimsNotSupported
    match extents with
    | .error e => .error e
    | .ok (nr, nc, nz) =>
      match loop3 nr nc nz (pg_array_get_r_step L v out_func nr nc)
          (0, get_r_vector element_type nitems) with
      | .error e => .error e
      | .ok (_, result) =>
        if ndim > 1 then .ok (setAttrib result R_DimSymbol (.ints (dim.map Int.ofNat)))
        else .ok result

/-! ## R to PostgreSQL: scalars and arrays -/

/-- The part of the function descriptor the conversion reads: whether the
result is a composite type, the element type of an array result (0 for a
scalar result) and the input functions of the result type and of its element
type. -/
structure plr_function (D : Type) where
  result_istuple : Bool
  result_elem : Oid
  result_in_func : InFunc D
  result_elem_in_func : InFunc D

/-- A returned datum together with the null flag handed back to the caller;
`dvalue = none` is `(Datum) 0`. -/
structure ScalarResult (D : Type) where
  dvalue : Option D
  isnull : Bool

/-- Source: `get_scalar_datum`.  The first element, coerced to character, goes
through the input function unless it is the missing marker.  `CHAR` never
yields a NULL pointer, so the last branch of the C function is not reached and
has no counterpart here. -/
def get_scalar_datum {D : Type} (L : CRuntime) (rval : SEXP) (result_in_func : InFunc D)
    (result_elem : Oid) (isnull : Bool) : Except PlrError (ScalarResult D) :=
  let obj := AS_CHARACTER L rval
  match STRING_ELT obj 0 with
  | .error e => .error e
  | .ok elt =>
    let value := CHAR elt
    if elt = NA_STRING then
      .ok ⟨none, true⟩
    else
      match callInFunc result_in_func value result_elem with
      | .error e => .error e
      | .ok d => .ok ⟨some d, isnull⟩

/-- Stores a datum in a slot of the output buffer. -/
def setSlot {D : Type} (dvalues : List (Option D)) (i : Nat) (d : D) :
    Except PlrError (List (Option D)) :=
  if i < dvalues.length then .ok (dvalues.set i (some d)) else .error .memoryFault

/-- The element test and encoding shared by the three array builders: the
missing marker is refused, anything else goes through the element input
function (the C test `value == NULL` never holds, `CHAR` yielding no NULL). -/
def encodeElt {D : Type} (in_func : InFunc D) (elt : CHARSXP) : Except PlrError D :=
  let value := CHAR elt
  if elt = NA_STRING then .error .nullArrayElement
  else callInFunc in_func value 0

/-- Extents read by `get_md_array_datum`. -/
structure MdDims where
  dims : List Nat
  lbs : List Int
  nr : Nat
  nc : Nat
  nz : Nat

/-- Body of the extent loop of `get_md_array_datum`. -/
def get_md_array_datum_dim (rdims : List Int) (st : MdDims) (i : Nat) : Except PlrError MdDims :=
  match rdims.get? i with
  | none => .error .memoryFault
  | some d =>
    let st := { st with dims := st.dims ++ [d.toNat], lbs := st.lbs ++ [1] }
    match i with
    | 0 => .ok { st with nr := d.toNat }
    | 1 => .ok { st with nc := d.toNat }
    | 2 => .ok { st with nz := d.toNat }
    | _ => .error .retDimsNotSupported

/-- Body of the element loop of `get_md_array_datum`: reads offset idx of the
coerced vector and stores its encoding in the next output slot. -/
def get_md_array_datum_step {D : Type} (in_func : InFunc D) (obj : SEXP) (nr nc : Nat)
    (i j k : Nat) (st : Nat × List (Option D)) : Except PlrError (Nat × List (Option D)) :=
  let idx := arrayIdx nr nc i j k
  match STRING_ELT obj idx with
  | .error e => .error e
  | .ok elt =>
    match encodeElt in_func elt with
    | .error e => .error e
    | .ok d => (setSlot st.2 st.1 d).map (fun dv => (st.1 + 1, dv))

/-- Source: `get_md_array_datum`.  A vector with a dim attribute becomes an
array of `ndims` dimensions. -/
def get_md_array_datum {D : Type} (L : CRuntime) (rval : SEXP) (ndims : Nat)
    (function : plr_function D) : Except PlrError (ArrayType D) :=
  let result_elem := function.result_elem
  let in_func := function.result_elem_in_func
  match getAttrib rval R_DimSymbol with
  | some (.ints rdims) =>
    match (List.range ndims).foldlM (get_md_array_datum_dim rdims) ⟨[], [], 1, 1, 1⟩ with
    | .error e => .error e
    | .ok d =>
      let nitems := d.nr * d.nc * d.nz
      let dvalues : List (Option D) := List.replicate nitems none
      let obj := AS_CHARACTER L rval
      match loop3 d.nr d.nc d.nz (get_md_array_datum_step in_func obj d.nr d.nc) (0, dvalues) with
      | .error e => .error e
      | .ok (_, dvalues) => construct_md_array dvalues d.dims d.lbs result_elem
  | _ => .error .memoryFault

/-- Body of the loop of `get_generic_array_datum`. -/
def get_generic_array_datum_step {D : Type} (in_func : InFunc D) (obj : SEXP)
    (dvalues : List (Option D)) (i : Nat) : Except PlrError (List (Option D)) :=
  match STRING_ELT obj i with
  | .error e => .error e
  | .ok elt =>
    match encodeElt in_func elt with
    | .error e => .error e
    | .ok d => setSlot dvalues i d

/-- Source: `get_generic_array_datum`.  Any other value becomes a
one-dimensional array of its elements in order. -/
def get_generic_array_datum {D : Type} (L : CRuntime) (rval : SEXP)
    (function : plr_function D) : Except PlrError (ArrayType D) :=
  let objlen := length rval
  let result_elem := function.result_elem
  let in_func := function.result_elem_in_func
  let dvalues : List (Option D) := List.replicate objlen none
  let obj := AS_CHARACTER L rval
  match (List.range objlen).foldlM (get_generic_array_datum_step in_func obj) dvalues with
  | .error e => .error e
  | .ok dvalues => construct_md_array dvalues [objlen] [1] result_elem

/-- `CAR` of a pairlist. -/
def CAR : SEXP → Except PlrError SEXP
  | .lst (x :: _) _ => .ok x
  | _ => .error .memoryFault

/-- `CDR` of a pairlist. -/
def CDR : SEXP → SEXP
  | .lst (_ :: y :: rest) _ => .lst (y :: rest) []
  | _ => .nil

/-- Loop state of `get_frame_array_datum`: the remaining value, the row count
and the output buffer. -/
structure FrameArrayState (D : Type) where
  rval : SEXP
  nr : Nat
  dvalues : List (Option D)

/-- Body of the row loop of `get_frame_array_datum`. -/
def get_frame_array_datum_cell {D : Type} (in_func : InFunc D) (obj : SEXP) (nc j : Nat)
    (dvalues : List (Option D)) (i : Nat) : Except PlrError (List (Option D)) :=
  match STRING_ELT obj i with
  | .error e => .error e
  | .ok elt =>
    let idx := (i * nc) + j
    match encodeElt in_func elt with
    | .error e => .error e
    | .ok d => setSlot dvalues idx d

/-- Body of the column loop of `get_frame_array_datum`. -/
def get_frame_array_datum_col {D : Type} (L : CRuntime) (in_func : InFunc D) (nc : Nat)
    (st : FrameArrayState D) (j : Nat) : Except PlrError (FrameArrayState D) :=
  let fetched : Except PlrError (SEXP × SEXP) :=
    if TYPEOF st.rval = .VECSXP then
      (VECTOR_ELT st.rval j).map (fun c => (c, st.rval))
    else if TYPEOF st.rval = .LISTSXP then
      (CAR st.rval).map (fun c => (c, CDR st.rval))
    else .error .badFrameRepresentation
  match fetched with
  | .error e => .error e
  | .ok (dfcol, rval) =>
    let obj :=
      match ATTRIB dfcol with
      | [] => AS_CHARACTER L dfcol
      | (_, v) :: _ => .str (attrAsCharacter v) []
    let nr := if j = 0 then length obj else st.nr
    let dvalues := if j = 0 then List.replicate (nr * nc) none else st.dvalues
    match (List.range nr).foldlM (get_frame_array_datum_cell in_func obj nc j) dvalues with
    | .error e => .error e
    | .ok dvalues => .ok ⟨rval, nr, dvalues⟩

/-- Source: `get_frame_array_datum`.  A data frame becomes a two-dimensional
array, one array column per frame column. -/
def get_frame_array_datum {D : Type} (L : CRuntime) (rval : SEXP)
    (function : plr_function D) : Except PlrError (ArrayType D) :=
  let result_elem := function.result_elem
  let in_func := function.result_elem_in_func
  let nc := length rval
  match (List.range nc).foldlM (get_frame_array_datum_col L in_func nc) ⟨rval, 0, []⟩ with
  | .error e => .error e
  | .ok st => construct_md_array st.dvalues [st.nr, nc] [1, 1] result_elem

/-- Source: `get_array_datum`.  Dispatch on the shape of the value: data frame,
matrix, vector with two or three extents, anything else. -/
def get_array_datum {D : Type} (L : CRuntime) (rval : SEXP) (function : plr_function D) :
    Except PlrError (ArrayType D) :=
  if isFrame rval then get_frame_array_datum L rval function
  else if isMatrix rval then get_md_array_datum L rval 2 function
  else
    let ndims := attrLength (getAttrib rval R_DimSymbol)
    if ndims = 2 ∨ ndims = 3 then get_md_array_datum L rval ndims function
    else get_generic_array_datum L rval function

/-! ## R to PostgreSQL: row sets -/

/-- An allocation region, by its identity. -/
abbrev MemoryContext := Nat

/-- One attribute of a tuple descriptor, with the input function and element
type that `TupleDescGetAttInMetadata` looks up for it. -/
structure Attribute (D : Type) where
  attname : String
  atttypid : Oid
  attinfunc : InFunc D
  attelem : Oid

/-- A tuple descriptor; `natts` is the number of attributes. -/
structure TupleDesc (D : Type) where
  attrs : List (Attribute D)

def TupleDesc.natts {D : Type} (t : TupleDesc D) : Nat := t.attrs.length

/-- A heap tuple: one datum or null per attribute. -/
abbrev HeapTuple (D : Type) := List (Option D)

/-- A tuplestore: the region it was created in and the tuples stored so far,
oldest first. -/
structure Tuplestorestate (D : Type) where
  context : MemoryContext
  tuples : List (HeapTuple D)

def SFRM_ValuePerCall : Nat := 1
def SFRM_Materialize : Nat := 2

/-- The caller's result-info node. -/
structure ReturnSetInfo (D : Type) where
  per_query_memory : MemoryContext
  expectedDesc : TupleDesc D
  allowedModes : Nat
  returnMode : Nat
  setResult : Option (Tuplestorestate D)
  setDesc : Option (TupleDesc D)

/-- The call frame: whether the function returns a set, the result-info node
(absent when the caller supplies none) and the null flag of the result. -/
structure FunctionCallInfoData (D : Type) where
  fn_retset : Bool
  resultinfo : Option (ReturnSetInfo D)
  isnull : Bool

/-- The conversion routines whose entry is recorded. -/
inductive Routine where
  | get_tuplestore
  | get_scalar_datum
  | get_array_datum
deriving DecidableEq, Repr

/-- The state a result conversion runs in: the call frame, the current
allocation region, and a record of the conversion routines entered so far (kept
for reasoning only; the C code has no such record). -/
structure Backend (D : Type) where
  fcinfo : FunctionCallInfoData D
  CurrentMemoryContext : MemoryContext
  entered : List Routine

/-- The datum a result conversion returns: `(Datum) 0`, a scalar or an array. -/
inductive PgDatum (D : Type) where
  | zero
  | scalar (d : D)
  | array (a : ArrayType D)

/-- `MemoryContextSwitchTo`: returns the previous region and the new current one. -/
def MemoryContextSwitchTo (cur context : MemoryContext) : MemoryContext × MemoryContext :=
  (cur, context)

/-- `TUPLESTORE_BEGIN_HEAP`: an empty tuplestore in the current region. -/
def TUPLESTORE_BEGIN_HEAP {D : Type} (cur : MemoryContext) : Tuplestorestate D := ⟨cur, []⟩

def tuplestore_puttuple {D : Type} (ts : Tuplestorestate D) (tuple : HeapTuple D) :
    Tuplestorestate D :=
  { ts with tuples := ts.tuples ++ [tuple] }

/-- `BuildTupleFromCStrings`: each non-NULL string goes through the input
function of its attribute, a NULL string gives a null. -/
def BuildTupleFromCStrings {D : Type} : List (Attribute D) → List (Option String) →
    Except PlrError (HeapTuple D)
  | [], _ => .ok []
  | _ :: _, [] => .error .memoryFault
  | a :: as, v :: vs =>
    let cell : Except PlrError (Option D) :=
      match v with
      | some s => (callInFunc a.attinfunc s a.attelem).map some
      | none => .ok none
    match cell with
    | .error e => .error e
    | .ok d =>
      match BuildTupleFromCStrings as vs with
      | .error e => .error e
      | .ok rest => .ok (d :: rest)

/-- Builds the tuple of one row and stores it, switching to the per-query
region around the store. -/
def storeRow {D : Type} (attinmeta : TupleDesc D) (per_query_ctx : MemoryContext)
    (st : Tuplestorestate D × MemoryContext) (values : Except PlrError (List (Option String))) :
    Except (PlrError × MemoryContext) (Tuplestorestate D × MemoryContext) :=
  match values with
  | .error e => .error (e, st.2)
  | .ok values =>
    match BuildTupleFromCStrings attinmeta.attrs values with
    | .error e => .error (e, st.2)
    | .ok tuple =>
      let (oldcontext, cur) := MemoryContextSwitchTo st.2 per_query_ctx
      let tupstore := tuplestore_puttuple st.1 tuple
      let (_, cur) := MemoryContextSwitchTo cur oldcontext
      .ok (tupstore, cur)

/-- The closing `tuplestore_donestoring` of the three builders, inside the
per-query region. -/
def doneStoring {D : Type} (per_query_ctx : MemoryContext)
    (st : Tuplestorestate D × MemoryContext) : Tuplestorestate D × MemoryContext :=
  let (oldcontext, cur) := MemoryContextSwitchTo st.2 per_query_ctx
  let (_, cur) := MemoryContextSwitchTo cur oldcontext
  (st.1, cur)

/-- Column preparation of `get_frame_tuplestore`: a column that is not a factor
is coerced to character; a factor keeps its codes and has its levels coerced. -/
def get_frame_tuplestore_prep (L : CRuntime) (rval : SEXP) (j : Nat) : Except PlrError SEXP :=
  match VECTOR_ELT rval j with
  | .error e => .error e
  | .ok dfcol =>
    if !isFactor dfcol then .ok (AS_CHARACTER L dfcol)
    else
      match lookupAttr R_LevelsSymbol (ATTRIB dfcol) with
      | some lv => .ok (setAttrib dfcol R_LevelsSymbol (.strs (attrAsCharacter lv)))
      | none => .ok dfcol

/-- `(int) VECTOR_ELT(x, i)` on the data of an integer vector: slot `i` of a
generic vector is a pointer, which covers the `int`s 2i and 2i + 1; the cast
to `int` keeps the low half, the `int` 2i.  A slot that does not lie inside the
vector has no value (the read is outside the object). -/
def VECTOR_ELT_int (codes : List Int) (i : Nat) : Option Int :=
  if 2 * i + 1 < codes.length then codes.get? (2 * i) else none

/-- One cell of a row of `get_frame_tuplestore`.  The code of a factor cell is
read with `(int) VECTOR_ELT(dfcol, i)`.  A factor without a levels attribute
leaves the cell unassigned, which the tuple builder then reads: a memory
fault. -/
def get_frame_tuplestore_cell (result : List SEXP) (i j : Nat) : Except PlrError (Option String) :=
  match result.get? j with
  | none => .error .memoryFault
  | some dfcol =>
    if isFactor dfcol then
      match lookupAttr R_LevelsSymbol (ATTRIB dfcol), dfcol with
      | some (.strs lv), .int codes _ =>
        match VECTOR_ELT_int codes i with
        | none => .error .memoryFault
        | some idx =>
          if 1 ≤ idx then
            match lv.get? (idx - 1).toNat with
            | some c => .ok (some (CHAR c))
            | none => .error .memoryFault
          else .error .memoryFault
      | _, _ => .error .memoryFault
    else
      match STRING_ELT dfcol 0 with
      | .error e => .error e
      | .ok first =>
        if first ≠ NA_STRING then
          match STRING_ELT dfcol i with
          | .error e => .error e
          | .ok c => .ok (some (CHAR c))
        else .ok none

/-- Source: `get_frame_tuplestore`.  Rows of a data frame, one tuple per row. -/
def get_frame_tuplestore {D : Type} (L : CRuntime) (rval : SEXP) (attinmeta : TupleDesc D)
    (per_query_ctx : MemoryContext) (retset : Bool) (cur : MemoryContext) :
    Except (PlrError × MemoryContext) (Tuplestorestate D × MemoryContext) :=
  let nc := length rval
  let (oldcontext, cur) := MemoryContextSwitchTo cur per_query_ctx
  let tupstore : Tuplestorestate D := TUPLESTORE_BEGIN_HEAP cur
  let (_, cur) := MemoryContextSwitchTo cur oldcontext
  let rows : Except PlrError Nat :=
    if retset then (VECTOR_ELT rval 0).map length else .ok 1
  match rows with
  | .error e => .error (e, cur)
  | .ok nr =>
    match (List.range nc).mapM (get_frame_tuplestore_prep L rval) with
    | .error e => .error (e, cur)
    | .ok result =>
      match (List.range nr).foldlM (fun st i =>
          storeRow attinmeta per_query_ctx st
            ((List.range nc).mapM (get_frame_tuplestore_cell result i))) (tupstore, cur) with
      | .error e => .error e
      | .ok st => .ok (doneStoring per_query_ctx st)

/-- Source: `get_matrix_tuplestore`.  Rows of a matrix, one tuple per row. -/
def get_matrix_tuplestore {D : Type} (L : CRuntime) (rval : SEXP) (attinmeta : TupleDesc D)
    (per_query_ctx : MemoryContext) (retset : Bool) (cur : MemoryContext) :
    Except (PlrError × MemoryContext) (Tuplestorestate D × MemoryContext) :=
  let nc := ncols rval
  let (oldcontext, cur) := MemoryContextSwitchTo cur per_query_ctx
  let nr := if retset then nrows rval else 1
  let tupstore : Tuplestorestate D := TUPLESTORE_BEGIN_HEAP cur
  let (_, cur) := MemoryContextSwitchTo cur oldcontext
  let obj := AS_CHARACTER L rval
  match (List.range nr).foldlM (fun st i =>
      storeRow attinmeta per_query_ctx st
        ((List.range nc).mapM (fun j =>
          (STRING_ELT obj ((j * nr) + i)).map (fun c => some (CHAR c))))) (tupstore, cur) with
  | .error e => .error e
  | .ok st => .ok (doneStoring per_query_ctx st)

/-- Source: `get_generic_tuplestore`.  Elements of any other value, one
single-column tuple per element. -/
def get_generic_tuplestore {D : Type} (L : CRuntime) (rval : SEXP) (attinmeta : TupleDesc D)
    (per_query_ctx : MemoryContext) (retset : Bool) (cur : MemoryContext) :
    Except (PlrError × MemoryContext) (Tuplestorestate D × MemoryContext) :=
  let (oldcontext, cur) := MemoryContextSwitchTo cur per_query_ctx
  let nr := if retset then length rval else 1
  let tupstore : Tuplestorestate D := TUPLESTORE_BEGIN_HEAP cur
  let (_, cur) := MemoryContextSwitchTo cur oldcontext
  let obj := AS_CHARACTER L rval
  match (List.range nr).foldlM (fun st i =>
      storeRow attinmeta per_query_ctx st
        ((STRING_ELT obj i).map (fun c => [some (CHAR c)]))) (tupstore, cur) with
  | .error e => .error e
  | .ok st => .ok (doneStoring per_query_ctx st)

/-- Source: `get_tuplestore`.  The row-set path: checks that the caller accepts
a materialized set, compares the column counts, builds the tuplestore and
hands it back through the result-info node.  Returns the outcome (the datum
and the null flag) and the state at exit. -/
def get_tuplestore {D : Type} (L : CRuntime) (rval : SEXP) (w : Backend D) :
    Except PlrError (PgDatum D × Bool) × Backend D :=
  let retset := w.fcinfo.fn_retset
  match w.fcinfo.resultinfo with
  | none => (.error .materializeNotAllowed, w)
  | some rsinfo =>
    if Nat.land rsinfo.allowedModes SFRM_Materialize = 0 then
      (.error .materializeNotAllowed, w)
    else
      let nc :=
        if isFrame rval then length rval
        else if isMatrix rval then ncols rval
        else 1
      let per_query_ctx := rsinfo.per_query_memory
      let (oldcontext, cur) := MemoryContextSwitchTo w.CurrentMemoryContext per_query_ctx
      let w := { w with CurrentMemoryContext := cur }
      let tupdesc := rsinfo.expectedDesc
      if nc ≠ tupdesc.natts then
        (.error .incompatibleTuple, w)
      else
        let attinmeta := tupdesc
        let rsinfo := { rsinfo with returnMode := SFRM_Materialize }
        let built :=
          if isFrame rval then
            get_frame_tuplestore L rval attinmeta per_query_ctx retset w.CurrentMemoryContext
          else if isMatrix rval then
            get_matrix_tuplestore L rval attinmeta per_query_ctx retset w.CurrentMemoryContext
          else
            get_generic_tuplestore L rval attinmeta per_query_ctx retset w.CurrentMemoryContext
        match built with
        | .error (e, cur) =>
          (.error e, { w with fcinfo := { w.fcinfo with resultinfo := some rsinfo },
                              CurrentMemoryContext := cur })
        | .ok (tupstore, cur) =>
          let rsinfo := { rsinfo with setResult := some tupstore, setDesc := some tupdesc }
          let (_, cur) := MemoryContextSwitchTo cur oldcontext
          (.ok (.zero, true),
            { w with fcinfo := { w.fcinfo with resultinfo := some rsinfo },
                     CurrentMemoryContext := cur })

/-- Records that a conversion routine is entered. -/
def Backend.enter {D : Type} (w : Backend D) (r : Routine) : Backend D :=
  { w with entered := w.entered ++ [r] }

/-- Sets the null flag of the call frame. -/
def Backend.setNull {D : Type} (w : Backend D) : Backend D :=
  { w with fcinfo := { w.fcinfo with isnull := true } }

/-- Source: `r_get_pg`.  Converts the value an R function returned into the
datum the call returns. -/
def r_get_pg {D : Type} (L : CRuntime) (rval : SEXP) (function : plr_function D)
    (w : Backend D) : Except PlrError (PgDatum D) × Backend D :=
  let isnull := false
  if function.result_istuple || w.fcinfo.fn_retset then
    match get_tuplestore L rval (w.enter .get_tuplestore) with
    | (.error e, w) => (.error e, w)
    | (.ok (result, isnull), w) => (.ok result, if isnull then w.setNull else w)
  else
    if isNull rval || length rval == 0 then
      (.ok .zero, w.setNull)
    else if function.result_elem = 0 then
      let w := w.enter .get_scalar_datum
      match get_scalar_datum L rval function.result_in_func function.result_elem isnull with
      | .error e => (.error e, w)
      | .ok r =>
        (.ok (match r.dvalue with
              | some d => .scalar d
              | none => .zero), if r.isnull then w.setNull else w)
    else
      let w := w.enter .get_array_datum
      match get_array_datum L rval function with
      | .error e => (.error e, w)
      | .ok a => (.ok (.array a), w)

/-! ## A runtime for worked examples -/

/-- Digits of a decimal literal, most significant first, up to the first
character that is not a digit. -/
def atoiDigits : List Char → Nat → Nat
  | [], acc => acc
  | c :: rest, acc => if c.isDigit then atoiDigits rest (acc * 10 + (c.toNat - 48)) else acc

/-- C `atoi` on texts whose value fits a C int: leading white space, an
optional sign, then decimal digits. -/
def atoi (s : String) : Int :=
  match s.data.dropWhile Char.isWhitespace with
  | '-' :: rest => - (atoiDigits rest 0 : Int)
  | '+' :: rest => (atoiDigits rest 0 : Int)
  | cs => (atoiDigits cs 0 : Int)

/-- A runtime for worked examples on integers and text: `atoi` as above; the
floating-point routines are constant (every text parses to zero, which prints
as 0), and so is the deparse routine, which no example uses. -/
def sampleRuntime : CRuntime := ⟨atoi, fun _ => ⟨0⟩, fun _ => "0", fun _ => ""⟩

/-- An integer type for worked examples: the datum is the number, its output
text the decimal numeral, and its input function `atoi` on any text. -/
def intOut : OutFunc Int := fun d => some (toString d)

def intIn : InFunc Int := fun s _ => .ok (atoi s)

/-! ## Vocabulary of the statements -/

/-- One element of an R vector, whatever the kind of the vector. -/
inductive RElt where
  | lgl (x : Int)
  | int (x : Int)
  | real (x : Double)
  | str (c : CHARSXP)
  | obj (s : SEXP)

/-- The elements of an R object, in order. -/
def elts : SEXP → List RElt
  | .nil => []
  | .lgl xs _ => xs.map .lgl
  | .int xs _ => xs.map .int
  | .real xs _ => xs.map .real
  | .str xs _ => xs.map .str
  | .vec xs _ => xs.map .obj
  | .lst xs _ => xs.map .obj

/-- A character vector holding exactly one `NA_STRING`. -/
def isSingleNA : SEXP → Bool
  | .str [none] _ => true
  | _ => false

/-- The missing marker of each kind of element: `NA_LOGICAL`, `NA_INTEGER`,
`NA_REAL`, `NA_STRING`; a list element is missing when it is a single
`NA_STRING`. -/
def eltIsNA : RElt → Bool
  | .lgl x => x == NA_LOGICAL
  | .int x => x == NA_INTEGER
  | .real x => R_IsNA x
  | .str c => c.isNone
  | .obj s => isSingleNA s

/-- The character form R gives an element. -/
def eltAsChar (L : CRuntime) : RElt → CHARSXP
  | .lgl x => StringFromLogical x
  | .int x => StringFromInteger x
  | .real x => StringFromReal L x
  | .str c => c
  | .obj s => StringFromElt L s

/-- The kind of vector `get_r_vector` and `pg_get_one_r` use for a type. -/
def vectorKind (typtype : Oid) : SEXPTYPE :=
  if typtype = INT2OID ∨ typtype = INT4OID then .INTSXP
  else if typtype = INT8OID ∨ typtype = FLOAT4OID ∨ typtype = FLOAT8OID
      ∨ typtype = CASHOID ∨ typtype = NUMERICOID then .REALSXP
  else if typtype = BOOLOID then .LGLSXP
  else .STRSXP

/-- The element `pg_get_one_r` stores for a text value of a type. -/
def decodeElt (L : CRuntime) (typtype : Oid) (value : String) : RElt :=
  if typtype = INT2OID ∨ typtype = INT4OID then .int (L.atoi value)
  else if typtype = INT8OID ∨ typtype = FLOAT4OID ∨ typtype = FLOAT8OID
      ∨ typtype = CASHOID ∨ typtype = NUMERICOID then .real (L.atof value)
  else if typtype = BOOLOID then .lgl (if value.data.head? = some 't' then 1 else 0)
  else .str (some value)

/-- The logical indices (i, j, k) in the order the three nested loops visit
them. -/
def triples (nr nc nz : Nat) : List (Nat × Nat × Nat) :=
  (List.range nr).flatMap (fun i =>
    (List.range nc).flatMap (fun j => (List.range nz).map (fun k => (i, j, k))))

/-- Applies a list of writes (offset, value) to a list, first write first. -/
def applyWrites {α : Type} (xs : List α) (ws : List (Nat × α)) : List α :=
  ws.foldl (fun acc w => acc.set w.1 w.2) xs

/-- The text of the element at payload position `p` (empty when there is
none). -/
def textAt {D : Type} (v : ArrayType D) (out_func : OutFunc D) (p : Nat) : String :=
  ((v.data.get? p).bind out_func).getD ""

/-- The element round trip: the text of a datum is decoded for its type, the
decoded element is given its R character form, and that form is encoded by
the element input function (the missing marker is refused).  A datum without
text has no decoding. -/
def elementRoundTrip {D : Type} (L : CRuntime) (typtype : Oid) (out_func : OutFunc D)
    (in_func : InFunc D) (d : D) : Except PlrError D :=
  match out_func d with
  | some value => encodeElt in_func (eltAsChar L (decodeElt L typtype value))
  | none => .error .nullArrayElement

/-- The loop extents (nr, nc, nz) of an array of one, two or three
dimensions: a missing extent counts as 1. -/
def HasExtents (dims : List Nat) (nr nc nz : Nat) : Prop :=
  (dims = [nr] ∧ nc = 1 ∧ nz = 1) ∨ (dims = [nr, nc] ∧ nz = 1) ∨ dims = [nr, nc, nz]

/-- The writes the decode loop performs over the indices `ts`, the first one
reading payload position `p`. -/
def decodeWrites {D : Type} (L : CRuntime) (v : ArrayType D) (out_func : OutFunc D)
    (nr nc : Nat) (p : Nat) (ts : List (Nat × Nat × Nat)) : List (Nat × RElt) :=
  (ts.enumFrom p).map (fun q =>
    (arrayIdx nr nc q.2.1 q.2.2.1 q.2.2.2, decodeElt L v.elemtype (textAt v out_func q.1)))

/-- Sequential writes of the values `y c, y (c + 1), ...` into `n` slots. -/
def seqWrites {D : Type} (y : Nat → D) (c n : Nat) : List (Nat × Option D) :=
  (List.range' c n).map (fun q => (q, some (y q)))

def TEXTOID : Oid := 25

/-- A text type for worked examples: the datum is the string itself. -/
def textOut : OutFunc String := fun d => some d

def textIn : InFunc String := fun s _ => .ok s

/-- A function returning an array of text. -/
def textFunction : plr_function String := ⟨false, TEXTOID, textIn, textIn⟩

/-- The 2 x 2 smallint array [[1,2],[3,4]], stored row by row. -/
def exampleMatrix : ArrayType Int := ⟨INT2OID, [2, 2], [1, 1], [1, 2, 3, 4]⟩

/-- A function returning an array of smallint. -/
def exampleFunction : plr_function Int := ⟨false, INT2OID, intIn, intIn⟩

/-- One planned write of an array builder: the element read (`none` when the
read falls outside the vector) and the output slot it is stored in. -/
abbrev PlannedWrite := Option CHARSXP × Nat

/-- Performs one planned write: the element read is encoded and stored. -/
def writeStep {D : Type} (in_func : InFunc D) (dvalues : List (Option D)) (it : PlannedWrite) :
    Except PlrError (List (Option D)) :=
  match it.1 with
  | none => .error .memoryFault
  | some elt =>
    match encodeElt in_func elt with
    | .error e => .error e
    | .ok d => setSlot dvalues it.2 d

/-- Performs a list of planned writes in order, stopping at the first failure. -/
def writeLoop {D : Type} (in_func : InFunc D) (plan : List PlannedWrite)
    (dvalues : List (Option D)) : Except PlrError (List (Option D)) :=
  plan.foldlM (writeStep in_func) dvalues

/-- Some element of the value is the missing marker. -/
def hasMissing (s : SEXP) : Prop := ∃ e ∈ elts s, eltIsNA e = true

/-- Every element of the value that is not the missing marker is accepted by
the element input function. -/
def eltsEncode {D : Type} (L : CRuntime) (in_func : InFunc D) (s : SEXP) : Prop :=
  ∀ e ∈ elts s, eltIsNA e = false → ∃ y, callInFunc in_func (CHAR (eltAsChar L e)) 0 = .ok y

/-- Runs the planned writes on an empty buffer of `n` slots and builds the
array from the buffer. -/
def buildArray {D : Type} (in_func : InFunc D) (plan : List PlannedWrite) (n : Nat)
    (dims : List Nat) (lbs : List Int) (t : Oid) : Except PlrError (ArrayType D) :=
  match writeLoop in_func plan (List.replicate n none) with
  | .error e => .error e
  | .ok dv => construct_md_array dv dims lbs t

/-- The planned writes of column `j` of a frame with `nr` rows and `nc`
columns: row `i` of the column goes to slot `i * nc + j`. -/
def framePlan (L : CRuntime) (cols : List SEXP) (nr nc : Nat) (j : Nat) : List PlannedWrite :=
  (List.range nr).map (fun i => ((asCharacterElts L (cols.getD j .nil))[i]?, i * nc + j))

/-- Some element of some column of the frame is the missing marker. -/
def frameHasMissing (cols : List SEXP) : Prop := ∃ c ∈ cols, hasMissing c

/-- The number of columns the row-set path takes the value to produce: the
number of columns of a data frame, the column extent of a matrix, 1 otherwise. -/
def producedColumns (rval : SEXP) : Nat :=
  if isFrame rval then length rval
  else if isMatrix rval then ncols rval
  else 1

/-- The text handed to the tuple builder for row `i` of a character column:
NULL when the first element of the column is `NA_STRING`, else the C string of
element `i`. -/
def frameCellText (chars : List CHARSXP) (i : Nat) : Option String :=
  if chars.head? = some none then none else some (CHAR (chars.getD i none))

/-- An integer input function that accepts decimal digits only. -/
def digitsIn : InFunc Int := fun s _ =>
  if s.data.all Char.isDigit && !s.data.isEmpty then .ok (atoi s)
  else .error "invalid input syntax for integer"

/-- A function returning an array of int4 through the digits-only input
function. -/
def digitsFunction : plr_function Int := ⟨false, INT4OID, digitsIn, digitsIn⟩

/-- A result-info node that allows a materialized set of the given shape. -/
def exampleRsinfo {D : Type} (desc : TupleDesc D) : ReturnSetInfo D :=
  ⟨1, desc, SFRM_ValuePerCall + SFRM_Materialize, SFRM_ValuePerCall, none, none⟩

/-- A text attribute named `n`. -/
def textAttr (n : String) : Attribute String := ⟨n, TEXTOID, textIn, 0⟩

/-- The state at the start of a set-returning call with the given result-info. -/
def exampleBackend {D : Type} (retset : Bool) (rsinfo : Option (ReturnSetInfo D)) : Backend D :=
  ⟨⟨retset, rsinfo, false⟩, 0, []⟩

/-- A data frame of three character columns and two rows. -/
def exampleFrame : SEXP :=
  .vec [.str [some "a", some "b"] [], .str [some "c", some "d"] [],
        .str [some "e", some "f"] []]
    [(R_NamesSymbol, .strs [some "x", some "y", some "z"]),
     (R_ClassSymbol, .strs [some "data.frame"])]

/-- The errors the row builders themselves can raise: a memory fault or a
failure of an input function. -/
def IsBuilderError (e : PlrError) : Prop := e = .memoryFault ∨ ∃ msg, e = .inputFunction msg

/-! ## PostgreSQL to R: rows -/

/-- `NEW_LIST(n)`: a generic vector of `n` slots holding R_NilValue. -/
def NEW_LIST (n : Nat) : SEXP := .vec (List.replicate n .nil) []

/-- `SET_VECTOR_ELT(x, i, v)`: defined on a generic vector and an index inside
it. -/
def SET_VECTOR_ELT (x : SEXP) (i : Nat) (v : SEXP) : Except PlrError SEXP :=
  match x with
  | .vec xs a => if i < xs.length then .ok (.vec (xs.set i v) a) else .error .memoryFault
  | _ => .error .memoryFault

/-- The elements of a character vector (`STRING_PTR`); no elements for any
other object. -/
def STRING_PTR : SEXP → List CHARSXP
  | .str xs _ => xs
  | _ => []

/-- The value a tuple stores for one attribute: a scalar datum or an array. -/
inductive SPIValue (D : Type) where
  | scalar (d : D)
  | array (a : ArrayType D)

/-- A tuple handed over by SPI: one value per attribute, `none` for a null. -/
abbrev SPITuple (D : Type) := List (Option (SPIValue D))

/-- What the tuple descriptor and the catalog give for one attribute: its name
(`SPI_fname`), its type (`SPI_gettypeid`), the output function of that type
(used by `SPI_getvalue`), the element type (`get_element_type`, 0 when the type
is not an array type) and the output function of the element type
(`get_type_io_data`). -/
structure SPIAttribute (D : Type) where
  fname : String
  typeid : Oid
  typoutput : OutFunc D
  typelem : Oid
  elemoutput : OutFunc D

/-- `SPI_getvalue`: the text of attribute `j` of the tuple, NULL for a null.
An attribute past the end of the tuple reads as null; an array found where the
descriptor announces a scalar is a type confusion, reported as a memory
fault. -/
def SPI_getvalue {D : Type} (tuple : SPITuple D) (att : SPIAttribute D) (j : Nat) :
    Except PlrError (Option String) :=
  match tuple.get? j with
  | none => .ok none
  | some none => .ok none
  | some (some (.scalar d)) => .ok (att.typoutput d)
  | some (some (.array _)) => .error .memoryFault

/-- `SPI_getbinval` on an attribute of array type: the array, or `none` with
the null flag set. -/
def SPI_getbinval {D : Type} (tuple : SPITuple D) (j : Nat) :
    Except PlrError (Option (ArrayType D)) :=
  match tuple.get? j with
  | none => .ok none
  | some none => .ok none
  | some (some (.array a)) => .ok (some a)
  | some (some (.scalar _)) => .error .memoryFault

/-- Body of the row loop of `pg_tuple_get_r_frame` for column `j`: stores the
value of row `i` in the column vector. -/
def pg_tuple_get_r_frame_cell {D : Type} (L : CRuntime) (tuples : List (SPITuple D))
    (att : SPIAttribute D) (typelem : Oid) (j : Nat) (fldvec : SEXP) (i : Nat) :
    Except PlrError SEXP :=
  match tuples.get? i with
  | none => .error .memoryFault
  | some tuple =>
    if typelem = 0 then
      match SPI_getvalue tuple att j with
      | .error e => .error e
      | .ok (some value) => pg_get_one_r L value att.typeid fldvec i
      | .ok none => SET_STRING_ELT fldvec i NA_STRING
    else
      match SPI_getbinval tuple j with
      | .error e => .error e
      | .ok dvalue =>
        let fldvec_elem :=
          match dvalue with
          | some a => pg_array_get_r L a att.elemoutput
          | none => SET_STRING_ELT (NEW_CHARACTER 1) 0 NA_STRING
        match fldvec_elem with
        | .error e => .error e
        | .ok fldvec_elem => SET_VECTOR_ELT fldvec i fldvec_elem

/-- The element type the column loop works with: 0 for NAME, else the element
type of the column type. -/
def frameTypelem {D : Type} (att : SPIAttribute D) : Oid :=
  if att.typeid = NAMEOID then 0 else att.typelem

/-- Body of the column loop of `pg_tuple_get_r_frame`; the state is the result
list and the names vector. -/
def pg_tuple_get_r_frame_col {D : Type} (L : CRuntime) (tuples : List (SPITuple D)) (nr : Nat)
    (tupdesc : List (SPIAttribute D)) (st : SEXP × SEXP) (j : Nat) :
    Except PlrError (SEXP × SEXP) :=
  match tupdesc.get? j with
  | none => .error .memoryFault
  | some att =>
    match SET_STRING_ELT st.2 j (some att.fname) with
    | .error e => .error e
    | .ok names =>
      let element_type := att.typeid
      let typelem := frameTypelem att
      let fldvec := if typelem = 0 then get_r_vector element_type nr else NEW_LIST nr
      match (List.range nr).foldlM (pg_tuple_get_r_frame_cell L tuples att typelem j) fldvec with
      | .error e => .error e
      | .ok fldvec =>
        match SET_VECTOR_ELT st.1 j fldvec with
        | .error e => .error e
        | .ok result => .ok (result, names)

/-- The label of row `i`: `sprintf(buf, "%d", i+1)`. -/
def rowLabel (i : Nat) : CHARSXP := some (Nat.repr (i + 1))

/-- Source: `pg_tuple_get_r_frame`.  An array of tuples becomes a data frame;
`tuples = none` is the NULL pointer. -/
def pg_tuple_get_r_frame {D : Type} (L : CRuntime) (ntuples : Int)
    (tuples : Option (List (SPITuple D))) (tupdesc : List (SPIAttribute D)) :
    Except PlrError SEXP :=
  match tuples with
  | none => .ok .nil
  | some tuples =>
    if ntuples < 1 then .ok .nil
    else
      let nr := ntuples.toNat
      let nc := tupdesc.length
      match (List.range nc).foldlM (pg_tuple_get_r_frame_col L tuples nr tupdesc)
          (NEW_LIST nc, NEW_CHARACTER nc) with
      | .error e => .error e
      | .ok (result, names) =>
        let result := setAttrib result R_NamesSymbol (.strs (STRING_PTR names))
        match (List.range nr).foldlM (fun row_names i => SET_STRING_ELT row_names i (rowLabel i))
            (NEW_CHARACTER nr) with
        | .error e => .error e
        | .ok row_names =>
          let result := setAttrib result R_RowNamesSymbol (.strs (STRING_PTR row_names))
          .ok (setAttrib result R_ClassSymbol (.strs [some "data.frame"]))

/-! ## Vocabulary of the statements on shapes and rows -/

/-- The three shapes the dispatchers of a result distinguish. -/
inductive Shape where
  | frame
  | matrix
  | other
deriving DecidableEq, Repr

/-- The classification order as specified: frame-shaped first, then
matrix-shaped, then everything else. -/
def classify (rval : SEXP) : Shape :=
  if isFrame rval then .frame else if isMatrix rval then .matrix else .other

/-- The array builder of each shape. -/
def arrayVariant {D : Type} (L : CRuntime) (rval : SEXP) (function : plr_function D) :
    Shape → Except PlrError (ArrayType D)
  | .frame => get_frame_array_datum L rval function
  | .matrix => get_md_array_datum L rval 2 function
  | .other =>
    if attrLength (getAttrib rval R_DimSymbol) = 2 ∨ attrLength (getAttrib rval R_DimSymbol) = 3
    then get_md_array_datum L rval (attrLength (getAttrib rval R_DimSymbol)) function
    else get_generic_array_datum L rval function

/-- The produced column count of each shape. -/
def columnsVariant (rval : SEXP) : Shape → Nat
  | .frame => length rval
  | .matrix => ncols rval
  | .other => 1

/-- The row builder of each shape. -/
def rowsVariant {D : Type} (L : CRuntime) (rval : SEXP) (attinmeta : TupleDesc D)
    (per_query_ctx : MemoryContext) (retset : Bool) (cur : MemoryContext) :
    Shape → Except (PlrError × MemoryContext) (Tuplestorestate D × MemoryContext)
  | .frame => get_frame_tuplestore L rval attinmeta per_query_ctx retset cur
  | .matrix => get_matrix_tuplestore L rval attinmeta per_query_ctx retset cur
  | .other => get_generic_tuplestore L rval attinmeta per_query_ctx retset cur

/-- A data frame of two character columns that also carries a dimension
attribute of two extents. -/
def dimensionedFrame : SEXP :=
  .vec [.str [some "a", some "b"] [], .str [some "c", some "d"] []]
    [(R_ClassSymbol, .strs [some "data.frame"]), (R_DimSymbol, .ints [1, 2])]

/-- A column descriptor of type text. -/
def textColumn (n : String) : SPIAttribute String := ⟨n, TEXTOID, textOut, 0, textOut⟩

/-- A column descriptor of an array type, with elements of type `elem`. -/
def arrayColumn (n : String) (typeid elem : Oid) : SPIAttribute Int :=
  ⟨n, typeid, intOut, elem, intOut⟩

/-- The cell of a row converts: in a column handled as a scalar, a cell without
text (a null, or a datum whose output function gives no text) lies in a column
of the text kind; in a column of array type, the cell is a null or an array
that `pg_array_get_r` decodes. -/
def CellConverts {D : Type} (L : CRuntime) (att : SPIAttribute D) :
    Option (SPIValue D) → Prop
  | none => frameTypelem att = 0 → vectorKind att.typeid = .STRSXP
  | some (.scalar d) =>
    frameTypelem att = 0 ∧ (att.typoutput d = none → vectorKind att.typeid = .STRSXP)
  | some (.array a) => frameTypelem att ≠ 0 ∧ ∃ s, pg_array_get_r L a att.elemoutput = .ok s

/-- The column of a converted frame fits its descriptor: it has one element per
row; for an array type it is a list (of per-row values), otherwise a vector of
the kind of its type. -/
def ColumnFits {D : Type} (att : SPIAttribute D) (n : Nat) (col : SEXP) : Prop :=
  length col = n
    ∧ (frameTypelem att ≠ 0 → TYPEOF col = .VECSXP)
    ∧ (frameTypelem att = 0 → TYPEOF col = vectorKind att.typeid)

/-- The attributes of a converted frame: column names, row labels, class. -/
def frameAttributes {D : Type} (tupdesc : List (SPIAttribute D)) (n : Nat) : Pairlist :=
  [(R_NamesSymbol, .strs (tupdesc.map (fun att => some att.fname))),
   (R_RowNamesSymbol, .strs ((List.range n).map rowLabel)),
   (R_ClassSymbol, .strs [some "data.frame"])]

/-- The type identifier of an array of int4. -/
def INT4ARRAYOID : Oid := 1007

/-- Two rows over a text column and a column of int4 arrays; the second row is
null in both columns. -/
def exampleRows : List (SPITuple Int) :=
  [[some (.scalar 5), some (.array ⟨INT4OID, [2], [1], [1, 2]⟩)], [none, none]]

/-- The descriptor of `exampleRows`: a text column t and an array column v. -/
def exampleRowsDesc : List (SPIAttribute Int) :=
  [⟨"t", TEXTOID, intOut, 0, intOut⟩, arrayColumn "v" INT4ARRAYOID INT4OID]

/-- A column descriptor of a scalar type over integer data. -/
def scalarColumn (n : String) (typeid : Oid) : SPIAttribute Int := ⟨n, typeid, intOut, 0, intOut⟩

theorem foldlM_flatMap {α β σ ε : Type} (l : List α) (f : α → List β)
    (g : σ → β → Except ε σ) (s : σ) :
    (l.flatMap f).foldlM g s = l.foldlM (fun s a => (f a).foldlM g s) s := by
  induction l generalizing s with
  | nil => rfl
  | cons a l ih =>
    simp only [List.flatMap_cons, List.foldlM_append, List.foldlM_cons]
    cases h : (f a).foldlM g s with
    | error e => rfl
    | ok s1 => exact ih s1

theorem loop3_eq {σ : Type} (nr nc nz : Nat) (body : Nat → Nat → Nat → σ → Except PlrError σ)
    (init : σ) :
    loop3 nr nc nz body init
      = (triples nr nc nz).foldlM (fun s t => body t.1 t.2.1 t.2.2 s) init := by
  unfold loop3 triples
  rw [foldlM_flatMap]
  congr 1
  funext s i
  rw [foldlM_flatMap]
  congr 1
  funext s j
  rw [List.foldlM_map]

theorem applyWrites_length {α : Type} (ws : List (Nat × α)) (xs : List α) :
    (applyWrites xs ws).length = xs.length := by
  induction ws generalizing xs with
  | nil => rfl
  | cons w ws ih => simp [applyWrites, List.foldl_cons] at ih ⊢; rw [ih]; simp

theorem applyWrites_cons {α : Type} (w : Nat × α) (ws : List (Nat × α)) (xs : List α) :
    applyWrites xs (w :: ws) = applyWrites (xs.set w.1 w.2) ws := rfl

theorem applyWrites_get_of_not_mem {α : Type} (ws : List (Nat × α)) (xs : List α) (o : Nat)
    (h : o ∉ ws.map Prod.fst) : (applyWrites xs ws)[o]? = xs[o]? := by
  induction ws generalizing xs with
  | nil => rfl
  | cons w ws ih =>
    simp only [List.map_cons, List.mem_cons, not_or] at h
    rw [applyWrites_cons, ih _ h.2, List.getElem?_set_ne (Ne.symm h.1)]

theorem applyWrites_get_of_mem {α : Type} (ws : List (Nat × α)) (xs : List α) (w : Nat × α)
    (hnd : (ws.map Prod.fst).Nodup) (hw : w ∈ ws) (hlt : w.1 < xs.length) :
    (applyWrites xs ws)[w.1]? = some w.2 := by
  induction ws generalizing xs with
  | nil => cases hw
  | cons w0 ws ih =>
    simp only [List.map_cons, List.nodup_cons] at hnd
    rw [applyWrites_cons]
    rcases List.mem_cons.1 hw with h | h
    · subst h
      rw [applyWrites_get_of_not_mem _ _ _ hnd.1]
      simp [hlt]
    · exact ih _ hnd.2 h (by simpa using hlt)


theorem mem_triples {nr nc nz : Nat} {t : Nat × Nat × Nat} :
    t ∈ triples nr nc nz ↔ t.1 < nr ∧ t.2.1 < nc ∧ t.2.2 < nz := by
  obtain ⟨i, j, k⟩ := t
  simp only [triples, List.mem_flatMap, List.mem_range, List.mem_map, Prod.mk.injEq]
  constructor
  · rintro ⟨a, ha, b, hb, c, hc, rfl, rfl, rfl⟩
    exact ⟨ha, hb, hc⟩
  · rintro ⟨ha, hb, hc⟩
    exact ⟨i, ha, j, hb, k, hc, rfl, rfl, rfl⟩

theorem length_flatMap_range {β : Type} (f : Nat → List β) (m : Nat)
    (hlen : ∀ i, (f i).length = m) (n : Nat) :
    ((List.range n).flatMap f).length = n * m := by
  induction n with
  | zero => simp
  | succ n ih =>
    rw [List.range_succ, List.flatMap_append, List.length_append, ih]
    simp [hlen, Nat.succ_mul]

theorem getElem?_flatMap_range {β : Type} (f : Nat → List β) (m : Nat)
    (hlen : ∀ i, (f i).length = m) (n i r : Nat) (hi : i < n) (hr : r < m) :
    ((List.range n).flatMap f)[i * m + r]? = (f i)[r]? := by
  induction n with
  | zero => omega
  | succ n ih =>
    rw [List.range_succ, List.flatMap_append]
    have hl := length_flatMap_range f m hlen n
    rcases Nat.lt_succ_iff_lt_or_eq.1 hi with h | h
    · have : i * m + r < n * m := by
        calc i * m + r < i * m + m := by omega
          _ = (i + 1) * m := by ring
          _ ≤ n * m := Nat.mul_le_mul_right _ h
      rw [List.getElem?_append_left (by rw [hl]; exact this)]
      exact ih h
    · subst h
      rw [List.getElem?_append_right (by rw [hl]; omega), hl]
      simp

theorem length_triples (nr nc nz : Nat) : (triples nr nc nz).length = nr * nc * nz := by
  unfold triples
  rw [length_flatMap_range _ (nc * nz), Nat.mul_assoc]
  intro i
  rw [length_flatMap_range _ nz]
  intro j
  simp

theorem triples_get {nr nc nz i j k : Nat} (hi : i < nr) (hj : j < nc) (hk : k < nz) :
    (triples nr nc nz)[(i * nc + j) * nz + k]? = some (i, j, k) := by
  unfold triples
  have h1 : (i * nc + j) * nz + k = i * (nc * nz) + (j * nz + k) := by ring
  have h2 : j * nz + k < nc * nz := by
    calc j * nz + k < j * nz + nz := by omega
      _ = (j + 1) * nz := by ring
      _ ≤ nc * nz := Nat.mul_le_mul_right _ hj
  rw [h1, getElem?_flatMap_range _ (nc * nz) _ nr i _ hi h2,
    getElem?_flatMap_range _ nz _ nc j k hj hk]
  · simp [hk]
  · intro j; simp
  · intro i
    rw [length_flatMap_range _ nz]
    intro j; simp

theorem arrayIdx_eq (nr nc i j k : Nat) : arrayIdx nr nc i j k = (k * nc + j) * nr + i := by
  unfold arrayIdx; ring

theorem arrayIdx_inj {nr nc i j k i2 j2 k2 : Nat} (hi : i < nr) (hj : j < nc)
    (hi2 : i2 < nr) (hj2 : j2 < nc)
    (h : arrayIdx nr nc i j k = arrayIdx nr nc i2 j2 k2) : i = i2 ∧ j = j2 ∧ k = k2 := by
  rw [arrayIdx_eq, arrayIdx_eq] at h
  have e1 : ((k * nc + j) * nr + i) % nr = i := by
    rw [Nat.add_comm, Nat.add_mul_mod_self_right, Nat.mod_eq_of_lt hi]
  have e2 : ((k2 * nc + j2) * nr + i2) % nr = i2 := by
    rw [Nat.add_comm, Nat.add_mul_mod_self_right, Nat.mod_eq_of_lt hi2]
  have hii : i = i2 := by rw [← e1, ← e2, h]
  subst hii
  have hpos : 0 < nr := by omega
  have h3 : k * nc + j = k2 * nc + j2 := by
    have := Nat.add_right_cancel h
    exact Nat.eq_of_mul_eq_mul_right hpos this
  have f1 : (k * nc + j) % nc = j := by
    rw [Nat.add_comm, Nat.add_mul_mod_self_right, Nat.mod_eq_of_lt hj]
  have f2 : (k2 * nc + j2) % nc = j2 := by
    rw [Nat.add_comm, Nat.add_mul_mod_self_right, Nat.mod_eq_of_lt hj2]
  have hjj : j = j2 := by rw [← f1, ← f2, h3]
  subst hjj
  have hposc : 0 < nc := by omega
  have := Nat.add_right_cancel h3
  exact ⟨rfl, rfl, Nat.eq_of_mul_eq_mul_right hposc this⟩

theorem arrayIdx_lt {nr nc nz i j k : Nat} (hi : i < nr) (hj : j < nc) (hk : k < nz) :
    arrayIdx nr nc i j k < nr * nc * nz := by
  rw [arrayIdx_eq]
  have h1 : k * nc + j + 1 ≤ nz * nc := by
    calc k * nc + j + 1 ≤ k * nc + nc := by omega
      _ = (k + 1) * nc := by ring
      _ ≤ nz * nc := Nat.mul_le_mul_right _ hk
  calc (k * nc + j) * nr + i < (k * nc + j) * nr + nr := by omega
    _ = (k * nc + j + 1) * nr := by ring
    _ ≤ (nz * nc) * nr := Nat.mul_le_mul_right _ h1
    _ = nr * nc * nz := by ring

theorem nodup_triples (nr nc nz : Nat) : (triples nr nc nz).Nodup := by
  unfold triples
  rw [List.nodup_flatMap]
  refine ⟨fun i _ => ?_, ?_⟩
  · rw [List.nodup_flatMap]
    refine ⟨fun j _ => ?_, ?_⟩
    · exact (List.nodup_range nz).map (fun a b h => by simpa using h)
    · refine (List.nodup_range nc).pairwise_of_forall_ne ?_
      intro a _ b _ hab
      simp only [Function.onFun, List.disjoint_left, List.mem_map, List.mem_range]
      rintro t ⟨k, _, rfl⟩ ⟨k2, _, h⟩
      simp only [Prod.mk.injEq] at h
      exact hab h.2.1.symm
  · refine (List.nodup_range nr).pairwise_of_forall_ne ?_
    intro a _ b _ hab
    simp only [Function.onFun, List.disjoint_left, List.mem_flatMap, List.mem_map, List.mem_range]
    rintro t ⟨j, _, k, _, rfl⟩ ⟨j2, _, k2, _, h⟩
    simp only [Prod.mk.injEq] at h
    exact hab h.1.symm

theorem nodup_triples_idx (nr nc nz : Nat) :
    ((triples nr nc nz).map (fun t => arrayIdx nr nc t.1 t.2.1 t.2.2)).Nodup := by
  refine List.Nodup.map_on ?_ (nodup_triples nr nc nz)
  intro x hx y hy h
  rw [mem_triples] at hx hy
  obtain ⟨h1, h2, h3⟩ := arrayIdx_inj hx.1 hx.2.1 hy.1 hy.2.1 h
  exact Prod.ext h1 (Prod.ext h2 h3)


theorem length_eq_elts (s : SEXP) : length s = (elts s).length := by
  cases s <;> simp [length, elts]

theorem asCharacterElts_eq (L : CRuntime) (s : SEXP) :
    asCharacterElts L s = (elts s).map (eltAsChar L) := by
  cases s <;> simp [asCharacterElts, elts, eltAsChar, Function.comp_def]

theorem eltAsChar_eq_none (L : CRuntime) (e : RElt) :
    eltAsChar L e = none ↔ eltIsNA e = true := by
  cases e with
  | lgl x => simp only [eltAsChar, StringFromLogical, eltIsNA, NA_STRING]; split <;> simp_all
  | int x => simp only [eltAsChar, StringFromInteger, eltIsNA, NA_STRING]; split <;> simp_all
  | real x => simp only [eltAsChar, StringFromReal, eltIsNA, NA_STRING]; split <;> simp_all
  | str c => cases c <;> simp [eltAsChar, eltIsNA]
  | obj s =>
    simp only [eltAsChar, eltIsNA]
    unfold StringFromElt isSingleNA
    split <;> split <;> simp_all

theorem get_r_vector_kind (t : Oid) (n : Nat) : TYPEOF (get_r_vector t n) = vectorKind t := by
  unfold get_r_vector vectorKind
  split_ifs <;> rfl

theorem get_r_vector_attrib (t : Oid) (n : Nat) : ATTRIB (get_r_vector t n) = [] := by
  unfold get_r_vector
  split_ifs <;> rfl

theorem get_r_vector_length (t : Oid) (n : Nat) : length (get_r_vector t n) = n := by
  unfold get_r_vector
  split_ifs <;> simp [length]

theorem pg_get_one_r_spec (L : CRuntime) (value : String) (t : Oid) (obj : SEXP) (elnum : Nat)
    (hk : TYPEOF obj = vectorKind t) (hlt : elnum < length obj) :
    ∃ r, pg_get_one_r L value t obj elnum = .ok r
      ∧ elts r = (elts obj).set elnum (decodeElt L t value)
      ∧ TYPEOF r = TYPEOF obj ∧ ATTRIB r = ATTRIB obj := by
  unfold pg_get_one_r decodeElt
  unfold vectorKind at hk
  split_ifs at hk ⊢ <;> cases obj <;> simp_all [TYPEOF, length, elts, ATTRIB, SET_STRING_ELT,
    List.map_set]


theorem decode_step {D : Type} (L : CRuntime) (v : ArrayType D) (out_func : OutFunc D)
    (nr nc i j k p : Nat) (r : SEXP)
    (hk : TYPEOF r = vectorKind v.elemtype) (hidx : arrayIdx nr nc i j k < length r)
    (hp : p < v.data.length) (htext : ∀ d ∈ v.data, ∃ s, out_func d = some s) :
    ∃ r2, pg_array_get_r_step L v out_func nr nc i j k (p, r) = .ok (p + 1, r2)
      ∧ elts r2 = (elts r).set (arrayIdx nr nc i j k)
          (decodeElt L v.elemtype (textAt v out_func p))
      ∧ TYPEOF r2 = TYPEOF r ∧ ATTRIB r2 = ATTRIB r := by
  have hget : v.data.get? p = some (v.data[p]) := by simp [List.getElem?_eq_getElem hp]
  obtain ⟨s, hs⟩ := htext _ (List.getElem_mem hp)
  obtain ⟨r2, h1, h2, h3, h4⟩ := pg_get_one_r_spec L s v.elemtype r _ hk hidx
  refine ⟨r2, ?_, ?_, h3, h4⟩
  · simp only [pg_array_get_r_step, hget, hs, h1]
    rfl
  · have ht : textAt v out_func p = s := by
      simp [textAt, List.getElem?_eq_getElem hp, hs]
    rw [h2, ht]

theorem decode_fold {D : Type} (L : CRuntime) (v : ArrayType D) (out_func : OutFunc D)
    (nr nc : Nat) (htext : ∀ d ∈ v.data, ∃ s, out_func d = some s)
    (ts : List (Nat × Nat × Nat)) (p : Nat) (r : SEXP)
    (hk : TYPEOF r = vectorKind v.elemtype)
    (hidx : ∀ t ∈ ts, arrayIdx nr nc t.1 t.2.1 t.2.2 < length r)
    (hdata : p + ts.length ≤ v.data.length) :
    ∃ r2, ts.foldlM (fun s t => pg_array_get_r_step L v out_func nr nc t.1 t.2.1 t.2.2 s) (p, r)
        = .ok (p + ts.length, r2)
      ∧ elts r2 = applyWrites (elts r) (decodeWrites L v out_func nr nc p ts)
      ∧ TYPEOF r2 = TYPEOF r ∧ ATTRIB r2 = ATTRIB r := by
  induction ts generalizing p r with
  | nil => exact ⟨r, rfl, rfl, rfl, rfl⟩
  | cons t ts ih =>
    simp only [List.length_cons] at hdata
    obtain ⟨r1, h1, h2, h3, h4⟩ := decode_step L v out_func nr nc t.1 t.2.1 t.2.2 p r hk
      (hidx t (List.mem_cons_self _ _)) (by omega) htext
    have hlen : length r1 = length r := by
      rw [length_eq_elts, length_eq_elts, h2, List.length_set]
    obtain ⟨r2, g1, g2, g3, g4⟩ := ih (p + 1) r1 (h3.trans hk)
      (fun t2 ht2 => by rw [hlen]; exact hidx t2 (List.mem_cons_of_mem _ ht2)) (by omega)
    refine ⟨r2, ?_, ?_, g3.trans h3, g4.trans h4⟩
    · rw [List.foldlM_cons, h1]
      simp only [bind, Except.bind]
      rw [g1]
      congr 2
      simp only [List.length_cons]
      omega
    · rw [g2, h2]
      rfl


theorem decodeWrites_fst {D : Type} (L : CRuntime) (v : ArrayType D) (out_func : OutFunc D)
    (nr nc p : Nat) (ts : List (Nat × Nat × Nat)) :
    (decodeWrites L v out_func nr nc p ts).map Prod.fst
      = ts.map (fun t => arrayIdx nr nc t.1 t.2.1 t.2.2) := by
  unfold decodeWrites
  rw [List.map_map]
  conv_rhs => rw [← List.enumFrom_map_snd p ts, List.map_map]
  rfl

theorem decode_core {D : Type} (L : CRuntime) (v : ArrayType D) (out_func : OutFunc D)
    (nr nc nz : Nat) (hlen : v.data.length = nr * nc * nz)
    (htext : ∀ d ∈ v.data, ∃ s, out_func d = some s) :
    ∃ r0, loop3 nr nc nz (pg_array_get_r_step L v out_func nr nc)
          (0, get_r_vector v.elemtype (nr * nc * nz)) = .ok (nr * nc * nz, r0)
      ∧ TYPEOF r0 = vectorKind v.elemtype ∧ ATTRIB r0 = []
      ∧ (elts r0).length = nr * nc * nz
      ∧ ∀ p t, (triples nr nc nz)[p]? = some t →
          (elts r0)[arrayIdx nr nc t.1 t.2.1 t.2.2]?
            = some (decodeElt L v.elemtype (textAt v out_func p)) := by
  have hinit := get_r_vector_length v.elemtype (nr * nc * nz)
  obtain ⟨r0, h1, h2, h3, h4⟩ := decode_fold L v out_func nr nc htext (triples nr nc nz) 0
    (get_r_vector v.elemtype (nr * nc * nz)) (get_r_vector_kind _ _)
    (fun t ht => by
      rw [hinit]
      rw [mem_triples] at ht
      exact arrayIdx_lt ht.1 ht.2.1 ht.2.2)
    (by rw [length_triples, hlen]; omega)
  have hl : (elts r0).length = nr * nc * nz := by
    rw [h2, applyWrites_length, ← length_eq_elts, hinit]
  refine ⟨r0, ?_, h3.trans (get_r_vector_kind _ _), h4.trans (get_r_vector_attrib _ _), hl, ?_⟩
  · rw [loop3_eq, h1, length_triples, Nat.zero_add]
  · intro p t hpt
    have hmem : (arrayIdx nr nc t.1 t.2.1 t.2.2, decodeElt L v.elemtype (textAt v out_func p))
        ∈ decodeWrites L v out_func nr nc 0 (triples nr nc nz) := by
      unfold decodeWrites
      refine List.mem_map.2 ⟨(p, t), ?_, rfl⟩
      have := (List.mk_add_mem_enumFrom_iff_getElem? (n := 0) (i := p) (x := t)
        (l := triples nr nc nz)).2 hpt
      simpa using this
    have hnd : ((decodeWrites L v out_func nr nc 0 (triples nr nc nz)).map Prod.fst).Nodup := by
      rw [decodeWrites_fst]
      exact nodup_triples_idx nr nc nz
    have hmt : t ∈ triples nr nc nz := List.getElem?_mem hpt
    rw [mem_triples] at hmt
    have := applyWrites_get_of_mem _ (elts (get_r_vector v.elemtype (nr * nc * nz))) _ hnd hmem
      (by
        rw [← length_eq_elts, hinit]
        exact arrayIdx_lt hmt.1 hmt.2.1 hmt.2.2)
    rw [h2]
    exact this

theorem hasExtents_prod {dims : List Nat} {nr nc nz : Nat} (h : HasExtents dims nr nc nz) :
    ArrayGetNItems dims.length dims = nr * nc * nz := by
  rcases h with ⟨rfl, rfl, rfl⟩ | ⟨rfl, rfl⟩ | rfl <;> simp [ArrayGetNItems, Nat.mul_assoc]

theorem pg_array_get_r_decode {D : Type} (L : CRuntime) (v : ArrayType D) (out_func : OutFunc D)
    (nr nc nz : Nat) (hext : HasExtents v.dims nr nc nz) (hpos : nr * nc * nz ≠ 0)
    (hlen : v.data.length = nr * nc * nz)
    (htext : ∀ d ∈ v.data, ∃ s, out_func d = some s) :
    ∃ r0, pg_array_get_r L v out_func
        = .ok (if 1 < v.dims.length then
                 setAttrib r0 R_DimSymbol (.ints (v.dims.map Int.ofNat)) else r0)
      ∧ TYPEOF r0 = vectorKind v.elemtype ∧ ATTRIB r0 = []
      ∧ (elts r0).length = nr * nc * nz
      ∧ ∀ p t, (triples nr nc nz)[p]? = some t →
          (elts r0)[arrayIdx nr nc t.1 t.2.1 t.2.2]?
            = some (decodeElt L v.elemtype (textAt v out_func p)) := by
  obtain ⟨r0, h1, h2, h3, h4, h5⟩ := decode_core L v out_func nr nc nz hlen htext
  refine ⟨r0, ?_, h2, h3, h4, h5⟩
  have hn := hasExtents_prod hext
  unfold pg_array_get_r
  simp only [ARR_NDIM, hn, hpos, if_false]
  rcases hext with ⟨hd, rfl, rfl⟩ | ⟨hd, rfl⟩ | hd
  all_goals
    obtain ⟨et, dims, lb, data⟩ := v
    dsimp only at hd
    subst hd
    simp only [Nat.mul_one] at h1 ⊢
    simp [h1]


theorem mapM_id_map_some {D : Type} (l : List D) :
    (l.map some).mapM id = some l := by
  induction l with
  | nil => rfl
  | cons a l ih =>
    rw [List.map_cons, List.mapM_cons, ih]
    rfl

theorem seqWrites_all {D : Type} (y : Nat → D) (n : Nat) :
    applyWrites (List.replicate n (none : Option D)) (seqWrites y 0 n)
      = (List.range n).map (fun q => some (y q)) := by
  apply List.ext_getElem?
  intro q
  by_cases hq : q < n
  · have hmem : (q, some (y q)) ∈ seqWrites y 0 n := by
      unfold seqWrites
      exact List.mem_map.2 ⟨q, by simp [hq], rfl⟩
    have hnd : ((seqWrites y 0 n).map Prod.fst).Nodup := by
      unfold seqWrites
      rw [List.map_map]
      have : (Prod.fst ∘ fun q => (q, some (y q))) = (id : Nat → Nat) := rfl
      rw [this, List.map_id]
      exact List.nodup_range' 0 n
    rw [applyWrites_get_of_mem _ _ _ hnd hmem (by simpa using hq)]
    simp [List.getElem?_range hq]
  · rw [List.getElem?_eq_none (by rw [applyWrites_length]; simpa using hq),
      List.getElem?_eq_none (by simpa using hq)]

theorem setSlot_ok {D : Type} (dv : List (Option D)) (i : Nat) (d : D) (h : i < dv.length) :
    setSlot dv i d = .ok (dv.set i (some d)) := by
  simp [setSlot, h]

theorem STRING_ELT_str (chars : List CHARSXP) (a : Pairlist) (i : Nat) (e : CHARSXP)
    (h : chars[i]? = some e) : STRING_ELT (.str chars a) i = .ok e := by
  simp [STRING_ELT, h]

theorem encode_fold {D : Type} (in_func : InFunc D) (chars : List CHARSXP) (a : Pairlist)
    (nr nc : Nat) (y : Nat → D) (ts : List (Nat × Nat × Nat)) (c : Nat) (dv : List (Option D))
    (h : ∀ q t, ts[q]? = some t → ∃ e, chars[arrayIdx nr nc t.1 t.2.1 t.2.2]? = some e
        ∧ encodeElt in_func e = .ok (y (c + q)))
    (hlen : c + ts.length ≤ dv.length) :
    ts.foldlM (fun s t => get_md_array_datum_step in_func (.str chars a) nr nc t.1 t.2.1 t.2.2 s)
        (c, dv)
      = .ok (c + ts.length, applyWrites dv (seqWrites y c ts.length)) := by
  induction ts generalizing c dv with
  | nil => rfl
  | cons t ts ih =>
    simp only [List.length_cons] at hlen
    obtain ⟨e, he1, he2⟩ := h 0 t (by simp)
    have hstep : get_md_array_datum_step in_func (.str chars a) nr nc t.1 t.2.1 t.2.2 (c, dv)
        = .ok (c + 1, dv.set c (some (y c))) := by
      simp only [get_md_array_datum_step, STRING_ELT_str _ _ _ _ he1, he2, Nat.add_zero,
        setSlot_ok dv c (y c) (by omega)]
      rfl
    rw [List.foldlM_cons, hstep]
    simp only [bind, Except.bind]
    rw [ih (c + 1) (dv.set c (some (y c)))
      (fun q t2 hq => by
        obtain ⟨e2, h1, h2⟩ := h (q + 1) t2 (by simpa using hq)
        exact ⟨e2, h1, by rw [h2]; congr 2; omega⟩)
      (by simp; omega)]
    simp only [List.length_cons, seqWrites, List.range'_succ, List.map_cons, applyWrites_cons]
    congr 2
    omega

theorem generic_fold {D : Type} (in_func : InFunc D) (chars : List CHARSXP) (a : Pairlist)
    (y : Nat → D) (n c : Nat) (dv : List (Option D))
    (h : ∀ q, c ≤ q → q < c + n → ∃ e, chars[q]? = some e ∧ encodeElt in_func e = .ok (y q))
    (hlen : c + n ≤ dv.length) :
    (List.range' c n).foldlM (get_generic_array_datum_step in_func (.str chars a)) dv
      = .ok (applyWrites dv (seqWrites y c n)) := by
  induction n generalizing c dv with
  | zero => rfl
  | succ n ih =>
    obtain ⟨e, he1, he2⟩ := h c (Nat.le_refl _) (by omega)
    have hstep : get_generic_array_datum_step in_func (.str chars a) dv c
        = .ok (dv.set c (some (y c))) := by
      simp only [get_generic_array_datum_step, STRING_ELT_str _ _ _ _ he1, he2,
        setSlot_ok dv c (y c) (by omega)]
    rw [List.range'_succ, List.foldlM_cons, hstep]
    simp only [bind, Except.bind]
    rw [ih (c + 1) (dv.set c (some (y c))) (fun q h1 h2 => h q (by omega) (by omega))
      (by simp; omega)]
    simp only [seqWrites, List.range'_succ, List.map_cons, applyWrites_cons]


theorem md_dims2 (a b : Int) :
    (List.range 2).foldlM (get_md_array_datum_dim [a, b]) ⟨[], [], 1, 1, 1⟩
      = .ok ⟨[a.toNat, b.toNat], [1, 1], a.toNat, b.toNat, 1⟩ := rfl

theorem md_dims3 (a b c : Int) :
    (List.range 3).foldlM (get_md_array_datum_dim [a, b, c]) ⟨[], [], 1, 1, 1⟩
      = .ok ⟨[a.toNat, b.toNat, c.toNat], [1, 1, 1], a.toNat, b.toNat, c.toNat⟩ := rfl

theorem md_encode {D : Type} (L : CRuntime) (rval : SEXP) (function : plr_function D)
    (rdims : List Int) (ndims nr nc nz : Nat) (y : Nat → D)
    (hattr : getAttrib rval R_DimSymbol = some (.ints rdims))
    (hdims : (∃ a b, rdims = [a, b] ∧ ndims = 2 ∧ nr = a.toNat ∧ nc = b.toNat ∧ nz = 1)
      ∨ (∃ a b c, rdims = [a, b, c] ∧ ndims = 3 ∧ nr = a.toNat ∧ nc = b.toNat ∧ nz = c.toNat))
    (h : ∀ q t, (triples nr nc nz)[q]? = some t →
      ∃ e, (asCharacterElts L rval)[arrayIdx nr nc t.1 t.2.1 t.2.2]? = some e
        ∧ encodeElt function.result_elem_in_func e = .ok (y q)) :
    get_md_array_datum L rval ndims function
      = .ok ⟨function.result_elem, rdims.map Int.toNat, List.replicate ndims 1,
          (List.range (nr * nc * nz)).map y⟩ := by
  have hfold := encode_fold function.result_elem_in_func (asCharacterElts L rval) (ATTRIB rval)
    nr nc y (triples nr nc nz) 0 (List.replicate (nr * nc * nz) none)
    (fun q t hq => by simpa using h q t hq) (by simp [length_triples])
  rw [length_triples, Nat.zero_add, seqWrites_all] at hfold
  have hcons : construct_md_array (List.map (fun q => some (y q)) (List.range (nr * nc * nz)))
      (rdims.map Int.toNat) (List.replicate ndims 1) function.result_elem
      = .ok ⟨function.result_elem, rdims.map Int.toNat, List.replicate ndims 1,
          (List.range (nr * nc * nz)).map y⟩ := by
    unfold construct_md_array
    have : List.map (fun q => some (y q)) (List.range (nr * nc * nz))
        = ((List.range (nr * nc * nz)).map y).map some := by
      rw [List.map_map]; rfl
    rw [this, mapM_id_map_some]
  unfold get_md_array_datum
  simp only [hattr]
  rcases hdims with ⟨a, b, rfl, rfl, rfl, rfl, rfl⟩ | ⟨a, b, c, rfl, rfl, rfl, rfl, rfl⟩
  · rw [md_dims2]
    simp only [loop3_eq, AS_CHARACTER, hfold]
    exact hcons
  · rw [md_dims3]
    simp only [loop3_eq, AS_CHARACTER, hfold]
    exact hcons

theorem generic_encode {D : Type} (L : CRuntime) (rval : SEXP) (function : plr_function D)
    (y : Nat → D)
    (h : ∀ q, q < length rval →
      ∃ e, (asCharacterElts L rval)[q]? = some e
        ∧ encodeElt function.result_elem_in_func e = .ok (y q)) :
    get_generic_array_datum L rval function
      = .ok ⟨function.result_elem, [length rval], [1], (List.range (length rval)).map y⟩ := by
  have hfold := generic_fold function.result_elem_in_func (asCharacterElts L rval) (ATTRIB rval)
    y (length rval) 0 (List.replicate (length rval) none)
    (fun q _ hq => h q (by omega)) (by simp)
  rw [seqWrites_all, ← List.range_eq_range'] at hfold
  unfold get_generic_array_datum
  simp only [AS_CHARACTER, hfold]
  unfold construct_md_array
  have : List.map (fun q => some (y q)) (List.range (length rval))
      = ((List.range (length rval)).map y).map some := by
    rw [List.map_map]; rfl
  rw [this, mapM_id_map_some]


theorem range_map_getD {D E : Type} (g : D → E) (l : List D) (d0 : D) :
    (List.range l.length).map (fun q => g (l.getD q d0)) = l.map g := by
  apply List.ext_getElem?
  intro q
  by_cases hq : q < l.length
  · simp [List.getElem?_range hq, List.getElem?_eq_getElem hq]
  · rw [List.getElem?_eq_none (by simpa using hq), List.getElem?_eq_none (by simpa using hq)]

theorem elts_setAttrib (s : SEXP) (tag : String) (v : AttrVal) :
    elts (setAttrib s tag v) = elts s := by
  cases s <;> rfl

theorem asCharacterElts_setAttrib (L : CRuntime) (s : SEXP) (tag : String) (v : AttrVal) :
    asCharacterElts L (setAttrib s tag v) = asCharacterElts L s := by
  rw [asCharacterElts_eq, asCharacterElts_eq, elts_setAttrib]

theorem vectorKind_cases (t : Oid) :
    vectorKind t = .INTSXP ∨ vectorKind t = .REALSXP ∨ vectorKind t = .LGLSXP
      ∨ vectorKind t = .STRSXP := by
  unfold vectorKind
  split_ifs <;> simp

/-- The facts about a freshly decoded vector `r0` with the dim attribute `ds` attached. -/
theorem setAttrib_dim_fresh (r0 : SEXP) (t : Oid) (ds : List Int)
    (hk : TYPEOF r0 = vectorKind t) (ha : ATTRIB r0 = []) :
    getAttrib (setAttrib r0 R_DimSymbol (.ints ds)) R_DimSymbol = some (.ints ds)
      ∧ isFrame (setAttrib r0 R_DimSymbol (.ints ds)) = false
      ∧ isVector (setAttrib r0 R_DimSymbol (.ints ds)) = true := by
  rcases vectorKind_cases t with h | h | h | h <;> rw [h] at hk <;>
    cases r0 <;> simp_all [TYPEOF, ATTRIB, setAttrib, installAttr, getAttrib, lookupAttr,
      isFrame, inherits, isVector, R_DimSymbol, R_ClassSymbol]

theorem fresh_plain (r0 : SEXP) (ha : ATTRIB r0 = []) :
    isFrame r0 = false ∧ isMatrix r0 = false ∧ getAttrib r0 R_DimSymbol = none := by
  simp [isFrame, inherits, isMatrix, getAttrib, ha, lookupAttr]

theorem round_trip_elt {D : Type} (L : CRuntime) (v : ArrayType D) (out_func : OutFunc D)
    (in_func : InFunc D) (g : D → D) (d0 : D) (chars : List CHARSXP) (r0 : SEXP) (i q : Nat)
    (hchars : chars = (elts r0).map (eltAsChar L))
    (hcodec : ∀ d ∈ v.data, elementRoundTrip L v.elemtype out_func in_func d = .ok (g d))
    (hq : q < v.data.length)
    (h5 : (elts r0)[i]? = some (decodeElt L v.elemtype (textAt v out_func q))) :
    ∃ e, chars[i]? = some e ∧ encodeElt in_func e = .ok (g (v.data.getD q d0)) := by
  refine ⟨eltAsChar L (decodeElt L v.elemtype (textAt v out_func q)), ?_, ?_⟩
  · rw [hchars, List.getElem?_map, h5]; rfl
  · have hc := hcodec _ (List.getElem_mem hq)
    have hd : v.data.getD q d0 = v.data[q] := by
      simp [List.getElem?_eq_getElem hq]
    rw [hd, ← hc]
    unfold elementRoundTrip
    cases ho : out_func v.data[q] with
    | none => simp [elementRoundTrip, ho] at hc
    | some s =>
      have : textAt v out_func q = s := by simp [textAt, List.getElem?_eq_getElem hq, ho]
      rw [this]


theorem dispatch_md2 {D : Type} (L : CRuntime) (r : SEXP) (function : plr_function D)
    (a b : Int) (hf : isFrame r = false) (hv : isVector r = true)
    (hd : getAttrib r R_DimSymbol = some (.ints [a, b])) :
    get_array_datum L r function = get_md_array_datum L r 2 function := by
  have hm : isMatrix r = true := by simp [isMatrix, hv, hd]
  unfold get_array_datum
  simp [hf, hm]

theorem dispatch_md3 {D : Type} (L : CRuntime) (r : SEXP) (function : plr_function D)
    (a b c : Int) (hf : isFrame r = false)
    (hd : getAttrib r R_DimSymbol = some (.ints [a, b, c])) :
    get_array_datum L r function = get_md_array_datum L r 3 function := by
  have hm : isMatrix r = false := by simp [isMatrix, hd]
  unfold get_array_datum
  simp [hf, hm, hd, attrLength]

theorem dispatch_generic {D : Type} (L : CRuntime) (r : SEXP) (function : plr_function D)
    (hf : isFrame r = false) (hd : getAttrib r R_DimSymbol = none) :
    get_array_datum L r function = get_generic_array_datum L r function := by
  have hm : isMatrix r = false := by simp [isMatrix, hd]
  unfold get_array_datum
  simp [hf, hm, hd, attrLength]

theorem map_toNat_ofNat (l : List Nat) : (l.map Int.ofNat).map Int.toNat = l := by
  induction l with
  | nil => rfl
  | cons a l ih => simp [ih]

theorem foldlM_error {α σ ε : Type} (P : ε → Prop) (step : σ → α → Except ε σ)
    (hstep : ∀ s a e, step s a = .error e → P e) (l : List α) (s : σ) (e : ε)
    (h : l.foldlM step s = .error e) : P e := by
  induction l generalizing s with
  | nil => cases h
  | cons a l ih =>
    rw [List.foldlM_cons] at h
    cases hs : step s a with
    | error e2 =>
      rw [hs] at h
      cases h
      exact hstep s a e hs
    | ok s2 =>
      rw [hs] at h
      exact ih s2 h

theorem SET_STRING_ELT_error (x : SEXP) (i : Nat) (c : CHARSXP) (e : PlrError)
    (h : SET_STRING_ELT x i c = .error e) : e = .memoryFault := by
  unfold SET_STRING_ELT at h
  split at h
  · split at h
    · cases h
    · cases h; rfl
  · cases h; rfl

theorem pg_get_one_r_error (L : CRuntime) (value : String) (t : Oid) (obj : SEXP) (elnum : Nat)
    (e : PlrError) (h : pg_get_one_r L value t obj elnum = .error e) : e = .memoryFault := by
  unfold pg_get_one_r at h
  split_ifs at h
  all_goals first
    | exact SET_STRING_ELT_error _ _ _ _ h
    | (cases obj <;> simp only at h <;> (try split_ifs at h) <;> cases h <;> rfl)

theorem map_error {α β : Type} (f : α → β) (x : Except PlrError α) (e : PlrError)
    (h : x.map f = .error e) : x = .error e := by
  cases x with
  | error e2 => simpa [Except.map] using h
  | ok a => simp [Except.map] at h

theorem pg_array_get_r_step_error {D : Type} (L : CRuntime) (v : ArrayType D)
    (out_func : OutFunc D) (nr nc i j k : Nat) (st : Nat × SEXP) (e : PlrError)
    (h : pg_array_get_r_step L v out_func nr nc i j k st = .error e) : e = .memoryFault := by
  unfold pg_array_get_r_step at h
  dsimp only at h
  split at h
  · cases h; rfl
  · split at h
    · exact pg_get_one_r_error _ _ _ _ _ _ (map_error _ _ _ h)
    · exact SET_STRING_ELT_error _ _ _ _ (map_error _ _ _ h)

theorem pg_array_get_r_loop_error {D : Type} (L : CRuntime) (v : ArrayType D)
    (out_func : OutFunc D) (nr nc nz : Nat) (init : Nat × SEXP) (e : PlrError)
    (h : loop3 nr nc nz (pg_array_get_r_step L v out_func nr nc) init = .error e) :
    e = .memoryFault := by
  rw [loop3_eq] at h
  exact foldlM_error (fun e => e = .memoryFault) _
    (fun s t e hs => pg_array_get_r_step_error L v out_func nr nc _ _ _ s e hs) _ _ _ h

theorem encodeElt_none {D : Type} (in_func : InFunc D) :
    encodeElt in_func none = .error .nullArrayElement := rfl

theorem encodeElt_some {D : Type} (in_func : InFunc D) (s : String) :
    encodeElt in_func (some s) = callInFunc in_func s 0 := rfl

theorem callInFunc_error {D : Type} (f : InFunc D) (s : String) (t : Oid) (e : PlrError)
    (h : callInFunc f s t = .error e) : ∃ msg, e = .inputFunction msg := by
  unfold callInFunc at h
  split at h
  · cases h
  · cases h; exact ⟨_, rfl⟩

theorem setSlot_error {D : Type} (dv : List (Option D)) (i : Nat) (d : D) (e : PlrError)
    (h : setSlot dv i d = .error e) : e = .memoryFault := by
  unfold setSlot at h
  split_ifs at h
  cases h; rfl

theorem writeLoop_cons {D : Type} (in_func : InFunc D) (it : PlannedWrite)
    (plan : List PlannedWrite) (dv : List (Option D)) :
    writeLoop in_func (it :: plan) dv
      = (match writeStep in_func dv it with
         | .error e => .error e
         | .ok dv2 => writeLoop in_func plan dv2) := by
  unfold writeLoop
  rw [List.foldlM_cons]
  cases writeStep in_func dv it <;> rfl

/-- A failure with the missing-element error comes from reading a missing element. -/
theorem writeLoop_null {D : Type} (in_func : InFunc D) (plan : List PlannedWrite)
    (dv : List (Option D)) (h : writeLoop in_func plan dv = .error .nullArrayElement) :
    ∃ it ∈ plan, it.1 = some none := by
  induction plan generalizing dv with
  | nil => cases h
  | cons it plan ih =>
    rw [writeLoop_cons] at h
    cases hs : writeStep in_func dv it with
    | ok dv2 =>
      rw [hs] at h
      obtain ⟨it2, h1, h2⟩ := ih dv2 h
      exact ⟨it2, List.mem_cons_of_mem _ h1, h2⟩
    | error e =>
      rw [hs] at h
      cases h
      refine ⟨it, List.mem_cons_self _ _, ?_⟩
      unfold writeStep at hs
      cases h1 : it.1 with
      | none =>
        rw [h1] at hs
        cases hs
      | some elt =>
        rw [h1] at hs
        cases elt with
        | none => rfl
        | some s =>
          simp only [encodeElt_some] at hs
          cases h2 : callInFunc in_func s 0 with
          | error e2 =>
            rw [h2] at hs
            cases hs
            obtain ⟨msg, hm⟩ := callInFunc_error _ _ _ _ h2
            cases hm
          | ok d =>
            rw [h2] at hs
            exact absurd (setSlot_error _ _ _ _ hs) (by decide)

/-- With every read inside the vector, every slot inside the buffer and every
non-missing element accepted, a missing element makes the loop fail with the
missing-element error. -/
theorem writeLoop_fail {D : Type} (in_func : InFunc D) (plan : List PlannedWrite)
    (dv : List (Option D))
    (hok : ∀ it ∈ plan, it.2 < dv.length ∧ ∃ elt, it.1 = some elt
      ∧ (elt ≠ none → ∃ y, encodeElt in_func elt = .ok y))
    (hna : ∃ it ∈ plan, it.1 = some none) :
    writeLoop in_func plan dv = .error .nullArrayElement := by
  induction plan generalizing dv with
  | nil =>
    obtain ⟨it, h, _⟩ := hna
    cases h
  | cons it plan ih =>
    rw [writeLoop_cons]
    obtain ⟨hlt, elt, h1, h2⟩ := hok it (List.mem_cons_self _ _)
    cases elt with
    | none => simp [writeStep, h1, encodeElt_none]
    | some s =>
      obtain ⟨y, hy⟩ := h2 (by simp)
      have hs : writeStep in_func dv it = .ok (dv.set it.2 (some y)) := by
        simp [writeStep, h1, hy, setSlot_ok _ _ _ hlt]
      rw [hs]
      refine ih _ (fun it2 h => ?_) ?_
      · rw [List.length_set]
        exact hok it2 (List.mem_cons_of_mem _ h)
      · obtain ⟨it2, h3, h4⟩ := hna
        rcases List.mem_cons.1 h3 with h5 | h5
        · rw [h5, h1] at h4
          cases h4
        · exact ⟨it2, h5, h4⟩

/-- With every read inside the vector, every slot inside the buffer and every
element read accepted, the loop succeeds; slots already filled stay filled and
every slot of the plan is filled. -/
theorem writeLoop_ok {D : Type} (in_func : InFunc D) (plan : List PlannedWrite)
    (dv : List (Option D))
    (hok : ∀ it ∈ plan, it.2 < dv.length ∧ ∃ elt y, it.1 = some elt
      ∧ encodeElt in_func elt = .ok y) :
    ∃ dv2, writeLoop in_func plan dv = .ok dv2 ∧ dv2.length = dv.length
      ∧ ∀ q, ((∃ y, dv[q]? = some (some y)) ∨ (q ∈ plan.map Prod.snd)) →
          ∃ y, dv2[q]? = some (some y) := by
  induction plan generalizing dv with
  | nil =>
    refine ⟨dv, rfl, rfl, fun q h => ?_⟩
    rcases h with h | h
    · exact h
    · cases h
  | cons it plan ih =>
    obtain ⟨hlt, elt, y, h1, h2⟩ := hok it (List.mem_cons_self _ _)
    have hs : writeStep in_func dv it = .ok (dv.set it.2 (some y)) := by
      simp [writeStep, h1, h2, setSlot_ok _ _ _ hlt]
    obtain ⟨dv2, g1, g2, g3⟩ := ih (dv.set it.2 (some y)) (fun it2 h => by
      rw [List.length_set]
      exact hok it2 (List.mem_cons_of_mem _ h))
    refine ⟨dv2, ?_, by rw [g2, List.length_set], fun q h => ?_⟩
    · rw [writeLoop_cons, hs]
      exact g1
    · apply g3
      by_cases hq : it.2 = q
      · left
        subst hq
        exact ⟨y, by simp [hlt]⟩
      · rcases h with ⟨y2, h⟩ | h
        · left
          exact ⟨y2, by rw [List.getElem?_set_ne hq]; exact h⟩
        · right
          simp only [List.map_cons, List.mem_cons] at h
          rcases h with h | h
          · exact absurd h.symm hq
          · exact h

theorem mapM_id_all_some {D : Type} (dv : List (Option D))
    (h : ∀ q, q < dv.length → ∃ y, dv[q]? = some (some y)) :
    ∃ ds, dv.mapM id = some ds := by
  induction dv with
  | nil => exact ⟨[], rfl⟩
  | cons a dv ih =>
    obtain ⟨ds, hds⟩ := ih (fun q hq => by
      have := h (q + 1) (by simp; omega)
      simpa using this)
    obtain ⟨y, hy⟩ := h 0 (by simp)
    simp only [List.getElem?_cons_zero, Option.some.injEq] at hy
    subst hy
    exact ⟨y :: ds, by rw [List.mapM_cons, hds]; rfl⟩

theorem construct_md_array_ok {D : Type} (dv : List (Option D)) (dims : List Nat)
    (lbs : List Int) (t : Oid)
    (h : ∀ q, q < dv.length → ∃ y, dv[q]? = some (some y)) :
    ∃ a, construct_md_array dv dims lbs t = .ok a := by
  obtain ⟨ds, hds⟩ := mapM_id_all_some dv h
  refine ⟨⟨t, dims, lbs, ds⟩, ?_⟩
  unfold construct_md_array
  rw [hds]

theorem construct_md_array_error {D : Type} (dv : List (Option D)) (dims : List Nat)
    (lbs : List Int) (t : Oid) (e : PlrError)
    (h : construct_md_array dv dims lbs t = .error e) : e = .memoryFault := by
  unfold construct_md_array at h
  split at h
  · cases h
  · cases h; rfl

/-- The common shape of the three array builders: run the planned writes on an
empty buffer of `n` slots, then build the array. -/
theorem builder_spec {D : Type} (in_func : InFunc D) (plan : List PlannedWrite) (n : Nat)
    (dims : List Nat) (lbs : List Int) (t : Oid) (chars : List CHARSXP)
    (hread : ∀ it ∈ plan, it.2 < n ∧ ∃ c ∈ chars, it.1 = some c)
    (hall : ∀ c ∈ chars, ∃ it ∈ plan, it.1 = some c)
    (hslots : ∀ q, q < n → q ∈ plan.map Prod.snd)
    (henc : ∀ c ∈ chars, c ≠ none → ∃ y, encodeElt in_func c = .ok y) :
    (buildArray in_func plan n dims lbs t = .error .nullArrayElement ↔ none ∈ chars)
    ∧ (none ∉ chars → ∃ a, buildArray in_func plan n dims lbs t = .ok a) := by
  unfold buildArray
  constructor
  · constructor
    · intro h
      cases hw : writeLoop in_func plan (List.replicate n none) with
      | error e =>
        rw [hw] at h
        cases h
        obtain ⟨it, h1, h2⟩ := writeLoop_null in_func plan _ hw
        obtain ⟨_, c, hc, h3⟩ := hread it h1
        rw [h2] at h3
        cases h3
        exact hc
      | ok dv =>
        rw [hw] at h
        exact absurd (construct_md_array_error _ _ _ _ _ h) (by decide)
    · intro h
      obtain ⟨it, h1, h2⟩ := hall none h
      rw [writeLoop_fail in_func plan _ (fun it2 h3 => by
        obtain ⟨g1, c, g2, g3⟩ := hread it2 h3
        exact ⟨by simpa using g1, c, g3, henc c g2⟩) ⟨it, h1, h2⟩]
  · intro h
    obtain ⟨dv, g1, g2, g3⟩ := writeLoop_ok in_func plan (List.replicate n none) (fun it h3 => by
      obtain ⟨k1, c, k2, k3⟩ := hread it h3
      obtain ⟨y, hy⟩ := henc c k2 (fun hc => h (hc ▸ k2))
      exact ⟨by simpa using k1, c, y, k3, hy⟩)
    rw [g1]
    exact construct_md_array_ok dv dims lbs t (fun q hq => g3 q (Or.inr (hslots q (by
      rw [g2] at hq
      simpa using hq))))

theorem STRING_ELT_eq (chars : List CHARSXP) (a : Pairlist) (i : Nat) :
    STRING_ELT (.str chars a) i
      = (match chars[i]? with
         | some c => .ok c
         | none => .error .memoryFault) := by
  simp [STRING_ELT]

theorem generic_step_eq {D : Type} (in_func : InFunc D) (chars : List CHARSXP) (a : Pairlist)
    (dv : List (Option D)) (i : Nat) :
    get_generic_array_datum_step in_func (.str chars a) dv i
      = writeStep in_func dv (chars[i]?, i) := by
  unfold get_generic_array_datum_step writeStep
  rw [STRING_ELT_eq]
  cases chars[i]? <;> rfl

theorem generic_loop_eq {D : Type} (in_func : InFunc D) (chars : List CHARSXP) (a : Pairlist)
    (n : Nat) (dv : List (Option D)) :
    (List.range n).foldlM (get_generic_array_datum_step in_func (.str chars a)) dv
      = writeLoop in_func ((List.range n).map (fun i => (chars[i]?, i))) dv := by
  unfold writeLoop
  rw [List.foldlM_map]
  congr 1
  funext dv i
  exact generic_step_eq in_func chars a dv i

theorem frame_cell_eq {D : Type} (in_func : InFunc D) (chars : List CHARSXP) (a : Pairlist)
    (nc j : Nat) (dv : List (Option D)) (i : Nat) :
    get_frame_array_datum_cell in_func (.str chars a) nc j dv i
      = writeStep in_func dv (chars[i]?, i * nc + j) := by
  unfold get_frame_array_datum_cell writeStep
  rw [STRING_ELT_eq]
  cases chars[i]? <;> rfl

theorem frame_cell_loop_eq {D : Type} (in_func : InFunc D) (chars : List CHARSXP) (a : Pairlist)
    (nc j n : Nat) (dv : List (Option D)) :
    (List.range n).foldlM (get_frame_array_datum_cell in_func (.str chars a) nc j) dv
      = writeLoop in_func ((List.range n).map (fun i => (chars[i]?, i * nc + j))) dv := by
  unfold writeLoop
  rw [List.foldlM_map]
  congr 1
  funext dv i
  exact frame_cell_eq in_func chars a nc j dv i

theorem md_loop_eq {D : Type} (in_func : InFunc D) (chars : List CHARSXP) (a : Pairlist)
    (nr nc : Nat) (ts : List (Nat × Nat × Nat)) (c : Nat) (dv : List (Option D)) :
    ts.foldlM (fun s t => get_md_array_datum_step in_func (.str chars a) nr nc t.1 t.2.1 t.2.2 s)
        (c, dv)
      = (writeLoop in_func
          ((ts.enumFrom c).map (fun q => (chars[arrayIdx nr nc q.2.1 q.2.2.1 q.2.2.2]?, q.1)))
          dv).map (fun dv2 => (c + ts.length, dv2)) := by
  induction ts generalizing c dv with
  | nil => rfl
  | cons t ts ih =>
    rw [List.foldlM_cons, List.enumFrom_cons, List.map_cons, writeLoop_cons]
    have hstep : get_md_array_datum_step in_func (.str chars a) nr nc t.1 t.2.1 t.2.2 (c, dv)
        = (writeStep in_func dv (chars[arrayIdx nr nc t.1 t.2.1 t.2.2]?, c)).map
            (fun dv2 => (c + 1, dv2)) := by
      unfold get_md_array_datum_step writeStep
      dsimp only
      rw [STRING_ELT_eq]
      cases chars[arrayIdx nr nc t.1 t.2.1 t.2.2]? with
      | none => rfl
      | some elt =>
        simp only
        cases encodeElt in_func elt <;> rfl
    rw [hstep]
    cases hw : writeStep in_func dv (chars[arrayIdx nr nc t.1 t.2.1 t.2.2]?, c) with
    | error e => rfl
    | ok dv2 =>
      simp only [Except.map, bind, Except.bind]
      rw [ih (c + 1) dv2]
      simp only [List.length_cons]
      congr 2
      funext x
      congr 1
      omega

theorem none_mem_chars (L : CRuntime) (s : SEXP) :
    none ∈ asCharacterElts L s ↔ hasMissing s := by
  rw [asCharacterElts_eq]
  unfold hasMissing
  simp only [List.mem_map]
  constructor
  · rintro ⟨e, he, h⟩
    exact ⟨e, he, (eltAsChar_eq_none L e).1 h⟩
  · rintro ⟨e, he, h⟩
    exact ⟨e, he, (eltAsChar_eq_none L e).2 h⟩

theorem chars_encode {D : Type} (L : CRuntime) (in_func : InFunc D) (s : SEXP)
    (h : eltsEncode L in_func s) :
    ∀ c ∈ asCharacterElts L s, c ≠ none → ∃ y, encodeElt in_func c = .ok y := by
  intro c hc hne
  rw [asCharacterElts_eq, List.mem_map] at hc
  obtain ⟨e, he, rfl⟩ := hc
  have hna : eltIsNA e = false := by
    cases hb : eltIsNA e with
    | false => rfl
    | true => exact absurd ((eltAsChar_eq_none L e).2 hb) hne
  obtain ⟨y, hy⟩ := h e he hna
  refine ⟨y, ?_⟩
  cases hc : eltAsChar L e with
  | none => exact absurd hc hne
  | some s =>
    rw [hc] at hy
    exact hy

theorem length_asCharacterElts (L : CRuntime) (s : SEXP) :
    (asCharacterElts L s).length = length s := by
  rw [asCharacterElts_eq, List.length_map, length_eq_elts]

theorem generic_eq_build {D : Type} (L : CRuntime) (rval : SEXP) (function : plr_function D) :
    get_generic_array_datum L rval function
      = buildArray function.result_elem_in_func
          ((List.range (length rval)).map (fun i => ((asCharacterElts L rval)[i]?, i)))
          (length rval) [length rval] [1] function.result_elem := by
  unfold get_generic_array_datum buildArray
  simp only [AS_CHARACTER, generic_loop_eq]

/-- The plain-vector builder fails with the missing-element error exactly on a
missing element, and succeeds without one. -/
theorem generic_missing {D : Type} (L : CRuntime) (rval : SEXP) (function : plr_function D)
    (henc : eltsEncode L function.result_elem_in_func rval) :
    (get_generic_array_datum L rval function = .error .nullArrayElement ↔ hasMissing rval)
    ∧ (¬ hasMissing rval → ∃ a, get_generic_array_datum L rval function = .ok a) := by
  rw [generic_eq_build, ← none_mem_chars L rval]
  have hl := length_asCharacterElts L rval
  refine builder_spec _ _ _ _ _ _ (asCharacterElts L rval) ?_ ?_ ?_ (chars_encode L _ rval henc)
  · intro it hit
    obtain ⟨i, hi, rfl⟩ := List.mem_map.1 hit
    rw [List.mem_range] at hi
    have hi2 : i < (asCharacterElts L rval).length := by rw [hl]; exact hi
    refine ⟨hi, (asCharacterElts L rval)[i], List.getElem_mem hi2, ?_⟩
    simp [List.getElem?_eq_getElem hi2]
  · intro c hc
    obtain ⟨i, hi⟩ := List.mem_iff_getElem?.1 hc
    have hlt : i < length rval := by
      rw [← hl]
      exact (List.getElem?_eq_some.1 hi).1
    exact ⟨(_, i), List.mem_map.2 ⟨i, List.mem_range.2 hlt, rfl⟩, hi⟩
  · intro q hq
    rw [List.map_map]
    exact List.mem_map.2 ⟨q, List.mem_range.2 hq, rfl⟩

theorem arrayIdx_surj {nr nc nz o : Nat} (ho : o < nr * nc * nz) :
    ∃ t ∈ triples nr nc nz, arrayIdx nr nc t.1 t.2.1 t.2.2 = o := by
  have hnr : 0 < nr := by
    rcases Nat.eq_zero_or_pos nr with h | h
    · subst h; simp at ho
    · exact h
  have hnc : 0 < nc := by
    rcases Nat.eq_zero_or_pos nc with h | h
    · subst h; simp at ho
    · exact h
  refine ⟨(o % nr, (o / nr) % nc, o / nr / nc), ?_, ?_⟩
  · rw [mem_triples]
    refine ⟨Nat.mod_lt _ hnr, Nat.mod_lt _ hnc, ?_⟩
    rw [Nat.div_div_eq_div_mul]
    exact (Nat.div_lt_iff_lt_mul (Nat.mul_pos hnr hnc)).2 (by rw [Nat.mul_comm nz]; exact ho)
  · rw [arrayIdx_eq]
    simp only
    rw [Nat.div_add_mod' (o / nr) nc, Nat.div_add_mod' o nr]

theorem md_eq_build {D : Type} (L : CRuntime) (rval : SEXP) (function : plr_function D)
    (rdims : List Int) (ndims nr nc nz : Nat)
    (hattr : getAttrib rval R_DimSymbol = some (.ints rdims))
    (hdims : (∃ a b, rdims = [a, b] ∧ ndims = 2 ∧ nr = a.toNat ∧ nc = b.toNat ∧ nz = 1)
      ∨ (∃ a b c, rdims = [a, b, c] ∧ ndims = 3 ∧ nr = a.toNat ∧ nc = b.toNat ∧ nz = c.toNat)) :
    get_md_array_datum L rval ndims function
      = buildArray function.result_elem_in_func
          (((triples nr nc nz).enumFrom 0).map (fun q =>
            ((asCharacterElts L rval)[arrayIdx nr nc q.2.1 q.2.2.1 q.2.2.2]?, q.1)))
          (nr * nc * nz) (rdims.map Int.toNat) (List.replicate ndims 1) function.result_elem := by
  unfold get_md_array_datum buildArray
  simp only [hattr]
  rcases hdims with ⟨a, b, rfl, rfl, rfl, rfl, rfl⟩ | ⟨a, b, c, rfl, rfl, rfl, rfl, rfl⟩
  · rw [md_dims2]
    simp only [loop3_eq, AS_CHARACTER, md_loop_eq]
    cases writeLoop function.result_elem_in_func _ (List.replicate (a.toNat * b.toNat * 1) none)
      <;> rfl
  · rw [md_dims3]
    simp only [loop3_eq, AS_CHARACTER, md_loop_eq]
    cases writeLoop function.result_elem_in_func _
      (List.replicate (a.toNat * b.toNat * c.toNat) none) <;> rfl

/-- The dimensioned-vector builder fails with the missing-element error exactly
on a missing element, and succeeds without one. -/
theorem md_missing {D : Type} (L : CRuntime) (rval : SEXP) (function : plr_function D)
    (rdims : List Int) (ndims nr nc nz : Nat)
    (hattr : getAttrib rval R_DimSymbol = some (.ints rdims))
    (hdims : (∃ a b, rdims = [a, b] ∧ ndims = 2 ∧ nr = a.toNat ∧ nc = b.toNat ∧ nz = 1)
      ∨ (∃ a b c, rdims = [a, b, c] ∧ ndims = 3 ∧ nr = a.toNat ∧ nc = b.toNat ∧ nz = c.toNat))
    (hprod : nr * nc * nz = length rval)
    (henc : eltsEncode L function.result_elem_in_func rval) :
    (get_md_array_datum L rval ndims function = .error .nullArrayElement ↔ hasMissing rval)
    ∧ (¬ hasMissing rval → ∃ a, get_md_array_datum L rval ndims function = .ok a) := by
  rw [md_eq_build L rval function rdims ndims nr nc nz hattr hdims, ← none_mem_chars L rval]
  have hl : (asCharacterElts L rval).length = nr * nc * nz := by
    rw [length_asCharacterElts, hprod]
  refine builder_spec _ _ _ _ _ _ (asCharacterElts L rval) ?_ ?_ ?_ (chars_encode L _ rval henc)
  · intro it hit
    obtain ⟨q, hq, rfl⟩ := List.mem_map.1 hit
    have h1 := List.fst_lt_add_of_mem_enumFrom hq
    have h2 := List.snd_mem_of_mem_enumFrom hq
    rw [mem_triples] at h2
    have h3 : arrayIdx nr nc q.2.1 q.2.2.1 q.2.2.2 < (asCharacterElts L rval).length := by
      rw [hl]
      exact arrayIdx_lt h2.1 h2.2.1 h2.2.2
    refine ⟨by simpa [length_triples] using h1, _, List.getElem_mem h3, ?_⟩
    simp [List.getElem?_eq_getElem h3]
  · intro c hc
    obtain ⟨o, ho⟩ := List.mem_iff_getElem?.1 hc
    have hlt : o < nr * nc * nz := by
      rw [← hl]
      exact (List.getElem?_eq_some.1 ho).1
    obtain ⟨t, ht, hto⟩ := arrayIdx_surj hlt
    obtain ⟨q, hq⟩ := List.mem_iff_getElem?.1 ht
    refine ⟨_, List.mem_map.2 ⟨(q, t), ?_, rfl⟩, ?_⟩
    · have := (List.mk_add_mem_enumFrom_iff_getElem? (n := 0) (i := q) (x := t)
        (l := triples nr nc nz)).2 hq
      simpa using this
    · simp only [hto]
      exact ho
  · intro q hq
    rw [← length_triples] at hq
    rw [List.map_map]
    refine List.mem_map.2 ⟨(q, (triples nr nc nz)[q]), ?_, rfl⟩
    have := (List.mk_add_mem_enumFrom_iff_getElem? (n := 0) (i := q)
      (x := (triples nr nc nz)[q]) (l := triples nr nc nz)).2 (List.getElem?_eq_getElem hq)
    simpa using this

theorem writeLoop_append {D : Type} (in_func : InFunc D) (p1 p2 : List PlannedWrite)
    (dv : List (Option D)) :
    writeLoop in_func (p1 ++ p2) dv
      = (match writeLoop in_func p1 dv with
         | .error e => .error e
         | .ok dv2 => writeLoop in_func p2 dv2) := by
  unfold writeLoop
  rw [List.foldlM_append]
  cases List.foldlM (writeStep in_func) dv p1 <;> rfl

theorem frame_col_eq {D : Type} (L : CRuntime) (in_func : InFunc D) (cols : List SEXP)
    (a : Pairlist) (nr nc j : Nat) (st : FrameArrayState D)
    (hst : st.rval = .vec cols a) (hj : j < cols.length) (hnr : j ≠ 0 → st.nr = nr)
    (hattr : ∀ c ∈ cols, ATTRIB c = []) (hlen : ∀ c ∈ cols, length c = nr) :
    get_frame_array_datum_col L in_func nc st j
      = (writeLoop in_func (framePlan L cols nr nc j)
          (if j = 0 then List.replicate (nr * nc) none else st.dvalues)).map
          (fun dv => ⟨.vec cols a, nr, dv⟩) := by
  have hc : cols.getD j .nil = cols[j] := by simp [List.getElem?_eq_getElem hj]
  have hmem : cols[j] ∈ cols := List.getElem_mem hj
  have hl : (asCharacterElts L cols[j]).length = nr := by
    rw [length_asCharacterElts, hlen _ hmem]
  unfold get_frame_array_datum_col framePlan
  rw [hst, hc]
  simp only [TYPEOF, if_true, VECTOR_ELT, List.get?_eq_getElem?, List.getElem?_eq_getElem hj,
    Except.map, hattr _ hmem, AS_CHARACTER, length, hl, frame_cell_loop_eq]
  by_cases h0 : j = 0
  · simp only [h0, if_true]
    cases writeLoop in_func _ (List.replicate (nr * nc) none) <;> rfl
  · simp only [h0, if_false, hnr h0]
    cases writeLoop in_func _ st.dvalues <;> rfl

theorem frame_fold_eq {D : Type} (L : CRuntime) (in_func : InFunc D) (cols : List SEXP)
    (a : Pairlist) (nr nc : Nat)
    (hattr : ∀ c ∈ cols, ATTRIB c = []) (hlen : ∀ c ∈ cols, length c = nr)
    (js : List Nat) (hjs : ∀ j ∈ js, 0 < j ∧ j < cols.length) (dv : List (Option D)) :
    js.foldlM (get_frame_array_datum_col L in_func nc) ⟨.vec cols a, nr, dv⟩
      = (writeLoop in_func (js.flatMap (framePlan L cols nr nc)) dv).map
          (fun dv2 => ⟨.vec cols a, nr, dv2⟩) := by
  induction js generalizing dv with
  | nil => rfl
  | cons j js ih =>
    obtain ⟨h0, hj⟩ := hjs j (List.mem_cons_self _ _)
    rw [List.foldlM_cons,
      frame_col_eq L in_func cols a nr nc j _ rfl hj (fun _ => rfl) hattr hlen,
      List.flatMap_cons, writeLoop_append, if_neg (by omega)]
    cases hw : writeLoop in_func (framePlan L cols nr nc j) dv with
    | error e => rfl
    | ok dv2 =>
      simp only [Except.map, bind, Except.bind]
      rw [ih (fun j2 h => hjs j2 (List.mem_cons_of_mem _ h))]
      rfl

theorem frame_eq_build {D : Type} (L : CRuntime) (function : plr_function D)
    (c0 : SEXP) (cols : List SEXP) (a : Pairlist) (nr : Nat)
    (hattr : ∀ c ∈ c0 :: cols, ATTRIB c = []) (hlen : ∀ c ∈ c0 :: cols, length c = nr) :
    get_frame_array_datum L (.vec (c0 :: cols) a) function
      = buildArray function.result_elem_in_func
          ((List.range (cols.length + 1)).flatMap (framePlan L (c0 :: cols) nr (cols.length + 1)))
          (nr * (cols.length + 1)) [nr, cols.length + 1] [1, 1] function.result_elem := by
  unfold get_frame_array_datum buildArray
  simp only [length, List.length_cons]
  rw [List.range_succ_eq_map, List.foldlM_cons,
    frame_col_eq L _ (c0 :: cols) a nr _ 0 _ rfl (by simp) (fun h => absurd rfl h) hattr hlen,
    if_pos rfl,
    List.flatMap_cons, writeLoop_append]
  cases hw : writeLoop function.result_elem_in_func
      (framePlan L (c0 :: cols) nr (cols.length + 1) 0)
      (List.replicate (nr * (cols.length + 1)) none) with
  | error e => rfl
  | ok dv2 =>
    simp only [Except.map, bind, Except.bind]
    rw [frame_fold_eq L _ (c0 :: cols) a nr _ hattr hlen _ (fun j hj => by
      obtain ⟨i, hi, rfl⟩ := List.mem_map.1 hj
      rw [List.mem_range] at hi
      simp only [List.length_cons]
      omega)]
    cases hw2 : writeLoop function.result_elem_in_func
        ((List.map Nat.succ (List.range cols.length)).flatMap
          (framePlan L (c0 :: cols) nr (cols.length + 1))) dv2 with
    | error e => rfl
    | ok dv3 => rfl

/-- The frame builder fails with the missing-element error exactly on a missing
element, and succeeds without one. -/
theorem frame_missing {D : Type} (L : CRuntime) (function : plr_function D)
    (cols : List SEXP) (a : Pairlist) (nr : Nat)
    (hattr : ∀ c ∈ cols, ATTRIB c = []) (hlen : ∀ c ∈ cols, length c = nr)
    (henc : ∀ c ∈ cols, eltsEncode L function.result_elem_in_func c) :
    (get_frame_array_datum L (.vec cols a) function = .error .nullArrayElement
        ↔ frameHasMissing cols)
    ∧ (¬ frameHasMissing cols → ∃ arr, get_frame_array_datum L (.vec cols a) function = .ok arr) := by
  cases cols with
  | nil =>
    refine ⟨⟨fun h => (by cases h), fun h => ?_⟩, fun _ => ⟨_, rfl⟩⟩
    obtain ⟨c, hc, _⟩ := h
    cases hc
  | cons c0 cols =>
    rw [frame_eq_build L function c0 cols a nr hattr hlen]
    have hmiss : none ∈ (c0 :: cols).flatMap (asCharacterElts L) ↔ frameHasMissing (c0 :: cols) := by
      unfold frameHasMissing
      simp only [List.mem_flatMap, none_mem_chars]
    rw [← hmiss]
    have hcl : ∀ j (hj : j < (c0 :: cols).length),
        (asCharacterElts L ((c0 :: cols).getD j .nil)).length = nr := by
      intro j hj
      have : (c0 :: cols).getD j .nil = (c0 :: cols)[j] := by
        simp [List.getElem?_eq_getElem hj]
      rw [this, length_asCharacterElts, hlen _ (List.getElem_mem hj)]
    have hcm : ∀ j (hj : j < (c0 :: cols).length),
        (c0 :: cols).getD j .nil ∈ c0 :: cols := by
      intro j hj
      have : (c0 :: cols).getD j .nil = (c0 :: cols)[j] := by
        simp [List.getElem?_eq_getElem hj]
      rw [this]
      exact List.getElem_mem hj
    refine builder_spec _ _ _ _ _ _ ((c0 :: cols).flatMap (asCharacterElts L)) ?_ ?_ ?_ ?_
    · intro it hit
      obtain ⟨j, hj, hit2⟩ := List.mem_flatMap.1 hit
      rw [List.mem_range] at hj
      obtain ⟨i, hi, rfl⟩ := List.mem_map.1 hit2
      rw [List.mem_range] at hi
      have hj2 : j < (c0 :: cols).length := by simpa using hj
      have hi2 : i < (asCharacterElts L ((c0 :: cols).getD j .nil)).length := by
        rw [hcl j hj2]; exact hi
      refine ⟨?_, _, List.mem_flatMap.2 ⟨_, hcm j hj2, List.getElem_mem hi2⟩, ?_⟩
      · calc i * (cols.length + 1) + j < i * (cols.length + 1) + (cols.length + 1) := by omega
          _ = (i + 1) * (cols.length + 1) := by ring
          _ ≤ nr * (cols.length + 1) := Nat.mul_le_mul_right _ hi
      · simp [List.getElem?_eq_getElem hi2]
    · intro c hc
      obtain ⟨col, hcol, hc2⟩ := List.mem_flatMap.1 hc
      obtain ⟨j, hj⟩ := List.mem_iff_getElem?.1 hcol
      obtain ⟨hj2, hj3⟩ := List.getElem?_eq_some.1 hj
      obtain ⟨i, hi⟩ := List.mem_iff_getElem?.1 hc2
      have hcolj : (c0 :: cols).getD j .nil = col := by
        simp [hj]
      have hi2 : i < nr := by
        rw [← hcl j hj2, hcolj]
        exact (List.getElem?_eq_some.1 hi).1
      refine ⟨((asCharacterElts L ((c0 :: cols).getD j .nil))[i]?, i * (cols.length + 1) + j),
        List.mem_flatMap.2 ⟨j, ?_, ?_⟩, ?_⟩
      · rw [List.mem_range]; simpa using hj2
      · exact List.mem_map.2 ⟨i, List.mem_range.2 hi2, rfl⟩
      · simp only [hcolj]
        exact hi
    · intro q hq
      have hpos : 0 < cols.length + 1 := by omega
      refine List.mem_map.2 ⟨((asCharacterElts L ((c0 :: cols).getD (q % (cols.length + 1))
        .nil))[q / (cols.length + 1)]?, q), List.mem_flatMap.2 ⟨q % (cols.length + 1), ?_, ?_⟩, rfl⟩
      · exact List.mem_range.2 (Nat.mod_lt _ hpos)
      · refine List.mem_map.2 ⟨q / (cols.length + 1), List.mem_range.2 ?_, ?_⟩
        · exact (Nat.div_lt_iff_lt_mul hpos).2 hq
        · rw [Nat.div_add_mod' q (cols.length + 1)]
    · intro c hc hne
      obtain ⟨col, hcol, hc2⟩ := List.mem_flatMap.1 hc
      exact chars_encode L _ col (henc col hcol) c hc2 hne

theorem dispatch_frame {D : Type} (L : CRuntime) (r : SEXP) (function : plr_function D)
    (hf : isFrame r = true) :
    get_array_datum L r function = get_frame_array_datum L r function := by
  unfold get_array_datum
  simp [hf]

theorem dispatch_dims2 {D : Type} (L : CRuntime) (r : SEXP) (function : plr_function D)
    (a b : Int) (hf : isFrame r = false)
    (hd : getAttrib r R_DimSymbol = some (.ints [a, b])) :
    get_array_datum L r function = get_md_array_datum L r 2 function := by
  unfold get_array_datum
  simp only [hf, hd, attrLength]
  split_ifs <;> first | rfl | simp_all


theorem STRING_ELT_error (x : SEXP) (i : Nat) (e : PlrError)
    (h : STRING_ELT x i = .error e) : e = .memoryFault := by
  unfold STRING_ELT at h
  split at h
  · split at h
    · cases h
    · cases h; rfl
  · cases h; rfl

theorem VECTOR_ELT_error (x : SEXP) (i : Nat) (e : PlrError)
    (h : VECTOR_ELT x i = .error e) : e = .memoryFault := by
  unfold VECTOR_ELT at h
  split at h
  · split at h
    · cases h
    · cases h; rfl
  · cases h; rfl

theorem mapM_error {α β : Type} (P : PlrError → Prop) (f : α → Except PlrError β)
    (hf : ∀ a e, f a = .error e → P e) (l : List α) (e : PlrError)
    (h : l.mapM f = .error e) : P e := by
  induction l generalizing e with
  | nil => cases h
  | cons a l ih =>
    rw [List.mapM_cons] at h
    cases ha : f a with
    | error e2 =>
      rw [ha] at h
      cases h
      exact hf a e ha
    | ok b =>
      rw [ha] at h
      cases hl : l.mapM f with
      | error e3 =>
        rw [hl] at h
        cases h
        exact ih e hl
      | ok bs =>
        rw [hl] at h
        cases h

theorem BuildTupleFromCStrings_error {D : Type} (attrs : List (Attribute D))
    (values : List (Option String)) (e : PlrError)
    (h : BuildTupleFromCStrings attrs values = .error e) : IsBuilderError e := by
  induction attrs generalizing values with
  | nil => cases h
  | cons a attrs ih =>
    cases values with
    | nil =>
      cases h
      exact Or.inl rfl
    | cons v vs =>
      unfold BuildTupleFromCStrings at h
      cases v with
      | none =>
        simp only at h
        cases hr : BuildTupleFromCStrings attrs vs with
        | error e2 =>
          rw [hr] at h
          cases h
          exact ih vs hr
        | ok rest => rw [hr] at h; cases h
      | some s =>
        simp only at h
        cases hc : callInFunc a.attinfunc s a.attelem with
        | error e2 =>
          rw [hc] at h
          cases h
          exact Or.inr (callInFunc_error _ _ _ _ hc)
        | ok d =>
          rw [hc] at h
          simp only [Except.map] at h
          cases hr : BuildTupleFromCStrings attrs vs with
          | error e2 =>
            rw [hr] at h
            cases h
            exact ih vs hr
          | ok rest => rw [hr] at h; cases h

theorem storeRow_error {D : Type} (attinmeta : TupleDesc D) (pq : MemoryContext)
    (st : Tuplestorestate D × MemoryContext) (values : Except PlrError (List (Option String)))
    (hv : ∀ e, values = .error e → IsBuilderError e) (e : PlrError × MemoryContext)
    (h : storeRow attinmeta pq st values = .error e) : IsBuilderError e.1 ∧ e.2 = st.2 := by
  unfold storeRow at h
  cases values with
  | error e2 =>
    cases h
    exact ⟨hv e2 rfl, rfl⟩
  | ok vs =>
    simp only at h
    cases hb : BuildTupleFromCStrings attinmeta.attrs vs with
    | error e2 =>
      rw [hb] at h
      cases h
      exact ⟨BuildTupleFromCStrings_error _ _ _ hb, rfl⟩
    | ok tuple =>
      rw [hb] at h
      cases h

theorem storeRow_ctx {D : Type} (attinmeta : TupleDesc D) (pq : MemoryContext)
    (st st2 : Tuplestorestate D × MemoryContext)
    (values : Except PlrError (List (Option String)))
    (h : storeRow attinmeta pq st values = .ok st2) :
    st2.2 = st.2 ∧ st2.1.context = st.1.context
      ∧ st2.1.tuples.length = st.1.tuples.length + 1 := by
  unfold storeRow at h
  cases values with
  | error e2 => cases h
  | ok vs =>
    simp only at h
    cases hb : BuildTupleFromCStrings attinmeta.attrs vs with
    | error e2 => rw [hb] at h; cases h
    | ok tuple =>
      rw [hb] at h
      cases h
      simp [MemoryContextSwitchTo, tuplestore_puttuple]

/-- The row loop of a builder: a failure is a builder error raised in the
region current at the start of the loop. -/
theorem rows_fold_error {D : Type} (attinmeta : TupleDesc D) (pq : MemoryContext)
    (vals : Nat → Except PlrError (List (Option String)))
    (hv : ∀ i e, vals i = .error e → IsBuilderError e)
    (rows : List Nat) (st : Tuplestorestate D × MemoryContext) (e : PlrError × MemoryContext)
    (h : rows.foldlM (fun st i => storeRow attinmeta pq st (vals i)) st = .error e) :
    IsBuilderError e.1 ∧ e.2 = st.2 := by
  induction rows generalizing st with
  | nil => cases h
  | cons i rows ih =>
    rw [List.foldlM_cons] at h
    cases hs : storeRow attinmeta pq st (vals i) with
    | error e2 =>
      rw [hs] at h
      cases h
      exact storeRow_error attinmeta pq st (vals i) (hv i) e hs
    | ok st2 =>
      rw [hs] at h
      obtain ⟨h1, h2⟩ := ih st2 h
      exact ⟨h1, h2.trans (storeRow_ctx attinmeta pq st st2 (vals i) hs).1⟩

/-- The row loop of a builder: when every row builds, the loop succeeds in the
region it started in and adds one tuple per row. -/
theorem rows_fold_ok {D : Type} (attinmeta : TupleDesc D) (pq : MemoryContext)
    (vals : Nat → Except PlrError (List (Option String)))
    (rows : List Nat)
    (hv : ∀ i ∈ rows, ∃ vs t, vals i = .ok vs ∧ BuildTupleFromCStrings attinmeta.attrs vs = .ok t)
    (st : Tuplestorestate D × MemoryContext) :
    ∃ st2, rows.foldlM (fun st i => storeRow attinmeta pq st (vals i)) st = .ok st2
      ∧ st2.2 = st.2 ∧ st2.1.context = st.1.context
      ∧ st2.1.tuples.length = st.1.tuples.length + rows.length := by
  induction rows generalizing st with
  | nil => exact ⟨st, rfl, rfl, rfl, rfl⟩
  | cons i rows ih =>
    obtain ⟨vs, t, h1, h2⟩ := hv i (List.mem_cons_self _ _)
    have hs : ∃ st1, storeRow attinmeta pq st (vals i) = .ok st1 := by
      unfold storeRow
      rw [h1]
      simp only [h2]
      exact ⟨_, rfl⟩
    obtain ⟨st1, hs⟩ := hs
    obtain ⟨g1, g2, g3⟩ := storeRow_ctx attinmeta pq st st1 (vals i) hs
    obtain ⟨st2, k1, k2, k3, k4⟩ := ih (fun j hj => hv j (List.mem_cons_of_mem _ hj)) st1
    refine ⟨st2, ?_, k2.trans g1, k3.trans g2, ?_⟩
    · rw [List.foldlM_cons, hs]
      exact k1
    · rw [k4, g3, List.length_cons]
      omega

theorem prep_error (L : CRuntime) (rval : SEXP) (j : Nat) (e : PlrError)
    (h : get_frame_tuplestore_prep L rval j = .error e) : IsBuilderError e := by
  unfold get_frame_tuplestore_prep at h
  cases hv : VECTOR_ELT rval j with
  | error e2 =>
    rw [hv] at h
    cases h
    exact Or.inl (VECTOR_ELT_error _ _ _ hv)
  | ok dfcol =>
    rw [hv] at h
    simp only at h
    split_ifs at h
    all_goals first
      | cases h
      | (split at h <;> cases h)

theorem cell_error (result : List SEXP) (i j : Nat) (e : PlrError)
    (h : get_frame_tuplestore_cell result i j = .error e) : IsBuilderError e := by
  unfold get_frame_tuplestore_cell at h
  repeat' split at h
  all_goals first
    | (cases h; done)
    | (cases h; exact Or.inl rfl)
    | (cases h; exact Or.inl (STRING_ELT_error _ _ _ (by assumption)))

theorem get_frame_tuplestore_error {D : Type} (L : CRuntime) (rval : SEXP)
    (attinmeta : TupleDesc D) (pq : MemoryContext) (retset : Bool) (cur : MemoryContext)
    (e : PlrError × MemoryContext)
    (h : get_frame_tuplestore L rval attinmeta pq retset cur = .error e) :
    IsBuilderError e.1 ∧ e.2 = cur := by
  unfold get_frame_tuplestore at h
  simp only [MemoryContextSwitchTo] at h
  split at h
  · rename_i e2 he
    cases h
    refine ⟨?_, rfl⟩
    split_ifs at he
    exact Or.inl (VECTOR_ELT_error _ _ _ (map_error _ _ _ he))
  · split at h
    · rename_i e2 he
      cases h
      exact ⟨mapM_error IsBuilderError _ (fun j e3 h3 => prep_error L rval j e3 h3) _ _ he, rfl⟩
    · split at h
      · rename_i result _ _ e2 he
        cases h
        exact rows_fold_error attinmeta pq
          (fun i => (List.range (length rval)).mapM (get_frame_tuplestore_cell result i))
          (fun i e3 h3 => mapM_error IsBuilderError _
            (fun j e4 h4 => cell_error result i j e4 h4) _ _ h3) _ _ _ he
      · cases h

theorem get_matrix_tuplestore_error {D : Type} (L : CRuntime) (rval : SEXP)
    (attinmeta : TupleDesc D) (pq : MemoryContext) (retset : Bool) (cur : MemoryContext)
    (e : PlrError × MemoryContext)
    (h : get_matrix_tuplestore L rval attinmeta pq retset cur = .error e) :
    IsBuilderError e.1 ∧ e.2 = cur := by
  unfold get_matrix_tuplestore at h
  simp only [MemoryContextSwitchTo] at h
  split at h
  · rename_i e2 he
    cases h
    exact rows_fold_error attinmeta pq
      (fun i => (List.range (ncols rval)).mapM (fun j =>
        (STRING_ELT (AS_CHARACTER L rval) ((j * (if retset = true then nrows rval else 1)) + i)).map
          (fun c => some (CHAR c))))
      (fun i e3 h3 => mapM_error IsBuilderError _
        (fun j e4 h4 => Or.inl (STRING_ELT_error _ _ _ (map_error _ _ _ h4))) _ _ h3) _ _ _ he
  · cases h

theorem get_generic_tuplestore_error {D : Type} (L : CRuntime) (rval : SEXP)
    (attinmeta : TupleDesc D) (pq : MemoryContext) (retset : Bool) (cur : MemoryContext)
    (e : PlrError × MemoryContext)
    (h : get_generic_tuplestore L rval attinmeta pq retset cur = .error e) :
    IsBuilderError e.1 ∧ e.2 = cur := by
  unfold get_generic_tuplestore at h
  simp only [MemoryContextSwitchTo] at h
  split at h
  · rename_i e2 he
    cases h
    exact rows_fold_error attinmeta pq
      (fun i => (STRING_ELT (AS_CHARACTER L rval) i).map (fun c => [some (CHAR c)]))
      (fun i e3 h3 => Or.inl (STRING_ELT_error _ _ _ (map_error _ _ _ h3))) _ _ _ he
  · cases h

theorem builderError_ne_incompatible (e : PlrError) (h : IsBuilderError e) :
    e ≠ .incompatibleTuple := by
  rcases h with rfl | ⟨msg, rfl⟩ <;> simp

theorem mapM_range_ok {β : Type} (f : Nat → Except PlrError β) (g : Nat → β) (n : Nat)
    (h : ∀ j, j < n → f j = .ok (g j)) :
    (List.range n).mapM f = .ok ((List.range n).map g) := by
  induction n with
  | zero => rfl
  | succ n ih =>
    rw [List.range_succ, List.mapM_append, ih (fun j hj => h j (by omega))]
    simp only [List.mapM_cons, List.mapM_nil, h n (by omega), List.map_append, List.map_cons,
      List.map_nil]
    rfl

theorem head?_eq_getElem_zero {α : Type} (l : List α) (h : 0 < l.length) :
    l.head? = some l[0] := by
  cases l with
  | nil => simp at h
  | cons x xs => rfl

theorem length_vec (xs : List SEXP) (a : Pairlist) : length (.vec xs a) = xs.length := rfl

theorem doneStoring_eq {D : Type} (pq : MemoryContext) (st : Tuplestorestate D × MemoryContext) :
    doneStoring pq st = st := rfl

theorem frame_cell_ok (L : CRuntime) (cols : List SEXP) (nr i j : Nat)
    (hlen : ∀ c ∈ cols, length c = nr) (hi : i < nr) (hj : j < cols.length) :
    get_frame_tuplestore_cell (cols.map (AS_CHARACTER L)) i j
      = .ok (frameCellText (asCharacterElts L (cols.getD j .nil)) i) := by
  have hc : cols.getD j .nil = cols[j] := by simp [List.getElem?_eq_getElem hj]
  have hl : (asCharacterElts L cols[j]).length = nr := by
    rw [length_asCharacterElts, hlen _ (List.getElem_mem hj)]
  have h0 : 0 < (asCharacterElts L cols[j]).length := by omega
  have hi2 : i < (asCharacterElts L cols[j]).length := by omega
  unfold get_frame_tuplestore_cell frameCellText
  rw [hc]
  simp only [List.get?_eq_getElem?, List.getElem?_map, List.getElem?_eq_getElem hj, Option.map_some',
    AS_CHARACTER, isFactor, TYPEOF, STRING_ELT, List.getElem?_eq_getElem h0,
    List.getElem?_eq_getElem hi2]
  have hhead := head?_eq_getElem_zero (asCharacterElts L cols[j]) h0
  rw [hhead]
  by_cases hna : (asCharacterElts L cols[j])[0] = NA_STRING
  · simp [hna, NA_STRING]
  · have hna2 : ¬ (asCharacterElts L cols[j])[0] = none := hna
    simp [hna, hna2, NA_STRING, List.getElem?_eq_getElem hi2]

theorem build_frame_row {D : Type} (L : CRuntime) (attrs : List (Attribute D))
    (cols : List SEXP) (i : Nat)
    (hacc : List.Forall₂ (fun (att : Attribute D) col =>
      ∀ c ∈ asCharacterElts L col, ∃ d, att.attinfunc (CHAR c) att.attelem = .ok d) attrs cols)
    (hi : ∀ c ∈ cols, i < length c) :
    ∃ t, BuildTupleFromCStrings attrs
      (cols.map (fun col => frameCellText (asCharacterElts L col) i)) = .ok t := by
  induction hacc with
  | nil => exact ⟨[], rfl⟩
  | @cons att col attrs cols h1 _ ih =>
    obtain ⟨t, ht⟩ := ih (fun c hc => hi c (List.mem_cons_of_mem _ hc))
    have hic : i < (asCharacterElts L col).length := by
      rw [length_asCharacterElts]
      exact hi col (List.mem_cons_self _ _)
    rw [List.map_cons]
    unfold BuildTupleFromCStrings
    rw [ht]
    unfold frameCellText
    split_ifs
    · exact ⟨_, rfl⟩
    · have hmem : (asCharacterElts L col).getD i none ∈ asCharacterElts L col := by
        simp only [List.getD_eq_getElem?_getD, List.getElem?_eq_getElem hic, Option.getD_some]
        exact List.getElem_mem hic
      obtain ⟨d, hd⟩ := h1 _ hmem
      simp only [callInFunc, hd, Except.map]
      exact ⟨_, rfl⟩

theorem get_frame_tuplestore_ok {D : Type} (L : CRuntime) (c0 : SEXP) (cols : List SEXP)
    (a : Pairlist) (attinmeta : TupleDesc D) (pq cur : MemoryContext)
    (hfac : ∀ c ∈ c0 :: cols, isFactor c = false)
    (hlen : ∀ c ∈ c0 :: cols, length c = length c0)
    (hacc : List.Forall₂ (fun (att : Attribute D) col =>
      ∀ c ∈ asCharacterElts L col, ∃ d, att.attinfunc (CHAR c) att.attelem = .ok d)
      attinmeta.attrs (c0 :: cols)) :
    ∃ ts, get_frame_tuplestore L (.vec (c0 :: cols) a) attinmeta pq true cur = .ok (ts, cur)
      ∧ ts.tuples.length = length c0 ∧ ts.context = pq := by
  have hprep : (List.range (c0 :: cols).length).mapM
      (get_frame_tuplestore_prep L (.vec (c0 :: cols) a))
      = .ok ((c0 :: cols).map (AS_CHARACTER L)) := by
    rw [mapM_range_ok _ (fun j => AS_CHARACTER L ((c0 :: cols).getD j .nil)) _ (fun j hj => by
      have hc : (c0 :: cols).getD j .nil = (c0 :: cols)[j] := by
        simp [List.getElem?_eq_getElem hj]
      unfold get_frame_tuplestore_prep
      simp only [VECTOR_ELT, List.get?_eq_getElem?, List.getElem?_eq_getElem hj,
        hfac _ (List.getElem_mem hj), hc]
      rfl)]
    rw [range_map_getD (AS_CHARACTER L) (c0 :: cols) .nil]
  have hvals : ∀ i, i < length c0 →
      (List.range (c0 :: cols).length).mapM
        (get_frame_tuplestore_cell ((c0 :: cols).map (AS_CHARACTER L)) i)
      = .ok ((c0 :: cols).map (fun col => frameCellText (asCharacterElts L col) i)) := by
    intro i hi
    rw [mapM_range_ok _
      (fun j => frameCellText (asCharacterElts L ((c0 :: cols).getD j .nil)) i) _
      (fun j hj => frame_cell_ok L (c0 :: cols) (length c0) i j hlen hi hj)]
    rw [range_map_getD (fun col => frameCellText (asCharacterElts L col) i) (c0 :: cols) .nil]
  obtain ⟨st2, k1, k2, k3, k4⟩ := rows_fold_ok attinmeta pq
    (fun i => (List.range (c0 :: cols).length).mapM
      (get_frame_tuplestore_cell ((c0 :: cols).map (AS_CHARACTER L)) i))
    (List.range (length c0))
    (fun i hi => by
      rw [List.mem_range] at hi
      obtain ⟨t, ht⟩ := build_frame_row L attinmeta.attrs (c0 :: cols) i hacc
        (fun c hc => by rw [hlen c hc]; exact hi)
      exact ⟨_, t, hvals i hi, ht⟩)
    (TUPLESTORE_BEGIN_HEAP pq, cur)
  refine ⟨st2.1, ?_, by simpa [TUPLESTORE_BEGIN_HEAP] using k4, by
    simpa [TUPLESTORE_BEGIN_HEAP] using k3⟩
  unfold get_frame_tuplestore
  simp only [MemoryContextSwitchTo, if_true, VECTOR_ELT, List.get?_eq_getElem?,
    List.getElem?_cons_zero, Except.map, length_vec, hprep, k1, doneStoring_eq]
  simp only at k2
  rw [← k2]


/-! ## The claims -/

/-- C1: array round trip. For an array of one, two or three dimensions with at
least one element, none of them null, whose payload holds as many elements as
its extents multiply to, decoding with `pg_array_get_r` succeeds and
re-encoding the vector with `get_array_datum` yields an array with the same
extents whose payload at every position is the encoding of the decoding of the
input element at that position (`g d`); when the element codec undoes itself
(`g d = d`) the payload is the input payload. -/
theorem array_round_trip {D : Type} (L : CRuntime) (v : ArrayType D) (out_func : OutFunc D)
    (function : plr_function D) (nr nc nz : Nat) (g : D → D)
    (hext : HasExtents v.dims nr nc nz) (hpos : nr * nc * nz ≠ 0)
    (hlen : v.data.length = nr * nc * nz)
    (htext : ∀ d ∈ v.data, ∃ s, out_func d = some s)
    (hcodec : ∀ d ∈ v.data,
      elementRoundTrip L v.elemtype out_func function.result_elem_in_func d = .ok (g d)) :
    ∃ r, pg_array_get_r L v out_func = .ok r
      ∧ get_array_datum L r function
          = .ok ⟨function.result_elem, v.dims, List.replicate v.dims.length 1, v.data.map g⟩
      ∧ ((∀ d ∈ v.data, g d = d) → get_array_datum L r function
          = .ok ⟨function.result_elem, v.dims, List.replicate v.dims.length 1, v.data⟩) := by
  obtain ⟨r0, h1, h2, h3, h4, h5⟩ := pg_array_get_r_decode L v out_func nr nc nz hext hpos hlen htext
  have hne : v.data ≠ [] := by
    intro h
    rw [h] at hlen
    exact hpos hlen.symm
  obtain ⟨d0, tl, hd0⟩ := List.exists_cons_of_ne_nil hne
  have hdata : (List.range (nr * nc * nz)).map (fun q => g (v.data.getD q d0)) = v.data.map g := by
    rw [← hlen]
    exact range_map_getD g v.data d0
  have helt : ∀ q t, (triples nr nc nz)[q]? = some t →
      ∃ e, (asCharacterElts L r0)[arrayIdx nr nc t.1 t.2.1 t.2.2]? = some e
        ∧ encodeElt function.result_elem_in_func e = .ok (g (v.data.getD q d0)) := by
    intro q t hq
    have hql : q < v.data.length := by
      rw [hlen, ← length_triples]
      exact (List.getElem?_eq_some.1 hq).1
    exact round_trip_elt L v out_func _ g d0 _ r0 _ q (asCharacterElts_eq L r0) hcodec hql
      (h5 q t hq)
  have hid : (∀ d ∈ v.data, g d = d) → v.data.map g = v.data := fun hg => by
    conv_rhs => rw [← List.map_id v.data]
    exact List.map_congr_left hg
  suffices hmain : get_array_datum L
      (if 1 < v.dims.length then
        setAttrib r0 R_DimSymbol (.ints (v.dims.map Int.ofNat)) else r0) function
      = .ok ⟨function.result_elem, v.dims, List.replicate v.dims.length 1, v.data.map g⟩ from
    ⟨_, h1, hmain, fun hg => by rw [hmain, hid hg]⟩
  rcases hext with ⟨hd, rfl, rfl⟩ | ⟨hd, rfl⟩ | hd
  · obtain ⟨f1, _, f3⟩ := fresh_plain r0 h3
    have hl : length r0 = nr := by rw [length_eq_elts, h4]; simp
    rw [if_neg (by rw [hd]; simp), dispatch_generic L r0 function f1 f3,
      generic_encode L r0 function (fun q => g (v.data.getD q d0))]
    · rw [hl, hd]
      simp only [Nat.mul_one] at hdata
      rw [hdata]
      rfl
    · intro q hq
      rw [hl] at hq
      have hq2 : (triples nr 1 1)[q]? = some (q, 0, 0) := by
        have := @triples_get nr 1 1 q 0 0 hq
          (by decide) (by decide)
        simpa using this
      have := helt q (q, 0, 0) hq2
      simpa [arrayIdx] using this
  · obtain ⟨g1, g2, g3⟩ := setAttrib_dim_fresh r0 v.elemtype (v.dims.map Int.ofNat) h2 h3
    have hds : v.dims.map Int.ofNat = [Int.ofNat nr, Int.ofNat nc] := by rw [hd]; rfl
    rw [if_pos (by rw [hd]; simp),
      dispatch_md2 L _ function _ _ g2 g3 (g1.trans (by rw [hds])),
      md_encode L _ function _ 2 nr nc 1 (fun q => g (v.data.getD q d0)) g1
        (Or.inl ⟨_, _, hds, rfl, by simp, by simp, rfl⟩)
        (by rw [asCharacterElts_setAttrib]; exact helt),
      hdata, map_toNat_ofNat, hd]
    rfl
  · obtain ⟨g1, g2, g3⟩ := setAttrib_dim_fresh r0 v.elemtype (v.dims.map Int.ofNat) h2 h3
    have hds : v.dims.map Int.ofNat = [Int.ofNat nr, Int.ofNat nc, Int.ofNat nz] := by
      rw [hd]; rfl
    rw [if_pos (by rw [hd]; simp),
      dispatch_md3 L _ function _ _ _ g2 (g1.trans (by rw [hds])),
      md_encode L _ function _ 3 nr nc nz (fun q => g (v.data.getD q d0)) g1
        (Or.inr ⟨_, _, _, hds, rfl, by simp, by simp, by simp⟩)
        (by rw [asCharacterElts_setAttrib]; exact helt),
      hdata, map_toNat_ofNat, hd]
    rfl

/-- C1 at the 2 x 2 smallint array [[1,2],[3,4]]: decoding and re-encoding
gives back extents (2,2) and payload 1,2,3,4. -/
theorem array_round_trip_witness :
    ∃ r, pg_array_get_r sampleRuntime exampleMatrix intOut = .ok r
      ∧ get_array_datum sampleRuntime r exampleFunction
          = .ok ⟨INT2OID, [2, 2], [1, 1], [1, 2, 3, 4]⟩ := by
  obtain ⟨r, h1, _, h3⟩ := array_round_trip sampleRuntime exampleMatrix intOut exampleFunction
    2 2 1 id (Or.inr (Or.inl ⟨rfl, rfl⟩)) (by decide) rfl
    (fun d _ => ⟨toString d, rfl⟩)
    (fun d hd => by
      simp only [exampleMatrix, List.mem_cons, List.mem_singleton, List.not_mem_nil,
        or_false] at hd
      rcases hd with rfl | rfl | rfl | rfl <;> rfl)
  exact ⟨r, h1, h3 (fun _ _ => rfl)⟩

/-- C2: decode layout. For a non-empty array of one, two or three dimensions
with loop extents (nr, nc, nz), a payload of nr * nc * nz elements and no null
element, `pg_array_get_r` returns a
vector of nr * nc * nz elements in which the element stored at payload position
(i * nc + j) * nz + k sits at offset k * nr * nc + j * nr + i, and the vector
carries a dim attribute (equal to the extents) exactly when the array has more
than one dimension. The 2 x 2 smallint array [[1,2],[3,4]] decodes to the
elements 1,3,2,4 with dim (2,2), and re-encoding that vector reproduces the
array. -/
theorem decode_layout {D : Type} (L : CRuntime) (v : ArrayType D) (out_func : OutFunc D)
    (nr nc nz : Nat) (hext : HasExtents v.dims nr nc nz) (hpos : nr * nc * nz ≠ 0)
    (hlen : v.data.length = nr * nc * nz)
    (htext : ∀ d ∈ v.data, ∃ s, out_func d = some s) :
    (∃ r, pg_array_get_r L v out_func = .ok r
      ∧ length r = nr * nc * nz
      ∧ (∀ i j k, i < nr → j < nc → k < nz →
          (elts r)[k * nr * nc + j * nr + i]?
            = some (decodeElt L v.elemtype (textAt v out_func ((i * nc + j) * nz + k))))
      ∧ getAttrib r R_DimSymbol
          = (if 1 < ARR_NDIM v then some (.ints (v.dims.map Int.ofNat)) else none))
    ∧ pg_array_get_r sampleRuntime exampleMatrix intOut
        = .ok (.int [1, 3, 2, 4] [(R_DimSymbol, .ints [2, 2])])
    ∧ get_array_datum sampleRuntime (.int [1, 3, 2, 4] [(R_DimSymbol, .ints [2, 2])])
        exampleFunction = .ok ⟨INT2OID, [2, 2], [1, 1], [1, 2, 3, 4]⟩ := by
  refine ⟨?_, rfl, rfl⟩
  obtain ⟨r0, h1, h2, h3, h4, h5⟩ :=
    pg_array_get_r_decode L v out_func nr nc nz hext hpos hlen htext
  refine ⟨_, h1, ?_, ?_, ?_⟩
  · rw [length_eq_elts]
    split_ifs
    · rw [elts_setAttrib, h4]
    · exact h4
  · intro i j k hi hj hk
    have := h5 _ _ (triples_get hi hj hk)
    simp only [arrayIdx] at this
    split_ifs
    · rw [elts_setAttrib]; exact this
    · exact this
  · unfold ARR_NDIM
    split_ifs
    · exact (setAttrib_dim_fresh r0 v.elemtype _ h2 h3).1
    · exact (fresh_plain r0 h3).2.2

/-- C2 at the 2 x 2 smallint array [[1,2],[3,4]]. -/
theorem decode_layout_witness :
    ∃ r, pg_array_get_r sampleRuntime exampleMatrix intOut = .ok r
      ∧ length r = 4
      ∧ (elts r)[0 * 2 * 2 + 1 * 2 + 0]?
          = some (decodeElt sampleRuntime INT2OID (textAt exampleMatrix intOut 1))
      ∧ getAttrib r R_DimSymbol = some (.ints [2, 2]) := by
  obtain ⟨⟨r, h1, h2, h3, h4⟩, _⟩ := decode_layout sampleRuntime exampleMatrix intOut 2 2 1
    (Or.inr (Or.inl ⟨rfl, rfl⟩)) (by decide) rfl (fun d _ => ⟨toString d, rfl⟩)
  exact ⟨r, h1, h2, h3 0 1 0 (by decide) (by decide) (by decide), h4⟩

/-- C3, counterexample: an array with four dimensions one of whose extents is
zero is not refused; it decodes to the single missing character element. -/
theorem four_dims_empty_accepted :
    ARR_NDIM (⟨INT4OID, [2, 0, 3, 1], [1, 1, 1, 1], []⟩ : ArrayType Int) = 4
      ∧ pg_array_get_r sampleRuntime (⟨INT4OID, [2, 0, 3, 1], [1, 1, 1, 1], []⟩ : ArrayType Int)
          intOut = .ok (.str [NA_STRING] []) :=
  ⟨rfl, rfl⟩

/-- C3, amended: an array with four or more dimensions and at least one element
is refused with the unsupported-dimensionality error, and no value is returned;
an array with one, two or three dimensions never raises that error. -/
theorem dimensionality_bound {D : Type} (L : CRuntime) (v : ArrayType D) (out_func : OutFunc D) :
    (4 ≤ ARR_NDIM v → ArrayGetNItems (ARR_NDIM v) v.dims ≠ 0 →
        pg_array_get_r L v out_func = .error .argDimsNotSupported)
    ∧ (1 ≤ ARR_NDIM v → ARR_NDIM v ≤ 3 →
        pg_array_get_r L v out_func ≠ .error .argDimsNotSupported) := by
  obtain ⟨et, dims, lb, data⟩ := v
  constructor
  · intro h4 hn
    unfold pg_array_get_r
    simp only [ARR_NDIM] at h4 hn ⊢
    rw [if_neg hn]
    match dims, h4 with
    | _ :: _ :: _ :: _ :: _, _ => rfl
  · intro h1 h3 herr
    unfold pg_array_get_r at herr
    simp only [ARR_NDIM] at h1 h3 herr
    by_cases hn : ArrayGetNItems dims.length dims = 0
    · rw [if_pos hn] at herr
      cases herr
    · rw [if_neg hn] at herr
      match dims, h1, h3 with
      | [d0], _, _ | [d0, d1], _, _ | [d0, d1, d2], _, _ =>
        simp only at herr
        split at herr
        · rename_i e he
          cases herr
          exact absurd (pg_array_get_r_loop_error _ _ _ _ _ _ _ _ he) (by decide)
        · cases herr

/-- C3 amended, at a 2 x 1 x 3 x 1 array of six elements. -/
theorem dimensionality_bound_witness :
    pg_array_get_r sampleRuntime
      (⟨INT4OID, [2, 1, 3, 1], [1, 1, 1, 1], [1, 2, 3, 4, 5, 6]⟩ : ArrayType Int) intOut
      = .error .argDimsNotSupported :=
  (dimensionality_bound sampleRuntime
    (⟨INT4OID, [2, 1, 3, 1], [1, 1, 1, 1], [1, 2, 3, 4, 5, 6]⟩ : ArrayType Int) intOut).1
    (by decide) (by decide)

/-- C4: empty array convention. An array whose element count is zero (no
dimensions, or a product of extents equal to zero), of any element type, decodes
to a character vector of length exactly one whose element is the missing
marker, without a dim attribute. -/
theorem empty_array_convention {D : Type} (L : CRuntime) (v : ArrayType D) (out_func : OutFunc D)
    (h : v.dims.prod = 0 ∨ ArrayGetNItems (ARR_NDIM v) v.dims = 0) :
    pg_array_get_r L v out_func = .ok (.str [NA_STRING] [])
      ∧ ∃ r, pg_array_get_r L v out_func = .ok r ∧ length r = 1
          ∧ (elts r).map eltIsNA = [true] ∧ getAttrib r R_DimSymbol = none := by
  have hn : ArrayGetNItems (ARR_NDIM v) v.dims = 0 := by
    rcases h with h | h
    · unfold ArrayGetNItems
      split_ifs
      · rfl
      · exact h
    · exact h
  have hr : pg_array_get_r L v out_func = .ok (.str [NA_STRING] []) := by
    unfold pg_array_get_r
    simp only [hn, if_true]
    rfl
  exact ⟨hr, _, hr, rfl, rfl, rfl⟩

/-- C4 at the empty array without dimensions and at a 2 x 0 array. -/
theorem empty_array_convention_witness :
    pg_array_get_r sampleRuntime (⟨INT4OID, [], [], []⟩ : ArrayType Int) intOut
        = .ok (.str [NA_STRING] [])
      ∧ pg_array_get_r sampleRuntime (⟨INT4OID, [2, 0], [1, 1], []⟩ : ArrayType Int) intOut
        = .ok (.str [NA_STRING] []) :=
  ⟨(empty_array_convention sampleRuntime (⟨INT4OID, [], [], []⟩ : ArrayType Int) intOut
      (Or.inr rfl)).1,
   (empty_array_convention sampleRuntime (⟨INT4OID, [2, 0], [1, 1], []⟩ : ArrayType Int) intOut
      (Or.inl rfl)).1⟩

/-- C5, counterexample: the vector ("x", NA) holds a missing element, yet its
conversion to an int4 array fails with the error of the input function, which
refuses "x" before the missing element is reached. -/
theorem unencodable_before_missing :
    hasMissing (.str [some "x", none] [])
      ∧ get_array_datum sampleRuntime (.str [some "x", none] []) digitsFunction
        = .error (.inputFunction "invalid input syntax for integer") :=
  ⟨⟨.str none, by simp [elts], rfl⟩, rfl⟩

/-- C5, amended: missing-element failure. For a result converted by
`get_array_datum` - a data frame whose columns carry no attribute and have
equal length, a vector with a dim attribute of two or three extents whose
product is its length, or a vector without a dim attribute - in which every
element that is not missing is accepted by the element input function, the
conversion fails with the missing-element error if and only if some element is
the missing marker, and it succeeds when no element is missing. -/
theorem missing_element_failure {D : Type} (L : CRuntime) (function : plr_function D) :
    (∀ cols a, isFrame (.vec cols a) = true →
      (∀ c ∈ cols, ATTRIB c = []) → (∀ c ∈ cols, ∀ c2 ∈ cols, length c = length c2) →
      (∀ c ∈ cols, eltsEncode L function.result_elem_in_func c) →
      (get_array_datum L (.vec cols a) function = .error .nullArrayElement
          ↔ frameHasMissing cols)
      ∧ (¬ frameHasMissing cols → ∃ arr, get_array_datum L (.vec cols a) function = .ok arr))
    ∧ (∀ rval ds, isFrame rval = false → getAttrib rval R_DimSymbol = some (.ints ds) →
      (ds.length = 2 ∨ ds.length = 3) → (ds.map Int.toNat).prod = length rval →
      eltsEncode L function.result_elem_in_func rval →
      (get_array_datum L rval function = .error .nullArrayElement ↔ hasMissing rval)
      ∧ (¬ hasMissing rval → ∃ arr, get_array_datum L rval function = .ok arr))
    ∧ (∀ rval, isFrame rval = false → getAttrib rval R_DimSymbol = none →
      eltsEncode L function.result_elem_in_func rval →
      (get_array_datum L rval function = .error .nullArrayElement ↔ hasMissing rval)
      ∧ (¬ hasMissing rval → ∃ arr, get_array_datum L rval function = .ok arr)) := by
  refine ⟨?_, ?_, ?_⟩
  · intro cols a hf hattr hlen henc
    rw [dispatch_frame L _ function hf]
    cases cols with
    | nil => exact frame_missing L function [] a 0 hattr (fun c hc => by cases hc) henc
    | cons c0 cols =>
      exact frame_missing L function (c0 :: cols) a (length c0) hattr
        (fun c hc => hlen c hc c0 (List.mem_cons_self _ _)) henc
  · intro rval ds hf hd hlen hprod henc
    rcases hlen with h2 | h3
    · match ds, h2 with
      | [a, b], _ =>
        rw [dispatch_dims2 L rval function a b hf hd]
        exact md_missing L rval function [a, b] 2 a.toNat b.toNat 1 hd
          (Or.inl ⟨a, b, rfl, rfl, rfl, rfl, rfl⟩) (by simpa [Nat.mul_assoc] using hprod) henc
    · match ds, h3 with
      | [a, b, c], _ =>
        rw [dispatch_md3 L rval function a b c hf hd]
        exact md_missing L rval function [a, b, c] 3 a.toNat b.toNat c.toNat hd
          (Or.inr ⟨a, b, c, rfl, rfl, rfl, rfl, rfl⟩) (by simpa [Nat.mul_assoc] using hprod) henc
  · intro rval hf hd henc
    rw [dispatch_generic L rval function hf hd]
    exact generic_missing L rval function henc

/-- C5 amended, on text results: the vector ("a", NA) is refused with the
missing-element error, and the one-column frame holding ("a", "b") converts. -/
theorem missing_element_failure_witness :
    get_array_datum sampleRuntime (.str [some "a", none] []) textFunction
        = .error .nullArrayElement
      ∧ ∃ arr, get_array_datum sampleRuntime
          (.vec [.str [some "a", some "b"] []] [(R_ClassSymbol, .strs [some "data.frame"])])
          textFunction = .ok arr := by
  have henc : ∀ s : SEXP, eltsEncode sampleRuntime textFunction.result_elem_in_func s :=
    fun s e _ _ => ⟨_, rfl⟩
  obtain ⟨h1, _, h3⟩ := missing_element_failure sampleRuntime textFunction
  refine ⟨((h3 (.str [some "a", none] []) rfl rfl (henc _)).1).2
      ⟨.str none, by simp [elts], rfl⟩, ?_⟩
  refine (h1 [.str [some "a", some "b"] []] [(R_ClassSymbol, .strs [some "data.frame"])]
    (by decide) (fun c hc => by
      rw [List.mem_singleton] at hc; subst hc; rfl)
    (fun c hc c2 hc2 => by
      rw [List.mem_singleton] at hc hc2; subst hc; subst hc2; rfl)
    (fun c _ => henc c)).2 ?_
  rintro ⟨c, hc, e, he, hna⟩
  rw [List.mem_singleton] at hc
  subst hc
  simp only [elts, List.map_cons, List.map_nil, List.mem_cons, List.mem_singleton,
    List.not_mem_nil, or_false] at he
  rcases he with rfl | rfl <;> simp [eltIsNA] at hna

theorem get_tuplestore_eq {D : Type} (L : CRuntime) (rval : SEXP) (w : Backend D)
    (rsinfo : ReturnSetInfo D) (hrs : w.fcinfo.resultinfo = some rsinfo)
    (hmat : Nat.land rsinfo.allowedModes SFRM_Materialize ≠ 0) :
    get_tuplestore L rval w
      = (if producedColumns rval ≠ rsinfo.expectedDesc.natts then
          (.error .incompatibleTuple,
            { w with CurrentMemoryContext := rsinfo.per_query_memory })
        else
          match (if isFrame rval then
              get_frame_tuplestore L rval rsinfo.expectedDesc rsinfo.per_query_memory
                w.fcinfo.fn_retset rsinfo.per_query_memory
            else if isMatrix rval then
              get_matrix_tuplestore L rval rsinfo.expectedDesc rsinfo.per_query_memory
                w.fcinfo.fn_retset rsinfo.per_query_memory
            else
              get_generic_tuplestore L rval rsinfo.expectedDesc rsinfo.per_query_memory
                w.fcinfo.fn_retset rsinfo.per_query_memory) with
          | .error (e, cur) =>
            (.error e,
              { w with
                fcinfo := { w.fcinfo with
                  resultinfo := some { rsinfo with returnMode := SFRM_Materialize } }
                CurrentMemoryContext := cur })
          | .ok (tupstore, _) =>
            (.ok (.zero, true),
              { w with
                fcinfo := { w.fcinfo with
                  resultinfo := some { rsinfo with
                    returnMode := SFRM_Materialize
                    setResult := some tupstore
                    setDesc := some rsinfo.expectedDesc } }
                CurrentMemoryContext := w.CurrentMemoryContext })) := by
  unfold get_tuplestore producedColumns
  simp only [hrs, MemoryContextSwitchTo]
  rw [if_neg hmat]

theorem builder_dispatch_error {D : Type} (L : CRuntime) (rval : SEXP) (desc : TupleDesc D)
    (pq : MemoryContext) (retset : Bool) (cur : MemoryContext) (e : PlrError × MemoryContext)
    (h : (if isFrame rval then get_frame_tuplestore L rval desc pq retset cur
          else if isMatrix rval then get_matrix_tuplestore L rval desc pq retset cur
          else get_generic_tuplestore L rval desc pq retset cur) = .error e) :
    IsBuilderError e.1 ∧ e.2 = cur := by
  split_ifs at h
  · exact get_frame_tuplestore_error L rval desc pq retset cur e h
  · exact get_matrix_tuplestore_error L rval desc pq retset cur e h
  · exact get_generic_tuplestore_error L rval desc pq retset cur e h

/-- C6: row-set shape check. On the row-set path with materialization allowed,
`get_tuplestore` fails with the shape-mismatch error if and only if the produced
column count (frame columns for a frame, column extent for a matrix, 1
otherwise) differs from the number of expected columns. For a frame with at
least one column whose columns are not factors, have the length of the leading
column and hold only texts their attribute input functions accept, a
set-returning call against as many expected columns succeeds and materializes
exactly as many rows as the leading column is long. -/
theorem row_set_shape_check {D : Type} (L : CRuntime) (rval : SEXP) (w : Backend D)
    (rsinfo : ReturnSetInfo D) (hrs : w.fcinfo.resultinfo = some rsinfo)
    (hmat : Nat.land rsinfo.allowedModes SFRM_Materialize ≠ 0) :
    ((get_tuplestore L rval w).1 = .error .incompatibleTuple
        ↔ producedColumns rval ≠ rsinfo.expectedDesc.natts)
    ∧ (∀ c0 cols a, rval = .vec (c0 :: cols) a → isFrame rval = true →
        w.fcinfo.fn_retset = true →
        (∀ c ∈ c0 :: cols, isFactor c = false) →
        (∀ c ∈ c0 :: cols, length c = length c0) →
        List.Forall₂ (fun (att : Attribute D) col =>
          ∀ c ∈ asCharacterElts L col, ∃ d, att.attinfunc (CHAR c) att.attelem = .ok d)
          rsinfo.expectedDesc.attrs (c0 :: cols) →
        ∃ ts, (get_tuplestore L rval w).1 = .ok (.zero, true)
          ∧ (get_tuplestore L rval w).2.fcinfo.resultinfo.bind (fun r => r.setResult) = some ts
          ∧ ts.tuples.length = length c0) := by
  rw [get_tuplestore_eq L rval w rsinfo hrs hmat]
  constructor
  · constructor
    · intro h
      by_contra hc
      rw [if_neg (not_not.mpr hc)] at h
      split at h
      · rename_i e cur he
        have := (builder_dispatch_error L rval _ _ _ _ _ he).1
        simp only at h
        cases h
        exact builderError_ne_incompatible _ this rfl
      · cases h
    · intro h
      rw [if_pos h]
  · intro c0 cols a hr hf hret hfac hlen hacc
    obtain ⟨ts, h1, h2, _⟩ := get_frame_tuplestore_ok L c0 cols a rsinfo.expectedDesc
      rsinfo.per_query_memory rsinfo.per_query_memory hfac hlen hacc
    have hnc : producedColumns rval = rsinfo.expectedDesc.natts := by
      unfold producedColumns TupleDesc.natts
      rw [if_pos hf, hr, length_vec, hacc.length_eq]
    rw [if_neg (by simpa using hnc), if_pos hf, hret, hr, h1]
    exact ⟨ts, rfl, rfl, h2⟩

/-- C6 on a frame of three text columns and two rows: against two expected
columns the call fails with the shape-mismatch error; against three expected
columns a set-returning call succeeds and materializes two rows. -/
theorem row_set_shape_check_witness :
    (get_tuplestore sampleRuntime exampleFrame
        (exampleBackend true (some (exampleRsinfo ⟨[textAttr "x", textAttr "y"]⟩)))).1
      = .error .incompatibleTuple
    ∧ ∃ ts, (get_tuplestore sampleRuntime exampleFrame
        (exampleBackend true
          (some (exampleRsinfo ⟨[textAttr "x", textAttr "y", textAttr "z"]⟩)))).1
          = .ok (.zero, true)
      ∧ (get_tuplestore sampleRuntime exampleFrame
        (exampleBackend true
          (some (exampleRsinfo ⟨[textAttr "x", textAttr "y", textAttr "z"]⟩)))).2.fcinfo.resultinfo.bind
            (fun r => r.setResult) = some ts
      ∧ ts.tuples.length = 2 := by
  refine ⟨((row_set_shape_check sampleRuntime exampleFrame
      (exampleBackend true (some (exampleRsinfo ⟨[textAttr "x", textAttr "y"]⟩)))
      (exampleRsinfo ⟨[textAttr "x", textAttr "y"]⟩) rfl (by decide)).1).2 (by decide), ?_⟩
  exact (row_set_shape_check sampleRuntime exampleFrame
      (exampleBackend true (some (exampleRsinfo ⟨[textAttr "x", textAttr "y", textAttr "z"]⟩)))
      (exampleRsinfo ⟨[textAttr "x", textAttr "y", textAttr "z"]⟩) rfl (by decide)).2
    _ _ _ rfl (by decide) rfl
    (fun c hc => by
      simp only [List.mem_cons, List.mem_singleton, List.not_mem_nil, or_false] at hc
      rcases hc with rfl | rfl | rfl <;> rfl)
    (fun c hc => by
      simp only [List.mem_cons, List.mem_singleton, List.not_mem_nil, or_false] at hc
      rcases hc with rfl | rfl | rfl <;> rfl)
    (List.Forall₂.cons (fun c _ => ⟨_, rfl⟩)
      (List.Forall₂.cons (fun c _ => ⟨_, rfl⟩)
        (List.Forall₂.cons (fun c _ => ⟨_, rfl⟩) List.Forall₂.nil)))

theorem get_tuplestore_refused {D : Type} (L : CRuntime) (rval : SEXP) (w : Backend D)
    (h : w.fcinfo.resultinfo = none
      ∨ ∃ rs, w.fcinfo.resultinfo = some rs ∧ Nat.land rs.allowedModes SFRM_Materialize = 0) :
    get_tuplestore L rval w = (.error .materializeNotAllowed, w) := by
  unfold get_tuplestore
  rcases h with h | ⟨rs, h1, h2⟩
  · simp only [h]
  · simp only [h1, h2, if_true]

theorem get_tuplestore_entered {D : Type} (L : CRuntime) (rval : SEXP) (w : Backend D) :
    (get_tuplestore L rval w).2.entered = w.entered := by
  cases hrs : w.fcinfo.resultinfo with
  | none => rw [get_tuplestore_refused L rval w (Or.inl hrs)]
  | some rs =>
    by_cases hmat : Nat.land rs.allowedModes SFRM_Materialize = 0
    · rw [get_tuplestore_refused L rval w (Or.inr ⟨rs, hrs, hmat⟩)]
    · rw [get_tuplestore_eq L rval w rs hrs hmat]
      split_ifs
      all_goals first
        | rfl
        | (split <;> rfl)

theorem get_scalar_datum_missing {D : Type} (L : CRuntime) (rval : SEXP) (e : RElt)
    (rest : List RElt) (in_func : InFunc D) (elem : Oid) (isnull : Bool)
    (he : elts rval = e :: rest) (hna : eltIsNA e = true) :
    get_scalar_datum L rval in_func elem isnull = .ok ⟨none, true⟩ := by
  have hc : asCharacterElts L rval = none :: rest.map (eltAsChar L) := by
    rw [asCharacterElts_eq, he, List.map_cons, (eltAsChar_eq_none L e).2 hna]
  unfold get_scalar_datum
  simp only [AS_CHARACTER, STRING_ELT, hc, List.get?_eq_getElem?, List.getElem?_cons_zero]
  rfl

/-- C7: null preservation for scalars. For every type, `pg_scalar_get_r` on a
scalar whose output function yields no text returns a vector of length one
holding the missing marker; and `get_scalar_datum` on a value whose first
element is the missing marker reports null (null flag set, zero datum) whatever
the input function is, so without a result of the input function. -/
theorem null_preservation {D : Type} (L : CRuntime) :
    (∀ (d : D) (typid : Oid) (out_func : OutFunc D), out_func d = none →
      pg_scalar_get_r L d typid out_func = .ok (.str [NA_STRING] [])
      ∧ ∃ r, pg_scalar_get_r L d typid out_func = .ok r ∧ length r = 1
          ∧ (elts r).map eltIsNA = [true])
    ∧ (∀ (rval : SEXP) (e : RElt) (rest : List RElt) (in_func : InFunc D) (elem : Oid)
        (isnull : Bool), elts rval = e :: rest → eltIsNA e = true →
      get_scalar_datum L rval in_func elem isnull = .ok ⟨none, true⟩) := by
  constructor
  · intro d typid out_func h
    have hr : pg_scalar_get_r L d typid out_func = .ok (.str [NA_STRING] []) := by
      unfold pg_scalar_get_r
      rw [h]
      rfl
    exact ⟨hr, _, hr, rfl, rfl⟩
  · intro rval e rest in_func elem isnull he hna
    exact get_scalar_datum_missing L rval e rest in_func elem isnull he hna

/-- C7 at a null smallint scalar and at the integer vector holding NA_INTEGER,
with an input function that refuses every text. -/
theorem null_preservation_witness :
    pg_scalar_get_r sampleRuntime (0 : Int) INT2OID (fun _ => none) = .ok (.str [NA_STRING] [])
      ∧ get_scalar_datum sampleRuntime (.int [NA_INTEGER] [])
          (fun _ _ => (.error "refused" : Except String Int)) 0 false = .ok ⟨none, true⟩ :=
  ⟨((null_preservation sampleRuntime).1 (0 : Int) INT2OID (fun _ => none) rfl).1,
   (null_preservation sampleRuntime).2 (.int [NA_INTEGER] []) (.int NA_INTEGER) []
     (fun _ _ => .error "refused") 0 false rfl rfl⟩

theorem r_get_pg_rowset {D : Type} (L : CRuntime) (rval : SEXP) (function : plr_function D)
    (w : Backend D) (h : function.result_istuple = true ∨ w.fcinfo.fn_retset = true) :
    (r_get_pg L rval function w).2.entered = w.entered ++ [.get_tuplestore] := by
  have hc : (function.result_istuple || w.fcinfo.fn_retset) = true := by
    rcases h with h | h <;> simp [h]
  have he := get_tuplestore_entered L rval (w.enter .get_tuplestore)
  unfold r_get_pg
  simp only [hc, if_true]
  cases hg : get_tuplestore L rval (w.enter .get_tuplestore) with
  | mk out w2 =>
    rw [hg] at he
    cases out with
    | error e => exact he
    | ok res =>
      obtain ⟨result, isnull⟩ := res
      simp only
      split_ifs <;> exact he

theorem r_get_pg_value {D : Type} (L : CRuntime) (rval : SEXP) (function : plr_function D)
    (w : Backend D) (h1 : function.result_istuple = false) (h2 : w.fcinfo.fn_retset = false) :
    (r_get_pg L rval function w).2.entered = w.entered
      ∨ (r_get_pg L rval function w).2.entered = w.entered ++ [.get_scalar_datum]
      ∨ (r_get_pg L rval function w).2.entered = w.entered ++ [.get_array_datum] := by
  unfold r_get_pg
  simp only [h1, h2, Bool.or_self, Bool.false_eq_true, if_false]
  split_ifs
  · exact Or.inl rfl
  · right; left
    split
    · rfl
    · split_ifs <;> rfl
  · right; right
    split <;> rfl

/-- C9, counterexample: in a set-returning call whose R function returned the
null value, `r_get_pg` does enter `get_tuplestore`. -/
theorem null_enters_row_set_path :
    isNull .nil = true
      ∧ (r_get_pg sampleRuntime .nil textFunction
          (exampleBackend true (some (exampleRsinfo ⟨[textAttr "x"]⟩)))).2.entered
        = [.get_tuplestore] :=
  ⟨rfl, rfl⟩

/-- C9, amended: null short-circuit. In a call that is neither composite- nor
set-returning, a return value that is the null value or has length zero makes
the result null (zero datum, null flag set) with no conversion routine entered
and nothing else changed. A composite- or set-returning call enters
`get_tuplestore` whatever the value is. -/
theorem null_short_circuit {D : Type} (L : CRuntime) (rval : SEXP) (function : plr_function D)
    (w : Backend D) :
    (function.result_istuple = false → w.fcinfo.fn_retset = false →
      (isNull rval = true ∨ length rval = 0) →
      r_get_pg L rval function w = (.ok .zero, w.setNull)
        ∧ (r_get_pg L rval function w).2.entered = w.entered
        ∧ (r_get_pg L rval function w).2.fcinfo.isnull = true)
    ∧ ((function.result_istuple = true ∨ w.fcinfo.fn_retset = true) →
      (r_get_pg L rval function w).2.entered = w.entered ++ [.get_tuplestore]) := by
  refine ⟨fun h1 h2 h3 => ?_, r_get_pg_rowset L rval function w⟩
  have hr : r_get_pg L rval function w = (.ok .zero, w.setNull) := by
    unfold r_get_pg
    simp only [h1, h2, Bool.or_self, Bool.false_eq_true, if_false]
    have hc : (isNull rval || length rval == 0) = true := by
      rcases h3 with h | h <;> simp [h]
    rw [if_pos hc]
  rw [hr]
  exact ⟨rfl, rfl, rfl⟩

/-- C9 amended, at a scalar-returning call whose R function returned the null
value. -/
theorem null_short_circuit_witness :
    r_get_pg sampleRuntime .nil textFunction (exampleBackend false none)
      = (.ok .zero, (exampleBackend false none).setNull) :=
  ((null_short_circuit sampleRuntime .nil textFunction (exampleBackend false none)).1
    rfl rfl (Or.inl rfl)).1

/-- C10: row-set path gating. Starting from a record that does not hold
`get_tuplestore`, `r_get_pg` enters `get_tuplestore` if and only if the function
returns a composite type or the call is set-returning. On that path, when the
caller supplies no result-info or does not allow materialize mode,
`get_tuplestore` fails with the materialization error and leaves the state as
it was: region, return mode, set result and set descriptor are untouched. -/
theorem row_set_gating {D : Type} (L : CRuntime) (rval : SEXP) (function : plr_function D)
    (w : Backend D) (hfresh : Routine.get_tuplestore ∉ w.entered) :
    (Routine.get_tuplestore ∈ (r_get_pg L rval function w).2.entered
        ↔ (function.result_istuple = true ∨ w.fcinfo.fn_retset = true))
    ∧ ((w.fcinfo.resultinfo = none
          ∨ ∃ rs, w.fcinfo.resultinfo = some rs
              ∧ Nat.land rs.allowedModes SFRM_Materialize = 0) →
        get_tuplestore L rval w = (.error .materializeNotAllowed, w)
        ∧ ((function.result_istuple = true ∨ w.fcinfo.fn_retset = true) →
            r_get_pg L rval function w
              = (.error .materializeNotAllowed, w.enter .get_tuplestore))) := by
  constructor
  · constructor
    · intro h
      by_contra hc
      simp only [not_or, Bool.not_eq_true] at hc
      rcases r_get_pg_value L rval function w hc.1 hc.2 with h1 | h1 | h1 <;> rw [h1] at h
      · exact hfresh h
      · simp only [List.mem_append, List.mem_singleton] at h
        rcases h with h | h
        · exact hfresh h
        · cases h
      · simp only [List.mem_append, List.mem_singleton] at h
        rcases h with h | h
        · exact hfresh h
        · cases h
    · intro h
      rw [r_get_pg_rowset L rval function w h]
      simp
  · intro h
    refine ⟨get_tuplestore_refused L rval w h, fun ht => ?_⟩
    have hc : (function.result_istuple || w.fcinfo.fn_retset) = true := by
      rcases ht with h | h <;> simp [h]
    unfold r_get_pg
    simp only [hc, if_true]
    rw [get_tuplestore_refused L rval (w.enter .get_tuplestore) h]

/-- C10 at a set-returning call without result-info. -/
theorem row_set_gating_witness :
    Routine.get_tuplestore ∈ (r_get_pg sampleRuntime exampleFrame textFunction
        (exampleBackend true none)).2.entered
      ∧ get_tuplestore sampleRuntime exampleFrame (exampleBackend (D := String) true none)
        = (.error .materializeNotAllowed, exampleBackend true none) :=
  ⟨((row_set_gating sampleRuntime exampleFrame textFunction (exampleBackend true none)
      (by simp [exampleBackend])).1).2 (Or.inr rfl),
   ((row_set_gating sampleRuntime exampleFrame textFunction (exampleBackend true none)
      (by simp [exampleBackend])).2 (Or.inl rfl)).1⟩

theorem rows_fold_ctx {D : Type} (attinmeta : TupleDesc D) (pq : MemoryContext)
    (vals : Nat → Except PlrError (List (Option String)))
    (rows : List Nat) (st st2 : Tuplestorestate D × MemoryContext)
    (h : rows.foldlM (fun st i => storeRow attinmeta pq st (vals i)) st = .ok st2) :
    st2.2 = st.2 := by
  induction rows generalizing st with
  | nil => cases h; rfl
  | cons i rows ih =>
    rw [List.foldlM_cons] at h
    cases hs : storeRow attinmeta pq st (vals i) with
    | error e => rw [hs] at h; cases h
    | ok st1 =>
      rw [hs] at h
      exact (ih st1 h).trans (storeRow_ctx attinmeta pq st st1 (vals i) hs).1

theorem get_frame_tuplestore_region {D : Type} (L : CRuntime) (rval : SEXP)
    (attinmeta : TupleDesc D) (pq : MemoryContext) (retset : Bool) (cur : MemoryContext)
    (ts : Tuplestorestate D) (c : MemoryContext)
    (h : get_frame_tuplestore L rval attinmeta pq retset cur = .ok (ts, c)) : c = cur := by
  unfold get_frame_tuplestore at h
  simp only [MemoryContextSwitchTo] at h
  split at h
  · cases h
  · split at h
    · cases h
    · split at h
      · cases h
      · rename_i st hst
        rw [doneStoring_eq] at h
        cases h
        exact rows_fold_ctx attinmeta pq _ _ _ _ hst

theorem get_matrix_tuplestore_region {D : Type} (L : CRuntime) (rval : SEXP)
    (attinmeta : TupleDesc D) (pq : MemoryContext) (retset : Bool) (cur : MemoryContext)
    (ts : Tuplestorestate D) (c : MemoryContext)
    (h : get_matrix_tuplestore L rval attinmeta pq retset cur = .ok (ts, c)) : c = cur := by
  unfold get_matrix_tuplestore at h
  simp only [MemoryContextSwitchTo] at h
  split at h
  · cases h
  · rename_i st hst
    rw [doneStoring_eq] at h
    cases h
    exact rows_fold_ctx attinmeta pq
      (fun i => (List.range (ncols rval)).mapM (fun j =>
        (STRING_ELT (AS_CHARACTER L rval) ((j * (if retset = true then nrows rval else 1)) + i)).map
          (fun c => some (CHAR c)))) _ _ _ hst

theorem get_generic_tuplestore_region {D : Type} (L : CRuntime) (rval : SEXP)
    (attinmeta : TupleDesc D) (pq : MemoryContext) (retset : Bool) (cur : MemoryContext)
    (ts : Tuplestorestate D) (c : MemoryContext)
    (h : get_generic_tuplestore L rval attinmeta pq retset cur = .ok (ts, c)) : c = cur := by
  unfold get_generic_tuplestore at h
  simp only [MemoryContextSwitchTo] at h
  split at h
  · cases h
  · rename_i st hst
    rw [doneStoring_eq] at h
    cases h
    exact rows_fold_ctx attinmeta pq
      (fun i => (STRING_ELT (AS_CHARACTER L rval) i).map (fun c => [some (CHAR c)])) _ _ _ hst

/-- C11, counterexample: a frame of three columns against two expected columns
fails with the shape-mismatch error, and at that exit the current region is the
per-query region (1), not the region current at entry (0). -/
theorem mismatch_leaves_per_query_region :
    (exampleBackend (D := String) true
        (some (exampleRsinfo ⟨[textAttr "x", textAttr "y"]⟩))).CurrentMemoryContext = 0
      ∧ (get_tuplestore sampleRuntime exampleFrame
          (exampleBackend true (some (exampleRsinfo ⟨[textAttr "x", textAttr "y"]⟩)))).1
        = .error .incompatibleTuple
      ∧ (get_tuplestore sampleRuntime exampleFrame
          (exampleBackend true
            (some (exampleRsinfo ⟨[textAttr "x", textAttr "y"]⟩)))).2.CurrentMemoryContext = 1 :=
  ⟨rfl, rfl, rfl⟩

/-- C11, amended: allocation-region restoration. The three builders leave the
current region as they found it, on success and on failure. `get_tuplestore`
exits in the region current at entry on the success path and on the
materialization failure; on its other failures - the column-count mismatch and
a failure inside a builder - it exits with the per-query region current, the
switch back being made on the success path only. -/
theorem region_restoration {D : Type} (L : CRuntime) (rval : SEXP) (w : Backend D) :
    (∀ (desc : TupleDesc D) pq retset cur,
      (∀ ts c, get_frame_tuplestore L rval desc pq retset cur = .ok (ts, c) → c = cur)
      ∧ (∀ e c, get_frame_tuplestore L rval desc pq retset cur = .error (e, c) → c = cur)
      ∧ (∀ ts c, get_matrix_tuplestore L rval desc pq retset cur = .ok (ts, c) → c = cur)
      ∧ (∀ e c, get_matrix_tuplestore L rval desc pq retset cur = .error (e, c) → c = cur)
      ∧ (∀ ts c, get_generic_tuplestore L rval desc pq retset cur = .ok (ts, c) → c = cur)
      ∧ (∀ e c, get_generic_tuplestore L rval desc pq retset cur = .error (e, c) → c = cur))
    ∧ (∀ res, (get_tuplestore L rval w).1 = .ok res →
        (get_tuplestore L rval w).2.CurrentMemoryContext = w.CurrentMemoryContext)
    ∧ ((get_tuplestore L rval w).1 = .error .materializeNotAllowed →
        (get_tuplestore L rval w).2 = w)
    ∧ (∀ e, (get_tuplestore L rval w).1 = .error e → e ≠ .materializeNotAllowed →
        ∃ rs, w.fcinfo.resultinfo = some rs
          ∧ (get_tuplestore L rval w).2.CurrentMemoryContext = rs.per_query_memory) := by
  refine ⟨fun desc pq retset cur => ⟨?_, ?_, ?_, ?_, ?_, ?_⟩, ?_⟩
  · exact fun ts c h => get_frame_tuplestore_region L rval desc pq retset cur ts c h
  · exact fun e c h => (get_frame_tuplestore_error L rval desc pq retset cur (e, c) h).2
  · exact fun ts c h => get_matrix_tuplestore_region L rval desc pq retset cur ts c h
  · exact fun e c h => (get_matrix_tuplestore_error L rval desc pq retset cur (e, c) h).2
  · exact fun ts c h => get_generic_tuplestore_region L rval desc pq retset cur ts c h
  · exact fun e c h => (get_generic_tuplestore_error L rval desc pq retset cur (e, c) h).2
  · cases hrs : w.fcinfo.resultinfo with
    | none =>
      rw [get_tuplestore_refused L rval w (Or.inl hrs)]
      exact ⟨fun res h => (by cases h), fun _ => rfl, fun e h hne => (by cases h; exact absurd rfl hne)⟩
    | some rs =>
      by_cases hmat : Nat.land rs.allowedModes SFRM_Materialize = 0
      · rw [get_tuplestore_refused L rval w (Or.inr ⟨rs, hrs, hmat⟩)]
        exact ⟨fun res h => (by cases h), fun _ => rfl,
          fun e h hne => (by cases h; exact absurd rfl hne)⟩
      · rw [get_tuplestore_eq L rval w rs hrs hmat]
        by_cases hnc : producedColumns rval ≠ rs.expectedDesc.natts
        · rw [if_pos hnc]
          exact ⟨fun res h => (by cases h), fun h => (by cases h), fun e _ _ => ⟨rs, rfl, rfl⟩⟩
        · rw [if_neg hnc]
          cases hb : (if isFrame rval then
              get_frame_tuplestore L rval rs.expectedDesc rs.per_query_memory
                w.fcinfo.fn_retset rs.per_query_memory
            else if isMatrix rval then
              get_matrix_tuplestore L rval rs.expectedDesc rs.per_query_memory
                w.fcinfo.fn_retset rs.per_query_memory
            else
              get_generic_tuplestore L rval rs.expectedDesc rs.per_query_memory
                w.fcinfo.fn_retset rs.per_query_memory) with
          | error ec =>
            obtain ⟨e, c⟩ := ec
            have hbe := builder_dispatch_error L rval _ _ _ _ _ hb
            refine ⟨fun res h => (by cases h), fun h => ?_, fun e2 _ _ => ⟨rs, rfl, hbe.2⟩⟩
            simp only at h
            cases h
            rcases hbe.1 with h1 | ⟨msg, h1⟩ <;> cases h1
          | ok tc =>
            obtain ⟨ts, c⟩ := tc
            exact ⟨fun _ _ => rfl, fun h => (by cases h), fun e h _ => (by cases h)⟩

/-- C11 amended, at a frame of three columns against three expected columns:
the set-returning call succeeds and exits in the region current at entry. -/
theorem region_restoration_witness :
    (get_tuplestore sampleRuntime exampleFrame
        (exampleBackend true
          (some (exampleRsinfo ⟨[textAttr "x", textAttr "y", textAttr "z"]⟩)))).2.CurrentMemoryContext
      = 0 :=
  (region_restoration sampleRuntime exampleFrame
    (exampleBackend true
      (some (exampleRsinfo ⟨[textAttr "x", textAttr "y", textAttr "z"]⟩)))).2.1 (.zero, true) rfl

/-- C12: type classification. For every type identifier and every length n,
`get_r_vector` returns a vector of length n whose kind is fixed by the
identifier alone: integer for INT2 and INT4, floating for INT8, FLOAT4, FLOAT8,
CASH and NUMERIC, logical for BOOL, character for every other identifier. -/
theorem type_classification (typtype : Oid) (n : Nat) :
    length (get_r_vector typtype n) = n
    ∧ ((typtype = INT2OID ∨ typtype = INT4OID) → TYPEOF (get_r_vector typtype n) = .INTSXP)
    ∧ ((typtype = INT8OID ∨ typtype = FLOAT4OID ∨ typtype = FLOAT8OID ∨ typtype = CASHOID
          ∨ typtype = NUMERICOID) → TYPEOF (get_r_vector typtype n) = .REALSXP)
    ∧ (typtype = BOOLOID → TYPEOF (get_r_vector typtype n) = .LGLSXP)
    ∧ ((typtype ≠ INT2OID ∧ typtype ≠ INT4OID ∧ typtype ≠ INT8OID ∧ typtype ≠ FLOAT4OID
          ∧ typtype ≠ FLOAT8OID ∧ typtype ≠ CASHOID ∧ typtype ≠ NUMERICOID
          ∧ typtype ≠ BOOLOID) → TYPEOF (get_r_vector typtype n) = .STRSXP)
    ∧ (∀ m, TYPEOF (get_r_vector typtype m) = TYPEOF (get_r_vector typtype n)) := by
  refine ⟨get_r_vector_length typtype n, ?_, ?_, ?_, ?_, ?_⟩
  · intro h
    unfold get_r_vector
    rw [if_pos h]
    rfl
  · intro h
    have h1 : ¬ (typtype = INT2OID ∨ typtype = INT4OID) := by
      rcases h with h | h | h | h | h <;> subst h <;> decide
    unfold get_r_vector
    rw [if_neg h1, if_pos h]
    rfl
  · intro h
    subst h
    rfl
  · intro h
    unfold get_r_vector
    rw [if_neg (by tauto), if_neg (by tauto), if_neg (by tauto)]
    rfl
  · intro m
    rw [get_r_vector_kind, get_r_vector_kind]

/-- C12 at INT4, NUMERIC, BOOL and the text type. -/
theorem type_classification_witness :
    TYPEOF (get_r_vector INT4OID 3) = .INTSXP
      ∧ TYPEOF (get_r_vector NUMERICOID 3) = .REALSXP
      ∧ TYPEOF (get_r_vector BOOLOID 3) = .LGLSXP
      ∧ TYPEOF (get_r_vector TEXTOID 3) = .STRSXP
      ∧ length (get_r_vector TEXTOID 3) = 3 :=
  ⟨(type_classification INT4OID 3).2.1 (Or.inr rfl),
   (type_classification NUMERICOID 3).2.2.1 (Or.inr (Or.inr (Or.inr (Or.inr rfl)))),
   (type_classification BOOLOID 3).2.2.2.1 rfl,
   (type_classification TEXTOID 3).2.2.2.2.1 (by decide),
   (type_classification TEXTOID 3).1⟩

theorem writeLoop_eq {D : Type} (in_func : InFunc D) (val : PlannedWrite → D)
    (plan : List PlannedWrite) (dv : List (Option D))
    (hok : ∀ it ∈ plan, it.2 < dv.length ∧ ∃ c, it.1 = some c
      ∧ encodeElt in_func c = .ok (val it)) :
    writeLoop in_func plan dv
      = .ok (applyWrites dv (plan.map (fun it => (it.2, some (val it))))) := by
  induction plan generalizing dv with
  | nil => rfl
  | cons it plan ih =>
    obtain ⟨hlt, c, h1, h2⟩ := hok it (List.mem_cons_self _ _)
    have hs : writeStep in_func dv it = .ok (dv.set it.2 (some (val it))) := by
      simp [writeStep, h1, h2, setSlot_ok _ _ _ hlt]
    rw [writeLoop_cons, hs]
    simp only
    rw [ih _ (fun it2 h => by
      rw [List.length_set]
      exact hok it2 (List.mem_cons_of_mem _ h))]
    rfl

theorem mapM_id_eq_some {D : Type} (dv : List (Option D)) (ds : List D)
    (h : dv = ds.map some) : dv.mapM id = some ds := by
  rw [h]
  exact mapM_id_map_some ds

theorem frame_dst_inj {nc i j i2 j2 : Nat} (hj : j < nc) (hj2 : j2 < nc)
    (h : i * nc + j = i2 * nc + j2) : i = i2 ∧ j = j2 := by
  have e1 : (i * nc + j) % nc = j := by
    rw [Nat.add_comm, Nat.add_mul_mod_self_right, Nat.mod_eq_of_lt hj]
  have e2 : (i2 * nc + j2) % nc = j2 := by
    rw [Nat.add_comm, Nat.add_mul_mod_self_right, Nat.mod_eq_of_lt hj2]
  have hjj : j = j2 := by rw [← e1, ← e2, h]
  subst hjj
  have hpos : 0 < nc := by omega
  exact ⟨Nat.eq_of_mul_eq_mul_right hpos (Nat.add_right_cancel h), rfl⟩

theorem nodup_frame_dst (L : CRuntime) (cols : List SEXP) (nr nc : Nat) :
    (((List.range nc).flatMap (framePlan L cols nr nc)).map Prod.snd).Nodup := by
  have hmap : ((List.range nc).flatMap (framePlan L cols nr nc)).map Prod.snd
      = (List.range nc).flatMap (fun j => (List.range nr).map (fun i => i * nc + j)) := by
    rw [List.map_flatMap]
    congr 1
    funext j
    unfold framePlan
    rw [List.map_map]
    rfl
  rw [hmap, List.nodup_flatMap]
  refine ⟨fun j hj => ?_, ?_⟩
  · rw [List.mem_range] at hj
    refine (List.nodup_range nr).map_on ?_
    intro i _ i2 _ h
    exact (frame_dst_inj hj hj h).1
  · refine (List.nodup_range nc).pairwise_of_forall_ne ?_
    intro j hj j2 hj2 hne
    rw [List.mem_range] at hj hj2
    simp only [Function.onFun, List.disjoint_left, List.mem_map, List.mem_range]
    rintro q ⟨i, _, rfl⟩ ⟨i2, _, h⟩
    exact hne (frame_dst_inj hj2 hj h).2.symm

/-- C13: frame-to-array layout. For a data frame of nc columns that carry no
attribute and all have length nr, each of whose elements encodes (so none is
missing), `get_frame_array_datum` produces a two-dimensional array with extents
(nr, nc) and lower bounds 1 whose payload at offset i * nc + j is the encoding
of element i of column j. -/
theorem frame_to_array_layout {D : Type} (L : CRuntime) (function : plr_function D)
    (cols : List SEXP) (a : Pairlist) (nr : Nat) (g : CHARSXP → D)
    (hnr : cols = [] → nr = 0)
    (hattr : ∀ c ∈ cols, ATTRIB c = []) (hlen : ∀ c ∈ cols, length c = nr)
    (henc : ∀ c ∈ cols, ∀ e ∈ elts c,
      encodeElt function.result_elem_in_func (eltAsChar L e) = .ok (g (eltAsChar L e))) :
    ∃ data, get_frame_array_datum L (.vec cols a) function
        = .ok ⟨function.result_elem, [nr, cols.length], [1, 1], data⟩
      ∧ data.length = nr * cols.length
      ∧ ∀ i j, i < nr → j < cols.length →
          ∃ e, (elts (cols.getD j .nil))[i]? = some e
            ∧ data[i * cols.length + j]? = some (g (eltAsChar L e)) := by
  cases cols with
  | nil =>
    rw [hnr rfl]
    exact ⟨[], rfl, rfl, fun i j hi _ => absurd hi (Nat.not_lt_zero i)⟩
  | cons c0 cs =>
    have hnc : (c0 :: cs).length = cs.length + 1 := rfl
    have hcl : ∀ j, j < cs.length + 1 →
        (asCharacterElts L ((c0 :: cs).getD j .nil)).length = nr
          ∧ (c0 :: cs).getD j .nil ∈ c0 :: cs := by
      intro j hj
      have hj2 : j < (c0 :: cs).length := hj
      have : (c0 :: cs).getD j .nil = (c0 :: cs)[j] := by
        simp [List.getElem?_eq_getElem hj2]
      rw [this, length_asCharacterElts, hlen _ (List.getElem_mem hj2)]
      exact ⟨rfl, List.getElem_mem hj2⟩
    have hplan : ∀ it ∈ (List.range (cs.length + 1)).flatMap
          (framePlan L (c0 :: cs) nr (cs.length + 1)),
        it.2 < (List.replicate (nr * (cs.length + 1)) (none : Option D)).length
          ∧ ∃ c, it.1 = some c
            ∧ encodeElt function.result_elem_in_func c = .ok (g (it.1.getD none)) := by
      intro it hit
      obtain ⟨j, hj, hit2⟩ := List.mem_flatMap.1 hit
      rw [List.mem_range] at hj
      obtain ⟨i, hi, rfl⟩ := List.mem_map.1 hit2
      rw [List.mem_range] at hi
      obtain ⟨h1, h2⟩ := hcl j hj
      have hi2 : i < (asCharacterElts L ((c0 :: cs).getD j .nil)).length := by
        rw [h1]; exact hi
      refine ⟨?_, (asCharacterElts L ((c0 :: cs).getD j .nil))[i], ?_, ?_⟩
      · rw [List.length_replicate]
        calc i * (cs.length + 1) + j < i * (cs.length + 1) + (cs.length + 1) := by omega
          _ = (i + 1) * (cs.length + 1) := by ring
          _ ≤ nr * (cs.length + 1) := Nat.mul_le_mul_right _ hi
      · simp [List.getElem?_eq_getElem hi2]
      · simp only [List.getElem?_eq_getElem hi2, Option.getD_some]
        have hm : (asCharacterElts L ((c0 :: cs).getD j .nil))[i]
            ∈ asCharacterElts L ((c0 :: cs).getD j .nil) := List.getElem_mem hi2
        generalize (asCharacterElts L ((c0 :: cs).getD j .nil))[i] = ch at hm ⊢
        rw [asCharacterElts_eq, List.mem_map] at hm
        obtain ⟨e, he, hee⟩ := hm
        rw [← hee]
        exact henc _ h2 e he
    let data : List D := (List.range (nr * (cs.length + 1))).map (fun q =>
      g ((asCharacterElts L ((c0 :: cs).getD (q % (cs.length + 1)) .nil))[q / (cs.length + 1)]?.getD
        none))
    have hpos : 0 < cs.length + 1 := by omega
    have hdv : applyWrites (List.replicate (nr * (cs.length + 1)) (none : Option D))
        (((List.range (cs.length + 1)).flatMap (framePlan L (c0 :: cs) nr (cs.length + 1))).map
          (fun it => (it.2, some (g (it.1.getD none))))) = data.map some := by
      apply List.ext_getElem?
      intro q
      by_cases hq : q < nr * (cs.length + 1)
      · have hmem : (q, some (g ((asCharacterElts L ((c0 :: cs).getD (q % (cs.length + 1))
            .nil))[q / (cs.length + 1)]?.getD none)))
            ∈ ((List.range (cs.length + 1)).flatMap
                (framePlan L (c0 :: cs) nr (cs.length + 1))).map
              (fun it => (it.2, some (g (it.1.getD none)))) := by
          refine List.mem_map.2 ⟨((asCharacterElts L ((c0 :: cs).getD (q % (cs.length + 1))
            .nil))[q / (cs.length + 1)]?, q), List.mem_flatMap.2 ⟨q % (cs.length + 1), ?_, ?_⟩, rfl⟩
          · exact List.mem_range.2 (Nat.mod_lt _ hpos)
          · refine List.mem_map.2 ⟨q / (cs.length + 1), List.mem_range.2 ?_, ?_⟩
            · exact (Nat.div_lt_iff_lt_mul hpos).2 hq
            · rw [Nat.div_add_mod' q (cs.length + 1)]
        have hnd := nodup_frame_dst L (c0 :: cs) nr (cs.length + 1)
        rw [applyWrites_get_of_mem _ _ _ (by
          rw [List.map_map]
          exact hnd) hmem (by simpa using hq)]
        simp only [data, List.getElem?_map, List.getElem?_range hq, Option.map_some']
      · rw [List.getElem?_eq_none (by rw [applyWrites_length]; simpa using hq),
          List.getElem?_eq_none (by simpa [data] using hq)]
    refine ⟨data, ?_, by simp [data], ?_⟩
    · rw [frame_eq_build L function c0 cs a nr hattr hlen, hnc]
      unfold buildArray
      rw [writeLoop_eq function.result_elem_in_func (fun it => g (it.1.getD none)) _ _ hplan, hdv]
      simp only [construct_md_array, mapM_id_map_some]
    · intro i j hi hj
      rw [hnc] at hj
      obtain ⟨h1, _⟩ := hcl j hj
      have hi2 : i < (elts ((c0 :: cs).getD j .nil)).length := by
        rw [asCharacterElts_eq, List.length_map] at h1
        rw [h1]; exact hi
      refine ⟨(elts ((c0 :: cs).getD j .nil))[i], List.getElem?_eq_getElem hi2, ?_⟩
      have hq : i * (cs.length + 1) + j < nr * (cs.length + 1) := by
        calc i * (cs.length + 1) + j < i * (cs.length + 1) + (cs.length + 1) := by omega
          _ = (i + 1) * (cs.length + 1) := by ring
          _ ≤ nr * (cs.length + 1) := Nat.mul_le_mul_right _ hi
      have hdiv : (i * (cs.length + 1) + j) / (cs.length + 1) = i := by
        rw [Nat.add_comm, Nat.add_mul_div_right _ _ hpos, Nat.div_eq_of_lt hj, Nat.zero_add]
      have hmod : (i * (cs.length + 1) + j) % (cs.length + 1) = j := by
        rw [Nat.add_comm, Nat.add_mul_mod_self_right, Nat.mod_eq_of_lt hj]
      simp only [hnc, data, List.getElem?_map, List.getElem?_range hq, Option.map_some', hdiv,
        hmod, asCharacterElts_eq, List.getElem?_eq_getElem hi2, Option.getD_some]

/-- C13 at a frame of two text columns ("a","b") and ("c","d"): the array has
extents (2,2) and payload a, c, b, d. -/
theorem frame_to_array_layout_witness :
    ∃ data, get_frame_array_datum sampleRuntime
        (.vec [.str [some "a", some "b"] [], .str [some "c", some "d"] []]
          [(R_ClassSymbol, .strs [some "data.frame"])]) textFunction
        = .ok ⟨TEXTOID, [2, 2], [1, 1], data⟩
      ∧ data.length = 2 * 2
      ∧ ∃ e, (elts (.str [some "c", some "d"] []))[1]? = some e
          ∧ data[1 * 2 + 1]? = some (CHAR (eltAsChar sampleRuntime e)) := by
  obtain ⟨data, h1, h2, h3⟩ := frame_to_array_layout sampleRuntime textFunction
    [.str [some "a", some "b"] [], .str [some "c", some "d"] []]
    [(R_ClassSymbol, .strs [some "data.frame"])] 2 CHAR (fun h => by cases h)
    (fun c hc => by
      simp only [List.mem_cons, List.mem_singleton, List.not_mem_nil, or_false] at hc
      rcases hc with rfl | rfl <;> rfl)
    (fun c hc => by
      simp only [List.mem_cons, List.mem_singleton, List.not_mem_nil, or_false] at hc
      rcases hc with rfl | rfl <;> rfl)
    (fun c hc e he => by
      simp only [List.mem_cons, List.mem_singleton, List.not_mem_nil, or_false] at hc
      rcases hc with rfl | rfl <;>
        simp only [elts, List.map_cons, List.map_nil, List.mem_cons, List.mem_singleton,
          List.not_mem_nil, or_false] at he <;>
        rcases he with rfl | rfl <;> rfl)
  exact ⟨data, h1, h2, h3 1 1 (by decide) (by decide)⟩

theorem get_array_datum_classify {D : Type} (L : CRuntime) (rval : SEXP)
    (function : plr_function D) :
    get_array_datum L rval function = arrayVariant L rval function (classify rval) := by
  unfold get_array_datum classify
  by_cases hf : isFrame rval = true
  · simp only [hf, if_true, arrayVariant]
  · by_cases hm : isMatrix rval = true
    · simp only [hf, hm, if_true, arrayVariant]
      rfl
    · simp only [hf, hm, arrayVariant]
      rfl

theorem producedColumns_classify (rval : SEXP) :
    producedColumns rval = columnsVariant rval (classify rval) := by
  unfold producedColumns classify
  by_cases hf : isFrame rval = true
  · simp only [hf, if_true, columnsVariant]
  · by_cases hm : isMatrix rval = true
    · simp only [hf, hm, if_true, columnsVariant]
      rfl
    · simp only [hf, hm, columnsVariant]
      rfl

theorem builder_classify {D : Type} (L : CRuntime) (rval : SEXP) (desc : TupleDesc D)
    (pq : MemoryContext) (retset : Bool) (cur : MemoryContext) :
    (if isFrame rval then get_frame_tuplestore L rval desc pq retset cur
      else if isMatrix rval then get_matrix_tuplestore L rval desc pq retset cur
      else get_generic_tuplestore L rval desc pq retset cur)
      = rowsVariant L rval desc pq retset cur (classify rval) := by
  unfold classify
  by_cases hf : isFrame rval = true
  · simp only [hf, if_true, rowsVariant]
  · by_cases hm : isMatrix rval = true
    · simp only [hf, hm, if_true, rowsVariant]
      rfl
    · simp only [hf, hm, rowsVariant]
      rfl

/-- C14: classification order. Both dispatchers follow the one classification
that tests frame-shaped first, then matrix-shaped, then everything else:
`get_array_datum` runs the array builder of that shape, and `get_tuplestore`,
once materialization is allowed, compares the column count of that shape with
the expected one and builds the rows with the builder of the same shape. A
frame-shaped value is classified as a frame whatever dimension attribute it
carries. -/
theorem classification_order {D : Type} (L : CRuntime) (rval : SEXP)
    (function : plr_function D) (w : Backend D) (rsinfo : ReturnSetInfo D)
    (hrs : w.fcinfo.resultinfo = some rsinfo)
    (hmat : Nat.land rsinfo.allowedModes SFRM_Materialize ≠ 0) :
    get_array_datum L rval function = arrayVariant L rval function (classify rval)
    ∧ get_tuplestore L rval w
      = (if columnsVariant rval (classify rval) ≠ rsinfo.expectedDesc.natts then
          (.error .incompatibleTuple,
            { w with CurrentMemoryContext := rsinfo.per_query_memory })
        else
          match rowsVariant L rval rsinfo.expectedDesc rsinfo.per_query_memory
              w.fcinfo.fn_retset rsinfo.per_query_memory (classify rval) with
          | .error (e, cur) =>
            (.error e,
              { w with
                fcinfo := { w.fcinfo with
                  resultinfo := some { rsinfo with returnMode := SFRM_Materialize } }
                CurrentMemoryContext := cur })
          | .ok (tupstore, _) =>
            (.ok (.zero, true),
              { w with
                fcinfo := { w.fcinfo with
                  resultinfo := some { rsinfo with
                    returnMode := SFRM_Materialize
                    setResult := some tupstore
                    setDesc := some rsinfo.expectedDesc } }
                CurrentMemoryContext := w.CurrentMemoryContext }))
    ∧ (isFrame rval = true → classify rval = .frame)
    ∧ (isFrame rval = false → isMatrix rval = true → classify rval = .matrix)
    ∧ (isFrame rval = false → isMatrix rval = false → classify rval = .other) := by
  refine ⟨get_array_datum_classify L rval function, ?_, ?_, ?_, ?_⟩
  · rw [get_tuplestore_eq L rval w rsinfo hrs hmat, producedColumns_classify, builder_classify]
  · intro hf
    simp [classify, hf]
  · intro hf hm
    simp [classify, hf, hm]
  · intro hf hm
    simp [classify, hf, hm]

/-- C14 at a data frame that also carries a dimension attribute of two
extents: it passes the matrix test, yet it is classified as a frame, its array
is the one the frame builder gives (extents (2,2), payload a, c, b, d), and a
set-returning call builds its rows with the frame builder. -/
theorem classification_order_witness :
    isMatrix dimensionedFrame = true
    ∧ classify dimensionedFrame = .frame
    ∧ get_array_datum sampleRuntime dimensionedFrame textFunction
        = .ok ⟨TEXTOID, [2, 2], [1, 1], ["a", "c", "b", "d"]⟩
    ∧ (get_tuplestore sampleRuntime dimensionedFrame
        (exampleBackend true (some (exampleRsinfo ⟨[textAttr "x", textAttr "y"]⟩)))).2.fcinfo.resultinfo.bind
          (fun r => r.setResult)
        = some ⟨1, [[some "a", some "c"], [some "b", some "d"]]⟩ := by
  have h := classification_order sampleRuntime dimensionedFrame textFunction
    (exampleBackend true (some (exampleRsinfo ⟨[textAttr "x", textAttr "y"]⟩)))
    (exampleRsinfo ⟨[textAttr "x", textAttr "y"]⟩) rfl (by decide)
  have hc : classify dimensionedFrame = .frame := h.2.2.1 rfl
  refine ⟨rfl, hc, ?_, ?_⟩
  · rw [h.1, hc]
    rfl
  · rw [h.2.1, hc]
    rfl

theorem foldlM_range_inv {σ : Type} (f : σ → Nat → Except PlrError σ) (P : Nat → σ → Prop)
    (n : Nat) (init : σ) (h0 : P 0 init)
    (hstep : ∀ j s, j < n → P j s → ∃ s2, f s j = .ok s2 ∧ P (j + 1) s2) :
    ∃ r, (List.range n).foldlM f init = .ok r ∧ P n r := by
  induction n with
  | zero => exact ⟨init, rfl, h0⟩
  | succ n ih =>
    obtain ⟨r, h1, h2⟩ := ih (fun j s hj hp => hstep j s (by omega) hp)
    obtain ⟨s2, k1, k2⟩ := hstep n r (by omega) h2
    refine ⟨s2, ?_, k2⟩
    rw [List.range_succ, List.foldlM_append, h1]
    simp only [bind, Except.bind, List.foldlM_cons, List.foldlM_nil, k1]
    rfl

theorem foldlM_ok_inv {σ α : Type} (f : σ → α → Except PlrError σ) (P : σ → Prop)
    (hstep : ∀ s x s2, P s → f s x = .ok s2 → P s2) (l : List α) (init r : σ)
    (h0 : P init) (h : l.foldlM f init = .ok r) : P r := by
  induction l generalizing init with
  | nil =>
    cases h
    exact h0
  | cons x l ih =>
    rw [List.foldlM_cons] at h
    cases hx : f init x with
    | error e => rw [hx] at h; cases h
    | ok s2 =>
      rw [hx] at h
      exact ih s2 (hstep init x s2 h0 hx) h

theorem SET_STRING_ELT_ok (xs : List CHARSXP) (a : Pairlist) (i : Nat) (v : CHARSXP)
    (h : i < xs.length) : SET_STRING_ELT (.str xs a) i v = .ok (.str (xs.set i v) a) := by
  simp [SET_STRING_ELT, h]

theorem SET_VECTOR_ELT_ok (xs : List SEXP) (a : Pairlist) (i : Nat) (v : SEXP)
    (h : i < xs.length) : SET_VECTOR_ELT (.vec xs a) i v = .ok (.vec (xs.set i v) a) := by
  simp [SET_VECTOR_ELT, h]

theorem SET_STRING_ELT_kind (s : SEXP) (i : Nat) (v : CHARSXP) (hk : TYPEOF s = .STRSXP)
    (h : i < length s) :
    ∃ s2, SET_STRING_ELT s i v = .ok s2 ∧ TYPEOF s2 = .STRSXP ∧ length s2 = length s := by
  cases s <;> simp only [TYPEOF] at hk <;> try cases hk
  rename_i xs a
  exact ⟨_, SET_STRING_ELT_ok xs a i v h, rfl, by simp [length]⟩

theorem SET_VECTOR_ELT_kind (s : SEXP) (i : Nat) (v : SEXP) (hk : TYPEOF s = .VECSXP)
    (h : i < length s) :
    ∃ s2, SET_VECTOR_ELT s i v = .ok s2 ∧ TYPEOF s2 = .VECSXP ∧ length s2 = length s := by
  cases s <;> simp only [TYPEOF] at hk <;> try cases hk
  rename_i xs a
  exact ⟨_, SET_VECTOR_ELT_ok xs a i v h, rfl, by simp [length]⟩

/-- One step of the row loop on a column: under `CellConverts` the step
succeeds and keeps the kind and the length of the column vector. -/
theorem frame_cell_step {D : Type} (L : CRuntime) (tuples : List (SPITuple D))
    (att : SPIAttribute D) (j n i : Nat) (s : SEXP) (hi : i < n) (hrows : n ≤ tuples.length)
    (hcell : CellConverts L att ((tuples.getD i []).getD j none))
    (hl : length s = n)
    (hk : TYPEOF s = if frameTypelem att = 0 then vectorKind att.typeid else .VECSXP) :
    ∃ s2, pg_tuple_get_r_frame_cell L tuples att (frameTypelem att) j s i = .ok s2
      ∧ length s2 = n
      ∧ TYPEOF s2 = if frameTypelem att = 0 then vectorKind att.typeid else .VECSXP := by
  have hit : i < tuples.length := by omega
  have hget : tuples.get? i = some tuples[i] := by simp [List.getElem?_eq_getElem hit]
  have hgd : tuples.getD i [] = tuples[i] := by simp [List.getElem?_eq_getElem hit]
  rw [hgd] at hcell
  have his : i < length s := by omega
  unfold pg_tuple_get_r_frame_cell
  simp only [hget]
  by_cases ht : frameTypelem att = 0
  · simp only [ht, if_true] at hk ⊢
    have hstr : vectorKind att.typeid = .STRSXP →
        ∃ s2, SET_STRING_ELT s i NA_STRING = .ok s2 ∧ length s2 = n
          ∧ TYPEOF s2 = vectorKind att.typeid := by
      intro hv
      obtain ⟨s2, k1, k2, k3⟩ := SET_STRING_ELT_kind s i NA_STRING (hk.trans hv) his
      exact ⟨s2, k1, k3.trans hl, k2.trans hv.symm⟩
    have hval : ∀ value, ∃ s2, pg_get_one_r L value att.typeid s i = .ok s2 ∧ length s2 = n
        ∧ TYPEOF s2 = vectorKind att.typeid := by
      intro value
      obtain ⟨r, k1, k2, k3, _⟩ := pg_get_one_r_spec L value att.typeid s i hk his
      refine ⟨r, k1, ?_, k3.trans hk⟩
      rw [length_eq_elts, k2, List.length_set, ← length_eq_elts, hl]
    unfold SPI_getvalue
    rw [List.get?_eq_getElem?]
    cases hq : (tuples[i])[j]? with
    | none =>
      simp only [List.getD_eq_getElem?_getD, hq, Option.getD_none, CellConverts] at hcell
      exact hstr (hcell ht)
    | some c =>
      simp only [List.getD_eq_getElem?_getD, hq, Option.getD_some] at hcell
      cases c with
      | none =>
        simp only [CellConverts] at hcell
        exact hstr (hcell ht)
      | some v =>
        cases v with
        | scalar d =>
          simp only [CellConverts] at hcell
          cases ho : att.typoutput d with
          | none =>
            simp only [ho]
            exact hstr (hcell.2 ho)
          | some value =>
            simp only [ho]
            exact hval value
        | array a =>
          simp only [CellConverts] at hcell
          exact absurd ht hcell.1
  · simp only [ht, if_false] at hk ⊢
    have hput : ∀ elem, ∃ s2, SET_VECTOR_ELT s i elem = .ok s2 ∧ length s2 = n
        ∧ TYPEOF s2 = .VECSXP := by
      intro elem
      obtain ⟨s2, k1, k2, k3⟩ := SET_VECTOR_ELT_kind s i elem hk his
      exact ⟨s2, k1, k3.trans hl, k2⟩
    have hna : SET_STRING_ELT (NEW_CHARACTER 1) 0 NA_STRING = .ok (.str [NA_STRING] []) := rfl
    unfold SPI_getbinval
    rw [List.get?_eq_getElem?]
    cases hq : (tuples[i])[j]? with
    | none =>
      simp only [hna]
      exact hput _
    | some c =>
      simp only [List.getD_eq_getElem?_getD, hq, Option.getD_some] at hcell
      cases c with
      | none =>
        simp only [hna]
        exact hput _
      | some v =>
        cases v with
        | scalar d =>
          simp only [CellConverts] at hcell
          exact absurd hcell.1 ht
        | array a =>
          simp only [CellConverts] at hcell
          obtain ⟨e, he⟩ := hcell.2
          simp only [he]
          exact hput _

/-- The row loop on one column: under `CellConverts` it gives a column that
fits the descriptor. -/
theorem frame_column_ok {D : Type} (L : CRuntime) (tuples : List (SPITuple D))
    (att : SPIAttribute D) (j n : Nat) (hrows : n ≤ tuples.length)
    (hcells : ∀ i, i < n → CellConverts L att ((tuples.getD i []).getD j none)) :
    ∃ col, (List.range n).foldlM (pg_tuple_get_r_frame_cell L tuples att (frameTypelem att) j)
        (if frameTypelem att = 0 then get_r_vector att.typeid n else NEW_LIST n) = .ok col
      ∧ ColumnFits att n col := by
  obtain ⟨col, h1, h2, h3⟩ := foldlM_range_inv
    (pg_tuple_get_r_frame_cell L tuples att (frameTypelem att) j)
    (fun _ s => length s = n
      ∧ TYPEOF s = if frameTypelem att = 0 then vectorKind att.typeid else .VECSXP) n
    (if frameTypelem att = 0 then get_r_vector att.typeid n else NEW_LIST n)
    (by
      split_ifs
      · exact ⟨get_r_vector_length _ _, get_r_vector_kind _ _⟩
      · exact ⟨by simp [NEW_LIST, length], rfl⟩)
    (fun i s hi hp => frame_cell_step L tuples att j n i s hi hrows (hcells i hi) hp.1 hp.2)
  refine ⟨col, h1, h2, ?_, ?_⟩
  · intro ht
    rw [h3, if_neg ht]
  · intro ht
    rw [h3, if_pos ht]

theorem lookupAttr_installAttr_self (tag : String) (v : AttrVal) (a : Pairlist) :
    lookupAttr tag (installAttr tag v a) = some v := by
  induction a with
  | nil => simp [installAttr, lookupAttr]
  | cons p a ih =>
    obtain ⟨t, w⟩ := p
    by_cases ht : t = tag
    · simp [installAttr, lookupAttr, ht]
    · simp [installAttr, lookupAttr, ht, ih]

theorem lookupAttr_installAttr_ne (tag tag2 : String) (v : AttrVal) (a : Pairlist)
    (h : tag ≠ tag2) : lookupAttr tag (installAttr tag2 v a) = lookupAttr tag a := by
  induction a with
  | nil => simp [installAttr, lookupAttr, Ne.symm h]
  | cons p a ih =>
    obtain ⟨t, w⟩ := p
    by_cases ht : t = tag2
    · subst ht
      simp [installAttr, lookupAttr, Ne.symm h]
    · by_cases ht2 : t = tag
      · subst ht2
        simp [installAttr, lookupAttr, h]
      · simp [installAttr, lookupAttr, ht, ht2, ih]

theorem frame_columns_ok {D : Type} (L : CRuntime) (tuples : List (SPITuple D))
    (tupdesc : List (SPIAttribute D)) (n : Nat) (hrows : n ≤ tuples.length)
    (hcells : ∀ i (j : Nat) att, i < n → tupdesc[j]? = some att →
      CellConverts L att ((tuples.getD i []).getD j none)) :
    ∃ cols : List SEXP,
      (List.range tupdesc.length).foldlM (pg_tuple_get_r_frame_col L tuples n tupdesc)
        (NEW_LIST tupdesc.length, NEW_CHARACTER tupdesc.length)
        = .ok (.vec cols [], .str (tupdesc.map (fun att => some att.fname)) [])
      ∧ cols.length = tupdesc.length
      ∧ ∀ (j : Nat) att, tupdesc[j]? = some att → ∃ col, cols[j]? = some col ∧ ColumnFits att n col := by
  obtain ⟨r, h1, xs, ns, h2, h3, h4, h5, h6⟩ := foldlM_range_inv
    (pg_tuple_get_r_frame_col L tuples n tupdesc)
    (fun j st => ∃ xs ns, st = (SEXP.vec xs [], SEXP.str ns [])
      ∧ xs.length = tupdesc.length ∧ ns.length = tupdesc.length
      ∧ (∀ j2 att, j2 < j → tupdesc[j2]? = some att →
          ∃ col, xs[j2]? = some col ∧ ColumnFits att n col)
      ∧ (∀ j2 att, j2 < j → tupdesc[j2]? = some att → ns[j2]? = some (some att.fname)))
    tupdesc.length (NEW_LIST tupdesc.length, NEW_CHARACTER tupdesc.length)
    ⟨_, _, rfl, by simp, by simp, fun j2 att h => absurd h (Nat.not_lt_zero _),
      fun j2 att h => absurd h (Nat.not_lt_zero _)⟩
    (by
      rintro j st hj ⟨xs, ns, rfl, hx, hn, hcol, hnm⟩
      have hatt : tupdesc.get? j = some tupdesc[j] := by simp [List.getElem?_eq_getElem hj]
      obtain ⟨col, k1, k2⟩ := frame_column_ok L tuples tupdesc[j] j n hrows
        (fun i hi => hcells i j tupdesc[j] hi (List.getElem?_eq_getElem hj))
      refine ⟨(.vec (xs.set j col) [], .str (ns.set j (some tupdesc[j].fname)) []), ?_,
        _, _, rfl, by simp [hx], by simp [hn], ?_, ?_⟩
      · unfold pg_tuple_get_r_frame_col
        simp only [hatt, SET_STRING_ELT_ok ns [] j _ (by omega), k1,
          SET_VECTOR_ELT_ok xs [] j _ (by omega)]
      · intro j2 att hj2 ha
        by_cases he : j2 = j
        · subst he
          rw [List.getElem?_eq_getElem hj, Option.some.injEq] at ha
          subst ha
          exact ⟨col, by simp [List.getElem?_set, hx, hj], k2⟩
        · obtain ⟨c, q1, q2⟩ := hcol j2 att (by omega) ha
          exact ⟨c, by rw [List.getElem?_set_ne (Ne.symm he)]; exact q1, q2⟩
      · intro j2 att hj2 ha
        by_cases he : j2 = j
        · subst he
          rw [List.getElem?_eq_getElem hj, Option.some.injEq] at ha
          subst ha
          simp [List.getElem?_set, hn, hj]
        · rw [List.getElem?_set_ne (Ne.symm he)]
          exact hnm j2 att (by omega) ha)
  have hns : ns = tupdesc.map (fun att => some att.fname) := by
    apply List.ext_getElem?
    intro j
    by_cases hj : j < tupdesc.length
    · rw [h6 j tupdesc[j] hj (List.getElem?_eq_getElem hj)]
      simp [List.getElem?_eq_getElem hj]
    · rw [List.getElem?_eq_none (by omega), List.getElem?_eq_none (by simpa using hj)]
  subst hns
  subst h2
  refine ⟨xs, h1, h3, fun j att ha => h5 j att ?_ ha⟩
  by_contra hj
  rw [List.getElem?_eq_none (by omega)] at ha
  cases ha

theorem row_names_ok (n : Nat) :
    (List.range n).foldlM (fun row_names i => SET_STRING_ELT row_names i (rowLabel i))
        (NEW_CHARACTER n) = .ok (.str ((List.range n).map rowLabel) []) := by
  obtain ⟨r, h1, xs, h2, h3, h4⟩ := foldlM_range_inv
    (fun row_names i => SET_STRING_ELT row_names i (rowLabel i))
    (fun i s => ∃ xs, s = SEXP.str xs [] ∧ xs.length = n
      ∧ ∀ i2, i2 < i → xs[i2]? = some (rowLabel i2))
    n (NEW_CHARACTER n) ⟨_, rfl, by simp, fun i2 h => absurd h (Nat.not_lt_zero _)⟩
    (by
      rintro i s hi ⟨xs, rfl, hx, hl⟩
      refine ⟨.str (xs.set i (rowLabel i)) [], SET_STRING_ELT_ok xs [] i _ (by omega), _, rfl,
        by simp [hx], ?_⟩
      intro i2 hi2
      by_cases he : i2 = i
      · subst he
        simp [List.getElem?_set, hx, hi]
      · rw [List.getElem?_set_ne (Ne.symm he)]
        exact hl i2 (by omega))
  have hxs : xs = (List.range n).map rowLabel := by
    apply List.ext_getElem?
    intro i
    by_cases hi : i < n
    · rw [h4 i hi]
      simp [List.getElem?_range hi]
    · rw [List.getElem?_eq_none (by omega), List.getElem?_eq_none (by simpa using hi)]
  rw [h1, h2, hxs]

/-- When the rows asked for are present and every cell converts,
`pg_tuple_get_r_frame` returns a generic vector with the frame attributes and
one fitting column per descriptor. -/
theorem pg_tuple_get_r_frame_ok {D : Type} (L : CRuntime) (ntuples : Int)
    (tuples : List (SPITuple D)) (tupdesc : List (SPIAttribute D))
    (hn : 1 ≤ ntuples) (hrows : ntuples.toNat ≤ tuples.length)
    (hcells : ∀ i (j : Nat) att, i < ntuples.toNat → tupdesc[j]? = some att →
      CellConverts L att ((tuples.getD i []).getD j none)) :
    ∃ cols : List SEXP, pg_tuple_get_r_frame L ntuples (some tuples) tupdesc
        = .ok (.vec cols (frameAttributes tupdesc ntuples.toNat))
      ∧ cols.length = tupdesc.length
      ∧ ∀ (j : Nat) att, tupdesc[j]? = some att →
          ∃ col, cols[j]? = some col ∧ ColumnFits att ntuples.toNat col := by
  obtain ⟨cols, h1, h2, h3⟩ := frame_columns_ok L tuples tupdesc ntuples.toNat hrows hcells
  refine ⟨cols, ?_, h2, h3⟩
  unfold pg_tuple_get_r_frame
  simp only [if_neg (not_lt.mpr hn), h1, row_names_ok]
  rfl

/-- Whenever `pg_tuple_get_r_frame` returns for at least one row, the value
carries the row labels of the rows. -/
theorem pg_tuple_get_r_frame_labels {D : Type} (L : CRuntime) (ntuples : Int)
    (tuples : List (SPITuple D)) (tupdesc : List (SPIAttribute D)) (r : SEXP)
    (hn : 1 ≤ ntuples) (h : pg_tuple_get_r_frame L ntuples (some tuples) tupdesc = .ok r) :
    getAttrib r R_RowNamesSymbol = some (.strs ((List.range ntuples.toNat).map rowLabel)) := by
  unfold pg_tuple_get_r_frame at h
  simp only [if_neg (not_lt.mpr hn), row_names_ok] at h
  cases hf : (List.range tupdesc.length).foldlM
      (pg_tuple_get_r_frame_col L tuples ntuples.toNat tupdesc)
      (NEW_LIST tupdesc.length, NEW_CHARACTER tupdesc.length) with
  | error e => rw [hf] at h; cases h
  | ok st =>
    obtain ⟨result, names⟩ := st
    rw [hf] at h
    simp only [Except.ok.injEq] at h
    have hvec : ∃ xs a, result = .vec xs a := by
      have := foldlM_ok_inv (pg_tuple_get_r_frame_col L tuples ntuples.toNat tupdesc)
        (fun st => ∃ xs a, st.1 = SEXP.vec xs a)
        (by
          rintro s j s2 ⟨xs, a, hs⟩ hstep
          unfold pg_tuple_get_r_frame_col at hstep
          simp only at hstep
          split at hstep
          · cases hstep
          · split at hstep
            · cases hstep
            · split at hstep
              · cases hstep
              · split at hstep
                · cases hstep
                · rename_i res hset
                  cases hstep
                  rw [hs] at hset
                  unfold SET_VECTOR_ELT at hset
                  simp only at hset
                  split_ifs at hset
                  cases hset
                  exact ⟨_, _, rfl⟩)
        _ _ _ ⟨_, _, rfl⟩ hf
      exact this
    obtain ⟨xs, a, rfl⟩ := hvec
    rw [← h]
    simp only [getAttrib, setAttrib, ATTRIB]
    rw [lookupAttr_installAttr_ne _ _ _ _ (by decide), lookupAttr_installAttr_self]
    rfl

/-- C16, counterexample: one row over one column of an array type whose cell is
an array of four dimensions with one element. The row array is present and the
row count is 1, yet no frame is returned: the conversion fails with the
unsupported-dimensionality error. -/
theorem array_cell_of_four_dimensions :
    pg_tuple_get_r_frame sampleRuntime 1
        (some [[some (.array ⟨INT4OID, [1, 1, 1, 1], [1, 1, 1, 1], [7]⟩)]])
        [arrayColumn "v" INT4ARRAYOID INT4OID]
      = .error .argDimsNotSupported := rfl

/-- C16, amended: rows-to-frame shape. `pg_tuple_get_r_frame` returns
R_NilValue when the row array is absent or the row count is below 1. Otherwise,
when the n rows counted are present and every cell converts (a cell without
text in a scalar column lies in a column of the text kind; a cell of an array
column is null or an array that `pg_array_get_r` decodes), it returns a data
frame with exactly one column per descriptor, named by the descriptors in
order, every column of length n, a column of an array type being a list of n
per-row values and any other column a vector of the kind of its type. -/
theorem rows_to_frame_shape {D : Type} (L : CRuntime) (ntuples : Int)
    (tuples : List (SPITuple D)) (tupdesc : List (SPIAttribute D)) :
    pg_tuple_get_r_frame L ntuples none tupdesc = .ok .nil
    ∧ (ntuples < 1 → pg_tuple_get_r_frame L ntuples (some tuples) tupdesc = .ok .nil)
    ∧ (1 ≤ ntuples → ntuples.toNat ≤ tuples.length →
        (∀ i (j : Nat) att, i < ntuples.toNat → tupdesc[j]? = some att →
          CellConverts L att ((tuples.getD i []).getD j none)) →
        ∃ (cols : List SEXP) (r : SEXP),
          pg_tuple_get_r_frame L ntuples (some tuples) tupdesc = .ok r
          ∧ r = .vec cols (frameAttributes tupdesc ntuples.toNat)
          ∧ isFrame r = true
          ∧ cols.length = tupdesc.length
          ∧ getAttrib r R_NamesSymbol = some (.strs (tupdesc.map (fun att => some att.fname)))
          ∧ ∀ (j : Nat) att, tupdesc[j]? = some att →
              ∃ col, cols[j]? = some col ∧ length col = ntuples.toNat
                ∧ (frameTypelem att ≠ 0 → TYPEOF col = .VECSXP)
                ∧ (frameTypelem att = 0 → TYPEOF col = vectorKind att.typeid)) := by
  refine ⟨rfl, ?_, ?_⟩
  · intro h
    unfold pg_tuple_get_r_frame
    simp only [if_pos h]
  · intro hn hrows hcells
    obtain ⟨cols, h1, h2, h3⟩ := pg_tuple_get_r_frame_ok L ntuples tuples tupdesc hn hrows hcells
    exact ⟨cols, _, h1, rfl, rfl, h2, rfl, h3⟩

/-- C16 at two rows over a text column and a column of int4 arrays, the second
row null in both: the frame has two columns of length 2, the second a list. -/
theorem rows_to_frame_shape_witness :
    ∃ (cols : List SEXP) (r : SEXP),
      pg_tuple_get_r_frame sampleRuntime 2 (some exampleRows) exampleRowsDesc = .ok r
      ∧ r = .vec cols (frameAttributes exampleRowsDesc 2)
      ∧ isFrame r = true
      ∧ cols.length = 2
      ∧ getAttrib r R_NamesSymbol = some (.strs [some "t", some "v"])
      ∧ ∃ col, cols[1]? = some col ∧ length col = 2 ∧ TYPEOF col = .VECSXP := by
  obtain ⟨cols, r, h1, h2, h3, h4, h5, h6⟩ :=
    (rows_to_frame_shape sampleRuntime 2 exampleRows exampleRowsDesc).2.2 (by decide)
      (by decide)
      (fun i j att hi hj => by
        have hi2 : i < 2 := hi
        match j, hj with
        | 0, hj =>
          cases hj
          match i, hi2 with
          | 0, _ => exact ⟨rfl, fun _ => rfl⟩
          | 1, _ => exact fun _ => rfl
        | 1, hj =>
          cases hj
          match i, hi2 with
          | 0, _ => exact ⟨by decide, _, rfl⟩
          | 1, _ => exact fun h => absurd h (by decide)
        | j + 2, hj => simp [exampleRowsDesc] at hj)
  obtain ⟨col, k1, k2, k3, _⟩ := h6 1 _ rfl
  exact ⟨cols, r, h1, h2, h3, h4, h5, col, k1, k2, k3 (by decide)⟩

/-- C17: row labels. For a row count n >= 1, whatever value
`pg_tuple_get_r_frame` returns carries as row labels the list of length n whose
entry i is the decimal text of i + 1; and when the n rows are present and every
cell converts, it does return. -/
theorem row_labels {D : Type} (L : CRuntime) (ntuples : Int)
    (tuples : List (SPITuple D)) (tupdesc : List (SPIAttribute D)) (hn : 1 ≤ ntuples) :
    (∀ r, pg_tuple_get_r_frame L ntuples (some tuples) tupdesc = .ok r →
      ∃ labels, getAttrib r R_RowNamesSymbol = some (.strs labels)
        ∧ labels.length = ntuples.toNat
        ∧ ∀ i, i < ntuples.toNat → labels[i]? = some (some (Nat.repr (i + 1))))
    ∧ (ntuples.toNat ≤ tuples.length →
        (∀ i (j : Nat) att, i < ntuples.toNat → tupdesc[j]? = some att →
          CellConverts L att ((tuples.getD i []).getD j none)) →
        ∃ r, pg_tuple_get_r_frame L ntuples (some tuples) tupdesc = .ok r) := by
  constructor
  · intro r hr
    refine ⟨_, pg_tuple_get_r_frame_labels L ntuples tuples tupdesc r hn hr, by simp, ?_⟩
    intro i hi
    simp [List.getElem?_range hi, rowLabel]
  · intro hrows hcells
    obtain ⟨cols, h1, _⟩ := pg_tuple_get_r_frame_ok L ntuples tuples tupdesc hn hrows hcells
    exact ⟨_, h1⟩

/-- C17 at two rows of one text column: the labels are "1" and "2". -/
theorem row_labels_witness :
    ∃ r labels, pg_tuple_get_r_frame sampleRuntime 2 (some [[some (.scalar "a")], [none]])
        [textColumn "t"] = .ok r
      ∧ getAttrib r R_RowNamesSymbol = some (.strs labels)
      ∧ labels.length = 2
      ∧ labels[0]? = some (some "1") ∧ labels[1]? = some (some "2") := by
  have h := row_labels sampleRuntime 2 [[some (.scalar "a")], [none]] [textColumn "t"]
    (by decide)
  obtain ⟨labels, k1, k2, k3⟩ := h.1 _ rfl
  exact ⟨_, labels, rfl, k1, k2, k3 0 (by decide), k3 1 (by decide)⟩

/-- C18, evaluation: `get_frame_tuplestore` decides on element 0 of a column
whether a cell is null. For the one-column frame ("a", NA) in a set-returning
call, row 1 holds the text NA, not a null; for the one-column frame (NA, "b"),
row 1 holds a null although its element is the text b. -/
theorem frame_rows_null_test_reads_element_zero :
    get_frame_tuplestore sampleRuntime
        (.vec [.str [some "a", none] []] [(R_ClassSymbol, .strs [some "data.frame"])])
        (⟨[textAttr "x"]⟩ : TupleDesc String) 1 true 0
      = .ok (⟨1, [[some "a"], [some "NA"]]⟩, 0)
    ∧ get_frame_tuplestore sampleRuntime
        (.vec [.str [none, some "b"] []] [(R_ClassSymbol, .strs [some "data.frame"])])
        (⟨[textAttr "x"]⟩ : TupleDesc String) 1 true 0
      = .ok (⟨1, [[none], [none]]⟩, 0) :=
  ⟨rfl, rfl⟩

/-- C19, evaluation: `get_generic_tuplestore` and `get_matrix_tuplestore` hand
the C string of every element to the tuple builder, that of the missing marker
included. For the character vector ("a", NA) the second row holds the text NA,
and for the 2 x 2 character matrix with elements a, NA, c, d the cell made from
the missing element holds the text NA; neither is a null. -/
theorem vector_rows_missing_becomes_text :
    get_generic_tuplestore sampleRuntime (.str [some "a", none] [])
        (⟨[textAttr "x"]⟩ : TupleDesc String) 1 true 0
      = .ok (⟨1, [[some "a"], [some "NA"]]⟩, 0)
    ∧ get_matrix_tuplestore sampleRuntime
        (.str [some "a", none, some "c", some "d"] [(R_DimSymbol, .ints [2, 2])])
        (⟨[textAttr "x", textAttr "y"]⟩ : TupleDesc String) 1 true 0
      = .ok (⟨1, [[some "a", some "c"], [some "NA", some "d"]]⟩, 0) :=
  ⟨rfl, rfl⟩

/-- C20, evaluation: in a call that does not return a set,
`get_matrix_tuplestore` strides by 1 instead of the row extent. For the 2 x 2
integer matrix with rows (1, 2) and (3, 4), stored as 1, 3, 2, 4, the single
row holds the texts 1 and 3, the elements at offsets 0 and 1, where row 0 of
the matrix is (1, 2); the set-returning call gives the rows (1, 2) and (3, 4). -/
theorem matrix_single_row_strides_by_one :
    get_matrix_tuplestore sampleRuntime (.int [1, 3, 2, 4] [(R_DimSymbol, .ints [2, 2])])
        (⟨[textAttr "x", textAttr "y"]⟩ : TupleDesc String) 1 false 0
      = .ok (⟨1, [[some "1", some "3"]]⟩, 0)
    ∧ get_matrix_tuplestore sampleRuntime (.int [1, 3, 2, 4] [(R_DimSymbol, .ints [2, 2])])
        (⟨[textAttr "x", textAttr "y"]⟩ : TupleDesc String) 1 true 0
      = .ok (⟨1, [[some "1", some "2"], [some "3", some "4"]]⟩, 0) :=
  ⟨rfl, rfl⟩

/-- C21, evaluation: for a null cell `pg_tuple_get_r_frame` calls
`SET_STRING_ELT(fldvec, i, NA_STRING)` whatever the kind of the column vector.
One row that is null in an int4 column, in a float8 column or in a boolean
column makes the conversion end in a store of a character element into a
vector that is not a character vector, a memory fault; no vector with the
missing marker of the column kind is produced. In a text column the null row
gets `NA_STRING` and the other row its text. -/
theorem null_cell_in_numeric_column :
    pg_tuple_get_r_frame sampleRuntime 1 (some [[none]]) [scalarColumn "n" INT4OID]
      = .error .memoryFault
    ∧ pg_tuple_get_r_frame sampleRuntime 1 (some [[none]]) [scalarColumn "x" FLOAT8OID]
      = .error .memoryFault
    ∧ pg_tuple_get_r_frame sampleRuntime 1 (some [[none]]) [scalarColumn "b" BOOLOID]
      = .error .memoryFault
    ∧ pg_tuple_get_r_frame sampleRuntime 2 (some [[some (.scalar 5)], [none]])
        [scalarColumn "t" TEXTOID]
      = .ok (.vec [.str [some "5", NA_STRING] []]
          (frameAttributes [scalarColumn "t" TEXTOID] 2)) :=
  ⟨rfl, rfl, rfl, rfl⟩

/-- C22, evaluation: `get_array_datum` hands a vector to `get_md_array_datum`
only when its dim attribute has 2 or 3 extents, so the error of the latter for
more than 3 dimensions is never reached. The integer vector (1, 2) with the
dim attribute (1, 1, 1, 2) is neither refused nor returned with its extents:
it goes to `get_generic_array_datum` and comes back as the one-dimensional
array of its two elements. -/
theorem four_extents_flattened :
    get_array_datum sampleRuntime (.int [1, 2] [(R_DimSymbol, .ints [1, 1, 1, 2])])
        exampleFunction
      = .ok ⟨INT2OID, [2], [1], [1, 2]⟩
    ∧ get_array_datum sampleRuntime (.int [1, 2] [(R_DimSymbol, .ints [1, 1, 1, 2])])
        exampleFunction
      = get_generic_array_datum sampleRuntime
          (.int [1, 2] [(R_DimSymbol, .ints [1, 1, 1, 2])]) exampleFunction
    ∧ get_md_array_datum sampleRuntime (.int [1, 2] [(R_DimSymbol, .ints [1, 1, 1, 2])]) 4
        exampleFunction
      = .error .retDimsNotSupported :=
  ⟨rfl, rfl, rfl⟩

/-- The offsets the loops visit, in visiting order, are the offsets
0, ..., nr * nc * nz - 1 in some order, each once. -/
theorem idx_perm_range (nr nc nz : Nat) :
    ((triples nr nc nz).map (fun t => arrayIdx nr nc t.1 t.2.1 t.2.2)).Perm
      (List.range (nr * nc * nz)) := by
  rw [List.perm_ext_iff_of_nodup (nodup_triples_idx nr nc nz) (List.nodup_range _)]
  intro o
  rw [List.mem_range, List.mem_map]
  constructor
  · rintro ⟨t, ht, rfl⟩
    rw [mem_triples] at ht
    exact arrayIdx_lt ht.1 ht.2.1 ht.2.2
  · intro ho
    obtain ⟨t, ht, h⟩ := arrayIdx_surj ho
    exact ⟨t, ht, h⟩

/-- The writes of the decode loop, applied to a vector of nr * nc * nz slots:
the offset of the p-th visit holds the decoding of payload element p. -/
theorem applyWrites_decode_get {D : Type} (L : CRuntime) (v : ArrayType D)
    (out_func : OutFunc D) (nr nc nz : Nat) (xs : List RElt) (hxs : xs.length = nr * nc * nz)
    (p : Nat) (t : Nat × Nat × Nat) (hpt : (triples nr nc nz)[p]? = some t) :
    (applyWrites xs (decodeWrites L v out_func nr nc 0 (triples nr nc nz)))[
        arrayIdx nr nc t.1 t.2.1 t.2.2]?
      = some (decodeElt L v.elemtype (textAt v out_func p)) := by
  have hmem : (arrayIdx nr nc t.1 t.2.1 t.2.2, decodeElt L v.elemtype (textAt v out_func p))
      ∈ decodeWrites L v out_func nr nc 0 (triples nr nc nz) := by
    unfold decodeWrites
    refine List.mem_map.2 ⟨(p, t), ?_, rfl⟩
    have := (List.mk_add_mem_enumFrom_iff_getElem? (n := 0) (i := p) (x := t)
      (l := triples nr nc nz)).2 hpt
    simpa using this
  have hnd : ((decodeWrites L v out_func nr nc 0 (triples nr nc nz)).map Prod.fst).Nodup := by
    rw [decodeWrites_fst]
    exact nodup_triples_idx nr nc nz
  have hmt : t ∈ triples nr nc nz := List.getElem?_mem hpt
  rw [mem_triples] at hmt
  exact applyWrites_get_of_mem _ xs _ hnd hmem (by
    rw [hxs]
    exact arrayIdx_lt hmt.1 hmt.2.1 hmt.2.2)

/-- The vector `pg_array_get_r` returns is the vector it allocated with the
writes of its loop applied. -/
theorem pg_array_get_r_writes {D : Type} (L : CRuntime) (v : ArrayType D) (out_func : OutFunc D)
    (nr nc nz : Nat) (hext : HasExtents v.dims nr nc nz) (hpos : nr * nc * nz ≠ 0)
    (hlen : v.data.length = nr * nc * nz)
    (htext : ∀ d ∈ v.data, ∃ s, out_func d = some s) :
    ∃ r, pg_array_get_r L v out_func = .ok r
      ∧ length r = nr * nc * nz
      ∧ elts r = applyWrites (elts (get_r_vector v.elemtype (nr * nc * nz)))
          (decodeWrites L v out_func nr nc 0 (triples nr nc nz))
      ∧ ∀ (p : Nat) t, (triples nr nc nz)[p]? = some t →
          (elts r)[arrayIdx nr nc t.1 t.2.1 t.2.2]?
            = some (decodeElt L v.elemtype (textAt v out_func p)) := by
  obtain ⟨r0, h1, _, _, h4, h5⟩ := pg_array_get_r_decode L v out_func nr nc nz hext hpos hlen htext
  have helts : elts (if 1 < v.dims.length then
      setAttrib r0 R_DimSymbol (.ints (v.dims.map Int.ofNat)) else r0) = elts r0 := by
    split_ifs
    · exact elts_setAttrib _ _ _
    · rfl
  have hinit : (elts (get_r_vector v.elemtype (nr * nc * nz))).length = nr * nc * nz := by
    rw [← length_eq_elts, get_r_vector_length]
  refine ⟨_, h1, by rw [length_eq_elts, helts, h4], ?_, fun p t hpt => by
    rw [helts]; exact h5 p t hpt⟩
  rw [helts]
  apply List.ext_getElem?
  intro o
  by_cases ho : o < nr * nc * nz
  · obtain ⟨t, ht, hidx⟩ := arrayIdx_surj ho
    obtain ⟨p, hp⟩ := List.getElem?_of_mem ht
    rw [← hidx, h5 p t hp, applyWrites_decode_get L v out_func nr nc nz _ hinit p t hp]
  · rw [List.getElem?_eq_none (by omega),
      List.getElem?_eq_none (by rw [applyWrites_length, hinit]; omega)]

/-- The array `get_md_array_datum` returns for a value whose dim attribute
holds the extents and whose elements all encode: output position p holds the
encoding of the element at the offset of the p-th visit. -/
theorem get_md_array_datum_reads {D : Type} (L : CRuntime) (rval : SEXP)
    (function : plr_function D) (rdims : List Int) (ndims nr nc nz : Nat) (g : CHARSXP → D)
    (hattr : getAttrib rval R_DimSymbol = some (.ints rdims))
    (hdims : (ndims = 2 ∧ rdims = [Int.ofNat nr, Int.ofNat nc] ∧ nz = 1)
      ∨ (ndims = 3 ∧ rdims = [Int.ofNat nr, Int.ofNat nc, Int.ofNat nz]))
    (hlen : length rval = nr * nc * nz)
    (henc : ∀ c ∈ asCharacterElts L rval,
      encodeElt function.result_elem_in_func c = .ok (g c)) :
    ∃ data : List D, get_md_array_datum L rval ndims function
        = .ok ⟨function.result_elem, rdims.map Int.toNat, List.replicate ndims 1, data⟩
      ∧ data.length = nr * nc * nz
      ∧ ∀ (p : Nat) t, (triples nr nc nz)[p]? = some t →
          ∃ c, (asCharacterElts L rval)[arrayIdx nr nc t.1 t.2.1 t.2.2]? = some c
            ∧ data[p]? = some (g c) := by
  have hcl : (asCharacterElts L rval).length = nr * nc * nz := by
    rw [length_asCharacterElts, hlen]
  have hread : ∀ (p : Nat) t, (triples nr nc nz)[p]? = some t →
      ∃ c, (asCharacterElts L rval)[arrayIdx nr nc t.1 t.2.1 t.2.2]? = some c
        ∧ c = ((asCharacterElts L rval)[arrayIdx nr nc ((triples nr nc nz).getD p (0, 0, 0)).1
              ((triples nr nc nz).getD p (0, 0, 0)).2.1
              ((triples nr nc nz).getD p (0, 0, 0)).2.2]?).getD none := by
    intro p t hp
    have hm : t ∈ triples nr nc nz := List.getElem?_mem hp
    rw [mem_triples] at hm
    have hlt : arrayIdx nr nc t.1 t.2.1 t.2.2 < (asCharacterElts L rval).length := by
      rw [hcl]
      exact arrayIdx_lt hm.1 hm.2.1 hm.2.2
    refine ⟨(asCharacterElts L rval)[arrayIdx nr nc t.1 t.2.1 t.2.2],
      List.getElem?_eq_getElem hlt, ?_⟩
    simp [List.getD_eq_getElem?_getD, hp, List.getElem?_eq_getElem hlt]
  have hmd := md_encode L rval function rdims ndims nr nc nz
    (fun p => g (((asCharacterElts L rval)[arrayIdx nr nc
      ((triples nr nc nz).getD p (0, 0, 0)).1
      ((triples nr nc nz).getD p (0, 0, 0)).2.1
      ((triples nr nc nz).getD p (0, 0, 0)).2.2]?).getD none))
    hattr
    (by
      rcases hdims with ⟨h1, h2, h3⟩ | ⟨h1, h2⟩
      · exact Or.inl ⟨_, _, h2, h1, by simp, by simp, h3⟩
      · exact Or.inr ⟨_, _, _, h2, h1, by simp, by simp, by simp⟩)
    (fun q t hq => by
      obtain ⟨c, h1, h2⟩ := hread q t hq
      refine ⟨c, h1, ?_⟩
      rw [henc c (List.getElem?_mem h1)]
      exact congrArg (fun x => (Except.ok (g x) : Except PlrError D)) h2)
  refine ⟨_, hmd, by simp, ?_⟩
  intro p t hp
  obtain ⟨c, h1, h2⟩ := hread p t hp
  have hpl : p < nr * nc * nz := by
    have := (List.getElem?_eq_some_iff.1 hp).1
    rwa [length_triples] at this
  refine ⟨c, h1, ?_⟩
  rw [List.getElem?_map, List.getElem?_range hpl, Option.map_some', ← h2]

/-- C23: the offset map is a bijection. For all extents nr, nc, nz the map
(i, j, k) -> k * nr * nc + j * nr + i sends the index box into
0 .. nr * nc * nz - 1, is injective on the box and reaches every offset below
nr * nc * nz. The three nested loops visit the indices of the box in the order
of `triples`, and the offsets they visit are the offsets below nr * nc * nz,
each exactly once. Consequently `pg_array_get_r`, on a non-empty array with
these loop extents whose nr * nc * nz payload elements have text, returns
without a fault the vector of nr * nc * nz slots it allocated with the writes
of its loop applied, one write per visited offset, so each slot is written
exactly once and the offset of the p-th visit holds the decoding of payload
element p; and `get_md_array_datum`, on a value whose dim attribute holds
these extents and whose nr * nc * nz elements encode, returns without a fault
an array of nr * nc * nz elements whose position p holds the encoding of the
element at the offset of the p-th visit, so every element is read exactly once
and the output positions are filled consecutively. -/
theorem offset_map_bijection (nr nc nz : Nat) :
    (∀ i j k, i < nr → j < nc → k < nz → arrayIdx nr nc i j k < nr * nc * nz)
    ∧ (∀ i j k i2 j2 k2, i < nr → j < nc → k < nz → i2 < nr → j2 < nc → k2 < nz →
        arrayIdx nr nc i j k = arrayIdx nr nc i2 j2 k2 → i = i2 ∧ j = j2 ∧ k = k2)
    ∧ (∀ o, o < nr * nc * nz →
        ∃ i j k, i < nr ∧ j < nc ∧ k < nz ∧ arrayIdx nr nc i j k = o)
    ∧ (∀ (σ : Type) (body : Nat → Nat → Nat → σ → Except PlrError σ) (init : σ),
        loop3 nr nc nz body init
          = (triples nr nc nz).foldlM (fun s t => body t.1 t.2.1 t.2.2 s) init)
    ∧ ((triples nr nc nz).map (fun t => arrayIdx nr nc t.1 t.2.1 t.2.2)).Perm
        (List.range (nr * nc * nz))
    ∧ (∀ (D : Type) (L : CRuntime) (v : ArrayType D) (out_func : OutFunc D),
        HasExtents v.dims nr nc nz → nr * nc * nz ≠ 0 →
        v.data.length = nr * nc * nz → (∀ d ∈ v.data, ∃ s, out_func d = some s) →
        ∃ r, pg_array_get_r L v out_func = .ok r
          ∧ length r = nr * nc * nz
          ∧ elts r = applyWrites (elts (get_r_vector v.elemtype (nr * nc * nz)))
              (decodeWrites L v out_func nr nc 0 (triples nr nc nz))
          ∧ (decodeWrites L v out_func nr nc 0 (triples nr nc nz)).map Prod.fst
              = (triples nr nc nz).map (fun t => arrayIdx nr nc t.1 t.2.1 t.2.2)
          ∧ ∀ (p : Nat) t, (triples nr nc nz)[p]? = some t →
              (elts r)[arrayIdx nr nc t.1 t.2.1 t.2.2]?
                = some (decodeElt L v.elemtype (textAt v out_func p)))
    ∧ (∀ (D : Type) (L : CRuntime) (rval : SEXP) (function : plr_function D)
        (rdims : List Int) (ndims : Nat) (g : CHARSXP → D),
        getAttrib rval R_DimSymbol = some (.ints rdims) →
        ((ndims = 2 ∧ rdims = [Int.ofNat nr, Int.ofNat nc] ∧ nz = 1)
          ∨ (ndims = 3 ∧ rdims = [Int.ofNat nr, Int.ofNat nc, Int.ofNat nz])) →
        length rval = nr * nc * nz →
        (∀ c ∈ asCharacterElts L rval, encodeElt function.result_elem_in_func c = .ok (g c)) →
        ∃ data : List D, get_md_array_datum L rval ndims function
            = .ok ⟨function.result_elem, rdims.map Int.toNat, List.replicate ndims 1, data⟩
          ∧ data.length = nr * nc * nz
          ∧ ∀ (p : Nat) t, (triples nr nc nz)[p]? = some t →
              ∃ c, (asCharacterElts L rval)[arrayIdx nr nc t.1 t.2.1 t.2.2]? = some c
                ∧ data[p]? = some (g c)) := by
  refine ⟨fun i j k hi hj hk => arrayIdx_lt hi hj hk,
    fun i j k i2 j2 k2 hi hj _ hi2 hj2 _ h => arrayIdx_inj hi hj hi2 hj2 h, ?_,
    fun σ body init => loop3_eq nr nc nz body init, idx_perm_range nr nc nz, ?_, ?_⟩
  · intro o ho
    obtain ⟨t, ht, h⟩ := arrayIdx_surj ho
    rw [mem_triples] at ht
    exact ⟨t.1, t.2.1, t.2.2, ht.1, ht.2.1, ht.2.2, h⟩
  · intro D L v out_func hext hpos hlen htext
    obtain ⟨r, h1, h2, h3, h4⟩ := pg_array_get_r_writes L v out_func nr nc nz hext hpos hlen htext
    exact ⟨r, h1, h2, h3, decodeWrites_fst L v out_func nr nc 0 _, h4⟩
  · intro D L rval function rdims ndims g hattr hdims hlen henc
    exact get_md_array_datum_reads L rval function rdims ndims nr nc nz g hattr hdims hlen henc

/-- C23 at the extents (2, 2, 1): the visited offsets 0, 2, 1, 3 are a
rearrangement of 0, 1, 2, 3; `pg_array_get_r` on the 2 x 2 smallint array
[[1,2],[3,4]] returns a vector of 4 elements with payload element 1 at offset
2, and `get_md_array_datum` on the 2 x 2 matrix stored as 1, 3, 2, 4 returns an
array of 4 elements with the element at offset 2 in position 1. -/
theorem offset_map_bijection_witness :
    [0, 2, 1, 3].Perm [0, 1, 2, 3]
    ∧ (∃ r, pg_array_get_r sampleRuntime exampleMatrix intOut = .ok r
        ∧ length r = 4 ∧ (elts r)[2]? = some (.int 2))
    ∧ (∃ data : List Int,
        get_md_array_datum sampleRuntime (.int [1, 3, 2, 4] [(R_DimSymbol, .ints [2, 2])]) 2
            exampleFunction = .ok ⟨INT2OID, [2, 2], [1, 1], data⟩
        ∧ data.length = 4 ∧ data[1]? = some 2) := by
  have h := offset_map_bijection 2 2 1
  refine ⟨h.2.2.2.2.1, ?_, ?_⟩
  · obtain ⟨r, h1, h2, _, _, h5⟩ := h.2.2.2.2.2.1 Int sampleRuntime exampleMatrix intOut
      (Or.inr (Or.inl ⟨rfl, rfl⟩)) (by decide) rfl (fun d _ => ⟨toString d, rfl⟩)
    exact ⟨r, h1, h2, h5 1 (0, 1, 0) rfl⟩
  · obtain ⟨data, h1, h2, h3⟩ := h.2.2.2.2.2.2 Int sampleRuntime
      (.int [1, 3, 2, 4] [(R_DimSymbol, .ints [2, 2])]) exampleFunction [2, 2] 2
      (fun c => atoi (CHAR c)) rfl (Or.inl ⟨rfl, rfl, rfl⟩) rfl
      (fun c hc => by
        have hc2 : c ∈ ([some "1", some "3", some "2", some "4"] : List CHARSXP) := hc
        simp only [List.mem_cons, List.mem_singleton, List.not_mem_nil, or_false] at hc2
        rcases hc2 with rfl | rfl | rfl | rfl <;> rfl)
    obtain ⟨c, k1, k2⟩ := h3 1 (0, 1, 0) rfl
    have hc : c = some "2" := by
      have : (asCharacterElts sampleRuntime
          (.int [1, 3, 2, 4] [(R_DimSymbol, .ints [2, 2])]))[arrayIdx 2 2 0 1 0]?
          = some (some "2") := rfl
      rw [this] at k1
      exact (Option.some.inj k1).symm
    subst hc
    exact ⟨data, h1, h2, k2⟩

end PLR
